import Mathlib

/-!
# DocElement: bounds checking, drag and resize, field values, parameter references

A shallow embedding of `src/elements/DocElement.js` (ReportBro designer).

Numbers: coordinates and sizes are modelled as `Int`; values that are not whole numbers
are outside the model.  Text values are `String`, a list of Unicode characters; the
references that the code searches for start with `'$'` and end with a brace or a dot, so
the search on characters agrees with the search on the code units of the language.
Overridable methods of the class whose base implementation is a constant
(`getProperties`, `getMinWidth`, `getMinHeight`, `getElementType`, `hasDataSource`) are
data of the element, with the base value as default.  References that the code resolves
through `rb.getDataObject(id)` are carried resolved: a container is passed where the code
calls `getContainer()`, and an element carries its linked container.  Objects of classes
that are not in `DocElement.js` (parameters, panel items, `rb`, the built-in `JSON`) are
carried as what the code reads of them.  A method whose call can end with an error of
the language (a `TypeError` on `null`, a `SyntaxError` of `JSON.parse`) has an `Option`
result, `none` for the error.
-/

namespace ReportBro

/-- Width and height, as returned by `getContentSize()` and `getContainerContentSize()`. -/
structure Size where
  width : Int
  height : Int
deriving DecidableEq, Repr

/-- A rectangle `(x, y, width, height)`. -/
structure Rect where
  x : Int
  y : Int
  width : Int
  height : Int
deriving DecidableEq, Repr

/-- Lines 317-334 of `checkBounds`: the adaptation of the proposed rectangle to the
container size, before any command is created. -/
def clampBounds (x y width height : Int) (containerSize : Size) : Rect :=
  let x := if x + width > containerSize.width then containerSize.width - width else x
  let x := if x < 0 then 0 else x
  let width := if x + width > containerSize.width then containerSize.width - x else width
  let y := if y + height > containerSize.height then containerSize.height - height else y
  let y := if y < 0 then 0 else y
  let height := if y + height > containerSize.height then containerSize.height - y else height
  { x := x, y := y, width := width, height := height }

/-- A JavaScript value stored in a field or carried by a command: text, a number, a
boolean, `null`, `undefined`, or a reference to an object (a panel item, a DOM node)
named by an id. -/
inductive Value where
  | str (s : String)
  | num (n : Int)
  | bool (b : Bool)
  | null
  | undefined
  | ref (n : Nat)
deriving DecidableEq, Repr

/-- The values of `DocElement.type`. -/
inductive ElementType where
  | none
  | text
  | image
  | line
  | table
  | pageBreak
  | tableText
  | barCode
  | frame
  | section
deriving DecidableEq, Repr

/-- The text of a `DocElement.type` value (lines 1030-1041). -/
def ElementType.value : ElementType → String
  | .none => "none"
  | .text => "text"
  | .image => "image"
  | .line => "line"
  | .table => "table"
  | .pageBreak => "page_break"
  | .tableText => "table_text"
  | .barCode => "bar_code"
  | .frame => "frame"
  | .section => "section"

/-- The object `{ x, y }` returned by `getDragDiff` and by `getOffsetTo`. -/
structure Point where
  x : Int
  y : Int
deriving DecidableEq, Repr

/-- The command kinds `SetValueCmd.type` that `DocElement.js` names. -/
inductive SetValueType where
  | text
  | richText
  | internal
deriving DecidableEq, Repr

/-- The arguments of `new SetValueCmd(objId, field, value, type, rb)`, with a flag that
records whether `disableSelect()` was called on the command. -/
structure SetValueCmd where
  objId : Nat
  field : String
  value : Value
  type : SetValueType
  selectDisabled : Bool := false
deriving DecidableEq, Repr

/-- The arguments of `new MovePanelItemCmd(panelItem, parentPanelItem, position, rb)`:
the reference of the moved panel item (`null` or an id), the reference of the panel item
it is moved under, and the position among the children of that item. -/
structure MovePanelItemCmd where
  panelItem : Option Nat
  parentPanelItem : Nat
  position : Nat
deriving DecidableEq, Repr

/-- The arguments of
`new AddDeleteDocElementCmd(add, panelName, initialData, id, parentId, position, rb)` as
`addCommandsForDelete` passes them: the flag (`false` for a delete), the name of the
panel, the serialized state of the element, its id, the id of its container and its
position among its siblings. -/
structure AddDeleteDocElementCmd where
  add : Bool
  panelName : String
  initialData : List (String × Value)
  id : Nat
  parentId : Option Nat
  position : Nat
deriving DecidableEq, Repr

/-- A command of a command group. -/
inductive Command where
  | setValue (cmd : SetValueCmd)
  | movePanelItem (cmd : MovePanelItemCmd)
  | addDeleteDocElement (cmd : AddDeleteDocElementCmd)
deriving DecidableEq, Repr

/-- The values of `DocElement.dragType`. -/
inductive DragType where
  | none
  | element
  | sizerN
  | sizerNE
  | sizerE
  | sizerSE
  | sizerS
  | sizerSW
  | sizerW
  | sizerNW
deriving DecidableEq, Repr

/-- The own fields of a doc element (constructor, lines 13-37), and the constant
results of its overridable methods: `getProperties()` (base `[]`), `getMinWidth()` and
`getMinHeight()` (base `20`), `getElementType()` (base `none`), `hasDataSource()` (base
`false`).  `panelItem` is the
reference of the element's panel item.  `other` holds, in order, every own property of
the object that has no field of its own here (`rb`, `el`, `selected`, `errors`, the
fields of a subclass, properties added by an assignment). -/
structure Fields where
  id : Nat
  name : String := ""
  panelItem : Option Nat := none
  x : Value := .str "0"
  y : Value := .str "0"
  width : Value
  height : Value
  containerId : Option Nat := none
  linkedContainerId : Option Nat := none
  printIf : String := ""
  removeEmptyElement : Bool := false
  xVal : Int := 0
  yVal : Int := 0
  widthVal : Int := 0
  heightVal : Int := 0
  other : List (String × Value) := []
  properties : List String := []
  minWidth : Int := 20
  minHeight : Int := 20
  elementType : ElementType := .none
  hasDataSource : Bool := false
deriving DecidableEq, Repr

/-- What `rb.getDataObject(linkedContainerId)` gives: no object, a container whose
`getPanelItem()` is `null`, or a container with a panel item. -/
inductive LinkedContainer where
  | null
  | withoutPanelItem
  | withPanelItem
deriving DecidableEq, Repr

mutual
/-- A doc element: its fields, the object its `linkedContainerId` resolves to, and the
children of a panel item, read only when there is a panel item: `checkBounds` reads them
from the panel item of the linked container, `appendContainerChildren` from the panel
item of the element. -/
inductive DocElement where
  | mk (fields : Fields) (linked : LinkedContainer) (children : PanelItems)
/-- The result of `getChildren()` on a panel item: the items in order, each with a
doc element as its data or with some other data. -/
inductive PanelItems where
  | nil
  | docElement (element : DocElement) (rest : PanelItems)
  | other (rest : PanelItems)
end

/-- A panel item as `updateDrag` reads it: its reference and the references of its
children, in order (`getChildren()`). -/
structure PanelItem where
  id : Nat
  children : List Nat := []
deriving DecidableEq, Repr

/-- Container as far as `DocElement.js` reads it: `getId()`, `getContentSize()`, its
absolute offset from the document origin, the element types `isElementAllowed` accepts,
and `getPanelItem()`. -/
structure Container where
  id : Nat
  contentSize : Size
  offset : Point := { x := 0, y := 0 }
  allowedElementTypes : List ElementType := []
  panelItem : Option PanelItem := none
deriving DecidableEq, Repr

/-- The method `isElementAllowed(elementType)` of a container. -/
def Container.isElementAllowed (c : Container) (elementType : ElementType) : Bool :=
  c.allowedElementTypes.contains elementType

/-- Modelled from the spec: `Container.getOffsetTo` is not in `DocElement.js`; the spec
names it the relative offset of the container to another container: the difference of
their absolute offsets. -/
def Container.getOffsetTo (c other : Container) : Point :=
  { x := c.offset.x - other.offset.x, y := c.offset.y - other.offset.y }

namespace DocElement

/-- The own fields of the element. -/
def fields : DocElement → Fields
  | .mk f _ _ => f

/-- Lines 236-241: `null` when `linkedContainerId` is `null`, else the object the id
resolves to. -/
def getLinkedContainer : DocElement → LinkedContainer
  | .mk f linked _ => if f.linkedContainerId ≠ none then linked else .null

/-- Children of the linked container's panel item. -/
def linkedChildren : DocElement → PanelItems
  | .mk _ _ children => children

end DocElement

/-- Lines 457-459. -/
def hasProperty (f : Fields) (property : String) : Bool :=
  f.properties.contains property

/-- Lines 426-428. -/
def getDisplayWidth (f : Fields) : Int := f.widthVal

/-- Lines 430-432. -/
def getDisplayHeight (f : Fields) : Int := f.heightVal

/-- Lines 757-759 (the base class returns 20). -/
def getMinWidth (f : Fields) : Int := f.minWidth

/-- Lines 775-777 (the base class returns 20). -/
def getMinHeight (f : Fields) : Int := f.minHeight

/-- Lines 255-258, given the result of `getContainer()`. -/
def getContainerContentSize (container : Option Container) : Size :=
  match container with
  | some c => c.contentSize
  | none => { width := 0, height := 0 }

/-- Lines 766-769. -/
def getMaxWidth (container : Option Container) : Int :=
  (getContainerContentSize container).width

/-- The command built at lines 337-339, 343-345 and 352-354: a text `SetValueCmd` on
`field` with value `'' + v`, with `disableSelect()` called. -/
def geometryCmd (f : Fields) (field : String) (v : Int) : Command :=
  .setValue { objId := f.id, field := field, value := .str (toString v), type := .text,
              selectDisabled := true }

/-- Lines 982-989. -/
def addCommandsForChangedWidth (f : Fields) (newWidth : Int) (disableSelect : Bool)
    (cmdGroup : List Command) : List Command :=
  let cmd : SetValueCmd :=
    { objId := f.id, field := "width", value := .str (toString newWidth), type := .text }
  let cmd := if disableSelect then { cmd with selectDisabled := true } else cmd
  cmdGroup ++ [.setValue cmd]

/-- Lines 336-356 of `checkBounds`: the commands for the element itself, given the
adapted rectangle. -/
def addBoundsCommands (f : Fields) (r : Rect) (cmdGroup : List Command) : List Command :=
  let cmdGroup :=
    if r.x ≠ f.xVal ∧ hasProperty f "x" then cmdGroup ++ [geometryCmd f "x" r.x] else cmdGroup
  let cmdGroup :=
    if r.y ≠ f.yVal ∧ hasProperty f "y" then cmdGroup ++ [geometryCmd f "y" r.y] else cmdGroup
  let cmdGroup :=
    if r.width ≠ getDisplayWidth f ∧ hasProperty f "width" then
      addCommandsForChangedWidth f r.width true cmdGroup
    else cmdGroup
  let cmdGroup :=
    if r.height ≠ getDisplayHeight f ∧ hasProperty f "height" then
      cmdGroup ++ [geometryCmd f "height" r.height]
    else cmdGroup
  cmdGroup

mutual
/-- Lines 316-370: adapt the rectangle, add the commands of the element, then check
every doc element child of the linked container against the adapted size. -/
def checkBounds : DocElement → Int → Int → Int → Int → Size → List Command → List Command
  | .mk f linked children, x, y, width, height, containerSize, cmdGroup =>
    let r := clampBounds x y width height containerSize
    let cmdGroup := addBoundsCommands f r cmdGroup
    if (DocElement.mk f linked children).getLinkedContainer = .withPanelItem then
      checkBoundsChildren children { width := r.width, height := r.height } cmdGroup
    else cmdGroup
/-- Lines 361-368: the loop over the children of the linked container's panel item. -/
def checkBoundsChildren : PanelItems → Size → List Command → List Command
  | .nil, _, cmdGroup => cmdGroup
  | .docElement e rest, linkedContainerSize, cmdGroup =>
    checkBoundsChildren rest linkedContainerSize
      (checkBounds e e.fields.xVal e.fields.yVal (getDisplayWidth e.fields)
        (getDisplayHeight e.fields) linkedContainerSize cmdGroup)
  | .other rest, linkedContainerSize, cmdGroup =>
    checkBoundsChildren rest linkedContainerSize cmdGroup
end

/-- The commands the spec describes for the element itself: for each of `x`, `y`,
`width`, `height` in this order, one text command carrying the decimal text of the
adapted value when that value differs from the stored one and the field is declared. -/
def expectedBoundsCommands (f : Fields) (r : Rect) : List Command :=
  [("x", r.x, f.xVal), ("y", r.y, f.yVal), ("width", r.width, f.widthVal),
    ("height", r.height, f.heightVal)].filterMap fun (field, new, old) =>
      if new ≠ old ∧ field ∈ f.properties then
        some (.setValue { objId := f.id, field := field, value := .str (toString new),
                          type := .text, selectDisabled := true })
      else none

/-- Modelled from the spec: `utils.roundValueToLowerInterval` is not in
`DocElement.js`; the spec names it rounding to a grid interval by floor: the largest
multiple of `interval` that is at most `val`. -/
def roundValueToLowerInterval (val interval : Int) : Int :=
  val / interval * interval

/-- Modelled from the spec: `utils.roundValueToUpperInterval` is not in
`DocElement.js`; the spec names it rounding to a grid interval by ceil: the smallest
multiple of `interval` that is at least `val`. -/
def roundValueToUpperInterval (val interval : Int) : Int :=
  -(-val / interval) * interval

/-- Modelled from the spec: `utils.roundValueToInterval` is not in `DocElement.js`; the
spec names it rounding to the nearest grid interval: the multiple of `interval` nearest
to `val` (of two equally near multiples, the upper one). -/
def roundValueToInterval (val interval : Int) : Int :=
  let tmp := roundValueToUpperInterval val interval
  if tmp - val ≤ interval / 2 then tmp else tmp - interval

/-- The four edge positions `posX1`, `posY1`, `posX2`, `posY2` of `updateDrag`. -/
structure Edges where
  posX1 : Int
  posY1 : Int
  posX2 : Int
  posY2 : Int
deriving DecidableEq, Repr

/-- The eight resize gestures. -/
def DragType.isSizer : DragType → Bool
  | .none => false
  | .element => false
  | _ => true

/-- Lines 487-580, given the result of `getContainer()`. -/
def getDragDiff (f : Fields) (container : Option Container) (diffX diffY : Int)
    (dragType : DragType) (gridSize : Int) : Point :=
  let rv : Point := { x := 0, y := 0 }
  let posX1 := f.xVal
  let posY1 := f.yVal
  let posX2 := posX1 + getDisplayWidth f
  let posY2 := posY1 + getDisplayHeight f
  let minWidth := getMinWidth f
  let maxWidth := getMaxWidth container
  let minHeight := getMinHeight f
  if dragType = .element then
    let dragX := posX1 + diffX
    let dragX := if gridSize ≠ 0 then roundValueToInterval dragX gridSize else dragX
    let dragY := posY1 + diffY
    let dragY := if gridSize ≠ 0 then roundValueToInterval dragY gridSize else dragY
    { x := dragX - posX1, y := dragY - posY1 }
  else
    let containerSize := getContainerContentSize container
    let rv :=
      if dragType = .sizerNW ∨ dragType = .sizerN ∨ dragType = .sizerNE then
        let dragY := posY1 + diffY
        let dragY := if gridSize ≠ 0 then roundValueToInterval dragY gridSize else dragY
        let dragY :=
          if dragY > posY2 - minHeight then
            if gridSize ≠ 0 then roundValueToLowerInterval (posY2 - minHeight) gridSize
            else posY2 - minHeight
          else if dragY < 0 then 0
          else dragY
        { rv with y := dragY - posY1 }
      else rv
    let rv :=
      if dragType = .sizerNE ∨ dragType = .sizerE ∨ dragType = .sizerSE then
        let dragX := posX2 + diffX
        let dragX := if gridSize ≠ 0 then roundValueToInterval dragX gridSize else dragX
        let dragX :=
          if dragX < posX1 + minWidth then
            if gridSize ≠ 0 then roundValueToUpperInterval (posX1 + minWidth) gridSize
            else posX1 + minWidth
          else if dragX > maxWidth then maxWidth
          else dragX
        { rv with x := dragX - posX2 }
      else rv
    let rv :=
      if dragType = .sizerSE ∨ dragType = .sizerS ∨ dragType = .sizerSW then
        let dragY := posY2 + diffY
        let dragY := if gridSize ≠ 0 then roundValueToInterval dragY gridSize else dragY
        let dragY :=
          if dragY < posY1 + minHeight then
            if gridSize ≠ 0 then roundValueToUpperInterval (posY1 + minHeight) gridSize
            else posY1 + minHeight
          else if dragY > containerSize.height then containerSize.height
          else dragY
        { rv with y := dragY - posY2 }
      else rv
    let rv :=
      if dragType = .sizerSW ∨ dragType = .sizerW ∨ dragType = .sizerNW then
        let dragX := posX1 + diffX
        let dragX := if gridSize ≠ 0 then roundValueToInterval dragX gridSize else dragX
        let dragX :=
          if dragX > posX2 - minWidth then
            if gridSize ≠ 0 then roundValueToLowerInterval (posX2 - minWidth) gridSize
            else posX2 - minWidth
          else if dragX < 0 then 0
          else dragX
        { rv with x := dragX - posX1 }
      else rv
    rv

/-- Lines 595-610 of `updateDrag`: each delta is added to the edges the resize gesture
touches. -/
def dragEdges (e : Edges) (diffX diffY : Int) (dragType : DragType) : Edges :=
  let e :=
    if dragType = .sizerNW ∨ dragType = .sizerN ∨ dragType = .sizerNE then
      { e with posY1 := e.posY1 + diffY }
    else e
  let e :=
    if dragType = .sizerNE ∨ dragType = .sizerE ∨ dragType = .sizerSE then
      { e with posX2 := e.posX2 + diffX }
    else e
  let e :=
    if dragType = .sizerSE ∨ dragType = .sizerS ∨ dragType = .sizerSW then
      { e with posY2 := e.posY2 + diffY }
    else e
  let e :=
    if dragType = .sizerSW ∨ dragType = .sizerW ∨ dragType = .sizerNW then
      { e with posX1 := e.posX1 + diffX }
    else e
  e

/-- The edges `posX1`, `posY1`, `posX2`, `posY2` of the stored rectangle (lines
583-586). -/
def storedEdges (f : Fields) : Edges :=
  { posX1 := f.xVal, posY1 := f.yVal,
    posX2 := f.xVal + getDisplayWidth f, posY2 := f.yVal + getDisplayHeight f }

/-- Lines 583-631 of `updateDrag`, given the result of `getContainer()`: the rectangle
`(posX1, posY1, width, height)` computed from the deltas, before the commit or preview
branch. -/
def updateDragRect (f : Fields) (container : Option Container) (diffX diffY : Int)
    (dragType : DragType) : Rect :=
  let e := storedEdges f
  let maxWidth := getMaxWidth container
  let containerSize := getContainerContentSize container
  let e : Edges :=
    if dragType = .element then
      let posX1 := e.posX1 + diffX
      let posX2 := posX1 + getDisplayWidth f
      let posY1 := e.posY1 + diffY
      let posY2 := posY1 + getDisplayHeight f
      { posX1 := posX1, posY1 := posY1, posX2 := posX2, posY2 := posY2 }
    else
      let e := dragEdges e diffX diffY dragType
      let posX1 := if e.posX1 < 0 then 0 else e.posX1
      let posX2 := if e.posX2 < posX1 then posX1 else e.posX2
      let posY1 := if e.posY1 < 0 then 0 else e.posY1
      let posY2 := if e.posY2 < posY1 then posY1 else e.posY2
      let posX2 := if posX2 > maxWidth then maxWidth else posX2
      let posY2 := if posY2 > containerSize.height then containerSize.height else posY2
      { posX1 := posX1, posY1 := posY1, posX2 := posX2, posY2 := posY2 }
  { x := e.posX1, y := e.posY1, width := e.posX2 - e.posX1, height := e.posY2 - e.posY1 }

/-- The legal-rectangle invariant of an element in its container. -/
def Legal (f : Fields) (container : Option Container) : Prop :=
  0 ≤ f.xVal ∧ 0 ≤ f.yVal ∧
  f.xVal + getDisplayWidth f ≤ (getContainerContentSize container).width ∧
  f.yVal + getDisplayHeight f ≤ (getContainerContentSize container).height ∧
  getMinWidth f ≤ getDisplayWidth f ∧ getMinHeight f ≤ getDisplayHeight f

instance (f : Fields) (container : Option Container) : Decidable (Legal f container) := by
  unfold Legal; infer_instance

/-- The rectangle `r` satisfies the legal-rectangle invariant for minimum sizes
`minWidth`, `minHeight` in a container of size `containerSize`. -/
def Rect.LegalIn (r : Rect) (minWidth minHeight : Int) (containerSize : Size) : Prop :=
  0 ≤ r.x ∧ 0 ≤ r.y ∧ r.x + r.width ≤ containerSize.width ∧
  r.y + r.height ≤ containerSize.height ∧ minWidth ≤ r.width ∧ minHeight ≤ r.height

instance (r : Rect) (minWidth minHeight : Int) (containerSize : Size) :
    Decidable (r.LegalIn minWidth minHeight containerSize) := by
  unfold Rect.LegalIn; infer_instance

/-- The number written by the leading decimal digits of `cs`, continuing `acc`. -/
def parseDigits : List Char → Nat → Nat
  | [], acc => acc
  | c :: cs, acc =>
    if c.isDigit then parseDigits cs (10 * acc + (c.toNat - '0'.toNat)) else acc

/-- The whole number a text starts with: an optional minus sign and decimal digits;
`0` when there is none. -/
def parseNumber (cs : List Char) : Int :=
  match cs with
  | [] => 0
  | c :: rest =>
    if c = '-' then -(parseDigits rest 0 : Int) else (parseDigits (c :: rest) 0 : Int)

/-- Modelled from the spec: `utils.convertInputToNumber` is not in `DocElement.js`; the
spec names it the numeric coercion of user-entered text into display numbers.  A number
is itself, a text is the whole number it starts with, every other value is `0`. -/
def convertInputToNumber : Value → Int
  | .num n => n
  | .str s => parseNumber s.data
  | _ => 0

/-- The assignment `ret[key] = value` on a mapping kept as a list of keys with their
values in insertion order: the value of an existing key is replaced, a new key is added
at the end. -/
def assign : List (String × Value) → String → Value → List (String × Value)
  | [], key, value => [(key, value)]
  | (k, v) :: rest, key, value =>
    if k = key then (k, value) :: rest else (k, v) :: assign rest key value

/-- The value of an id that may be `null`. -/
def idValue : Option Nat → Value
  | some n => .num n
  | none => .null

/-- The value of a reference that may be `null`. -/
def refValue : Option Nat → Value
  | some n => .ref n
  | none => .null

/-- The own properties of a doc element that `Fields` carries with a field of their
own. -/
inductive OwnField where
  | id
  | name
  | panelItem
  | x
  | y
  | width
  | height
  | containerId
  | linkedContainerId
  | printIf
  | removeEmptyElement
  | xVal
  | yVal
  | widthVal
  | heightVal
deriving DecidableEq, Repr

/-- The property name of an own property. -/
def OwnField.key : OwnField → String
  | .id => "id"
  | .name => "name"
  | .panelItem => "panelItem"
  | .x => "x"
  | .y => "y"
  | .width => "width"
  | .height => "height"
  | .containerId => "containerId"
  | .linkedContainerId => "linkedContainerId"
  | .printIf => "printIf"
  | .removeEmptyElement => "removeEmptyElement"
  | .xVal => "xVal"
  | .yVal => "yVal"
  | .widthVal => "widthVal"
  | .heightVal => "heightVal"

/-- The own properties that `Fields` carries with a field of their own. -/
def OwnField.all : List OwnField :=
  [.id, .name, .panelItem, .x, .y, .width, .height, .containerId, .linkedContainerId,
    .printIf, .removeEmptyElement, .xVal, .yVal, .widthVal, .heightVal]

/-- The own property a field name denotes, if `Fields` carries it with a field of its
own. -/
def ownField? (field : String) : Option OwnField :=
  OwnField.all.find? fun k => k.key == field

/-- The value of an own property. -/
def getOwn (f : Fields) : OwnField → Value
  | .id => .num f.id
  | .name => .str f.name
  | .panelItem => refValue f.panelItem
  | .x => f.x
  | .y => f.y
  | .width => f.width
  | .height => f.height
  | .containerId => idValue f.containerId
  | .linkedContainerId => idValue f.linkedContainerId
  | .printIf => .str f.printIf
  | .removeEmptyElement => .bool f.removeEmptyElement
  | .xVal => .num f.xVal
  | .yVal => .num f.yVal
  | .widthVal => .num f.widthVal
  | .heightVal => .num f.heightVal

/-- The id a value denotes: a natural number, or `null`. -/
def Value.toId? : Value → Option (Option Nat)
  | .num (.ofNat n) => some (some n)
  | .null => some none
  | _ => none

/-- The assignment to an own property.  A property with a type takes the values of that
type: an id is a natural number or `null`, a reference is a reference or `null`, a
numeric field is a number, `name` and `printIf` are text, `removeEmptyElement` is a
boolean; a value of another type is outside the model and leaves the property as it
is. -/
def setOwn (f : Fields) (k : OwnField) (value : Value) : Fields :=
  match k with
  | .id =>
    match value with
    | .num (.ofNat n) => { f with id := n }
    | _ => f
  | .name =>
    match value with
    | .str s => { f with name := s }
    | _ => f
  | .panelItem =>
    match value with
    | .ref n => { f with panelItem := some n }
    | .null => { f with panelItem := none }
    | _ => f
  | .x => { f with x := value }
  | .y => { f with y := value }
  | .width => { f with width := value }
  | .height => { f with height := value }
  | .containerId =>
    match value.toId? with
    | some i => { f with containerId := i }
    | none => f
  | .linkedContainerId =>
    match value.toId? with
    | some i => { f with linkedContainerId := i }
    | none => f
  | .printIf =>
    match value with
    | .str s => { f with printIf := s }
    | _ => f
  | .removeEmptyElement =>
    match value with
    | .bool b => { f with removeEmptyElement := b }
    | _ => f
  | .xVal =>
    match value with
    | .num n => { f with xVal := n }
    | _ => f
  | .yVal =>
    match value with
    | .num n => { f with yVal := n }
    | _ => f
  | .widthVal =>
    match value with
    | .num n => { f with widthVal := n }
    | _ => f
  | .heightVal =>
    match value with
    | .num n => { f with heightVal := n }
    | _ => f

/-- Lines 372-374: `this[field]`; `undefined` when the object has no such property. -/
def getValue (f : Fields) (field : String) : Value :=
  match ownField? field with
  | some k => getOwn f k
  | none => (f.other.lookup field).getD .undefined

/-- The assignment `this[field] = value` (lines 42 and 377): to the own property of that
name, or else to the property of that name in `other`. -/
def setField (f : Fields) (field : String) (value : Value) : Fields :=
  match ownField? field with
  | some k => setOwn f k value
  | none => { f with other := assign f.other field value }

/-- Lines 376-413, on the fields of the model: the value is stored in the field, and for
`x`, `y`, `width`, `height` the numeric field is derived from it.  The display, DOM,
container-level and style updates of the other branches have no effect on the fields. -/
def setValue (f : Fields) (field : String) (value : Value) : Fields :=
  let f := setField f field value
  if field = "x" then { f with xVal := convertInputToNumber value }
  else if field = "y" then { f with yVal := convertInputToNumber value }
  else if field = "width" then { f with widthVal := convertInputToNumber value }
  else if field = "height" then { f with heightVal := convertInputToNumber value }
  else f

/-- The id of the data object whose field a command sets; a command that moves a panel
item sets no field. -/
def Command.objId : Command → Option Nat
  | .setValue cmd => some cmd.objId
  | .movePanelItem _ => none
  | .addDeleteDocElement _ => none

/-- The field a command sets; a command that moves a panel item sets no field. -/
def Command.field : Command → Option String
  | .setValue cmd => some cmd.field
  | .movePanelItem _ => none
  | .addDeleteDocElement _ => none

/-- The four geometry fields (lines 378 and 1020). -/
def geometryFields : List String := ["x", "y", "width", "height"]

/-- A text `SetValueCmd` on one of the four geometry fields. -/
def Command.isGeometry : Command → Bool
  | .setValue cmd => geometryFields.contains cmd.field && cmd.type == .text
  | .movePanelItem _ => false
  | .addDeleteDocElement _ => false

/-- Modelled from the spec: `SetValueCmd` is not in `DocElement.js`; by the spec,
applying a command writes its new value into the target entity through the entity's
setter.  An element with another id is left as it is. -/
def Command.apply (cmd : Command) (f : Fields) : Fields :=
  match cmd with
  | .setValue c => if c.objId = f.id then ReportBro.setValue f c.field c.value else f
  | .movePanelItem _ => f
  | .addDeleteDocElement _ => f

/-- The commands of a group applied in order, as seen by one element. -/
def applyCommands (cmds : List Command) (f : Fields) : Fields :=
  cmds.foldl (fun f cmd => cmd.apply f) f

/-- The element declares the four geometry properties. -/
def declaresGeometry (f : Fields) : Bool :=
  hasProperty f "x" && hasProperty f "y" && hasProperty f "width" && hasProperty f "height"

/-- The numeric rectangle of the element lies within a container of the given size. -/
def Fields.Within (f : Fields) (size : Size) : Prop :=
  0 ≤ f.xVal ∧ 0 ≤ f.yVal ∧ f.xVal + f.widthVal ≤ size.width ∧
  f.yVal + f.heightVal ≤ size.height

mutual
/-- The ids of the element and of every doc element that `checkBounds` reaches from it
through linked containers. -/
def DocElement.nestedIds : DocElement → List Nat
  | .mk f linked children =>
    f.id :: (if (DocElement.mk f linked children).getLinkedContainer = .withPanelItem then
      PanelItems.nestedIds children else [])
/-- The ids of `DocElement.nestedIds` for each doc element of the items. -/
def PanelItems.nestedIds : PanelItems → List Nat
  | .nil => []
  | .docElement e rest => DocElement.nestedIds e ++ PanelItems.nestedIds rest
  | .other rest => PanelItems.nestedIds rest
end

mutual
/-- For an element nested in a container of size `size`: once the commands `cmds` are
applied to its stored fields, its rectangle lies within `size` (when it declares the
four geometry properties), and every doc element of its own linked container satisfies
the same with respect to the size this element gets when adapted to `size`. -/
def DocElement.WithinAfter : DocElement → Size → List Command → Prop
  | .mk f linked children, size, cmds =>
    (declaresGeometry f = true → (applyCommands cmds f).Within size) ∧
    ((DocElement.mk f linked children).getLinkedContainer = .withPanelItem →
      PanelItems.WithinAfter children
        { width := (clampBounds f.xVal f.yVal (getDisplayWidth f) (getDisplayHeight f)
            size).width,
          height := (clampBounds f.xVal f.yVal (getDisplayWidth f) (getDisplayHeight f)
            size).height } cmds)
/-- Every doc element of the items satisfies `DocElement.WithinAfter`. -/
def PanelItems.WithinAfter : PanelItems → Size → List Command → Prop
  | .nil, _, _ => True
  | .docElement e rest, size, cmds =>
    DocElement.WithinAfter e size cmds ∧ PanelItems.WithinAfter rest size cmds
  | .other rest, size, cmds => PanelItems.WithinAfter rest size cmds
end

/-- Lines 228-230. -/
def getContainerId (f : Fields) : Option Nat := f.containerId

/-- Lines 220-222. -/
def getPanelItem (f : Fields) : Option Nat := f.panelItem

/-- Lines 461-463 (the base class returns `DocElement.type.none`). -/
def getElementType (f : Fields) : ElementType := f.elementType

/-- Lines 448-450 (the base class returns `[]`). -/
def getProperties (f : Fields) : List String := f.properties

/-- Lines 438-442: `'id'` and `'containerId'` put in front of the properties. -/
def getFields (f : Fields) : List String :=
  "id" :: "containerId" :: getProperties f

/-- The rectangle that `updateDisplay()` passes to `updateDisplayInternal` (lines
465-467). -/
def storedRect (f : Fields) : Rect :=
  { x := f.xVal, y := f.yVal, width := f.widthVal, height := f.heightVal }

/-- What a call of `updateDrag` leaves: the element, the command group (`none` when
`null` was passed), and the rectangle of the call of `updateDisplayInternal`, if one is
made. -/
structure DragResult where
  element : DocElement
  cmdGroup : Option (List Command)
  display : Option Rect

/-- Lines 651-652: the command that sets `containerId` to the id of the drop
container. -/
def containerIdCmd (f : Fields) (dragContainer : Container) : Command :=
  .setValue { objId := f.id, field := "containerId", value := .num dragContainer.id,
              type := .internal }

/-- Lines 639-643: the rectangle in the frame of the drop container: when the element
has a container, the offset of the drop container to it is subtracted from the
position. -/
def dropRect (r : Rect) (container : Option Container) (dragContainer : Container) : Rect :=
  match container with
  | some c =>
    let relativeOffset := dragContainer.getOffsetTo c
    { r with x := r.x - relativeOffset.x, y := r.y - relativeOffset.y }
  | none => r

/-- Lines 582-669, given the result of `getContainer()`.  The result is `none` when the
call ends in a `TypeError`: `container.getContentSize()` on a `null` container (line
645), or `getChildren()` on a `null` panel item of the drop container (line 655). -/
def updateDrag (e : DocElement) (container : Option Container) (diffX diffY : Int)
    (dragType : DragType) (dragContainer : Option Container)
    (cmdGroup : Option (List Command)) : Option DragResult :=
  let f := e.fields
  let r := updateDragRect f container diffX diffY dragType
  match cmdGroup with
  | none => some { element := e, cmdGroup := none, display := some r }
  | some cmdGroup =>
    let changedTo : Option Container :=
      match dragContainer with
      | some dc => if some dc.id ≠ getContainerId f then some dc else none
      | none => none
    match changedTo with
    | some dc =>
      let containerSize := dc.contentSize
      let r := dropRect r container dc
      if dc.isElementAllowed (getElementType f) then
        let cmdGroup := checkBounds e r.x r.y r.width r.height containerSize cmdGroup
        let cmdGroup := cmdGroup ++ [containerIdCmd f dc]
        match dc.panelItem with
        | none => none
        | some parent =>
          let cmdGroup := cmdGroup ++
            [.movePanelItem { panelItem := getPanelItem f, parentPanelItem := parent.id,
                              position := parent.children.length }]
          some { element := e, cmdGroup := some cmdGroup,
                 display := if cmdGroup.isEmpty then some (storedRect f) else none }
      else
        some { element := e, cmdGroup := some cmdGroup, display := some (storedRect f) }
    | none =>
      match container with
      | none => none
      | some c =>
        let containerSize := c.contentSize
        let cmdGroup := checkBounds e r.x r.y r.width r.height containerSize cmdGroup
        some { element := e, cmdGroup := some cmdGroup,
               display := if cmdGroup.isEmpty then some (storedRect f) else none }

/-- The text `'' + value` of a value. -/
def jsToString : Value → String
  | .str s => s
  | .num n => toString n
  | .bool true => "true"
  | .bool false => "false"
  | .null => "null"
  | .undefined => "undefined"
  | .ref _ => "[object Object]"

/-- The test `this.hasOwnProperty(key)`. -/
def hasOwnProperty (f : Fields) (key : String) : Bool :=
  (ownField? key).isSome || (f.other.lookup key).isSome

/-- Lines 40-44: every key of the data that is an own property of the element is
assigned. -/
def assignInitialData (f : Fields) (initialData : List (String × Value)) : Fields :=
  initialData.foldl (fun f kv => if hasOwnProperty f kv.1 then setField f kv.1 kv.2 else f) f

/-- Lines 39-56. -/
def setInitialData (f : Fields) (initialData : List (String × Value)) : Fields :=
  let f := assignInitialData f initialData
  let f := { f with x := .str (jsToString f.x) }
  let f := { f with y := .str (jsToString f.y) }
  let f := { f with width := .str (jsToString f.width) }
  let f := { f with height := .str (jsToString f.height) }
  let f := { f with xVal := convertInputToNumber f.x }
  let f := { f with yVal := convertInputToNumber f.y }
  let f := { f with widthVal := convertInputToNumber f.width }
  let f := { f with heightVal := convertInputToNumber f.height }
  f

/-- Lines 61-81, given the result of `getContainer()`. -/
def setup (f : Fields) (container : Option Container) : Fields :=
  match container with
  | some c =>
    let containerSize := c.contentSize
    let xVal :=
      if f.xVal + f.widthVal > containerSize.width then containerSize.width - f.widthVal
      else f.xVal
    let xVal := if xVal < 0 then 0 else xVal
    let yVal :=
      if f.yVal + f.heightVal > containerSize.height then containerSize.height - f.heightVal
      else f.yVal
    let yVal := if yVal < 0 then 0 else yVal
    { f with xVal := xVal, yVal := yVal, x := .str (toString xVal), y := .str (toString yVal) }
  | none => f

/-- Lines 1020-1024: the value `toJS` stores for a field: `getValue(field)` when the
field is none of `x`, `y`, `width`, `height`, and `getValue(field + 'Val')` otherwise. -/
def toJSValue (f : Fields) (field : String) : Value :=
  if geometryFields.contains field then getValue f (field ++ "Val") else getValue f field

/-- Lines 1017-1027: the mapping with `elementType` and then, for every field of
`getFields()` in order, the assignment of its value. -/
def toJS (f : Fields) : List (String × Value) :=
  (getFields f).foldl (fun ret field => assign ret field (toJSValue f field))
    [("elementType", .str (getElementType f).value)]

/-- The numeric geometry is the conversion of the text geometry. -/
def Consistent (f : Fields) : Prop :=
  f.xVal = convertInputToNumber f.x ∧ f.yVal = convertInputToNumber f.y ∧
  f.widthVal = convertInputToNumber f.width ∧ f.heightVal = convertInputToNumber f.height

instance (f : Fields) (size : Size) : Decidable (f.Within size) := by
  unfold Fields.Within; infer_instance

instance (f : Fields) : Decidable (Consistent f) := by
  unfold Consistent; infer_instance

mutual
/-- Every doc element nested in the linked container of the element lies within the
size of the element, and so on at every depth. -/
def DocElement.NestedWithin : DocElement → Prop
  | .mk f linked children =>
    (DocElement.mk f linked children).getLinkedContainer = .withPanelItem →
      PanelItems.AllWithin children
        { width := getDisplayWidth f, height := getDisplayHeight f }
/-- Every doc element of the items lies within `size`, and what is nested in it lies
within it. -/
def PanelItems.AllWithin : PanelItems → Size → Prop
  | .nil, _ => True
  | .docElement e rest, size =>
    (DocElement.fields e).Within size ∧ DocElement.NestedWithin e ∧
      PanelItems.AllWithin rest size
  | .other rest, size => PanelItems.AllWithin rest size
end

/-- Modelled from the spec: `SetValueCmd` is not in `DocElement.js`; by the spec, the
information to invert a command is captured as the value of the field immediately
before the command is applied (`getValue(field)`). -/
def Command.capture (cmd : Command) (f : Fields) : Value :=
  match cmd with
  | .setValue c => getValue f c.field
  | .movePanelItem _ => .undefined
  | .addDeleteDocElement _ => .undefined

/-- Modelled from the spec: `SetValueCmd` is not in `DocElement.js`; by the spec,
reverting a command writes the captured value back through the setter of the entity.
An element with another id is left as it is. -/
def Command.revert (cmd : Command) (captured : Value) (f : Fields) : Fields :=
  match cmd with
  | .setValue c => if c.objId = f.id then ReportBro.setValue f c.field captured else f
  | .movePanelItem _ => f
  | .addDeleteDocElement _ => f

/-- The values captured by the commands of a group while the group is applied in
order, as seen by one element. -/
def captureGroup : List Command → Fields → List Value
  | [], _ => []
  | cmd :: cmds, f => cmd.capture f :: captureGroup cmds (cmd.apply f)

/-- Modelled from the spec: `CommandGroupCmd` is not in `DocElement.js`; by the spec, a
group reverts its commands in reverse order, each with the value it captured. -/
def revertGroup : List Command → List Value → Fields → Fields
  | cmd :: cmds, captured :: rest, f => cmd.revert captured (revertGroup cmds rest f)
  | _, _, f => f

/-- The fields of an element after a group is applied and then reverted. -/
def applyThenRevert (cmds : List Command) (f : Fields) : Fields :=
  revertGroup cmds (captureGroup cmds f) (applyCommands cmds f)

/-- The eight geometry fields of an element: the four texts and the four numbers. -/
def Fields.geometry (f : Fields) : Value × Value × Value × Value × Int × Int × Int × Int :=
  (f.x, f.y, f.width, f.height, f.xVal, f.yVal, f.widthVal, f.heightVal)

/-- The names of the four numeric geometry fields. -/
def derivedFields : List String := ["xVal", "yVal", "widthVal", "heightVal"]

/-- The fields that the commands of `checkBounds` and `updateDrag` set. -/
def dragFields : List String := ["x", "y", "width", "height", "containerId"]

/-- A command as `checkBounds` and `updateDrag` build them: a `SetValueCmd` on one of
`x`, `y`, `width`, `height`, `containerId`, or a `MovePanelItemCmd`. -/
def Command.isDragCommand : Command → Bool
  | .setValue cmd => dragFields.contains cmd.field
  | .movePanelItem _ => true
  | .addDeleteDocElement _ => false

/-- The fields `g` are the fields `f` up to the four numeric geometry fields, each of
which is that of `f` or the conversion of the text field of `f`. -/
def Fields.RestoredFrom (g f : Fields) : Prop :=
  ∃ a b c d : Int,
    g = { f with xVal := a, yVal := b, widthVal := c, heightVal := d } ∧
    (a = f.xVal ∨ a = convertInputToNumber f.x) ∧
    (b = f.yVal ∨ b = convertInputToNumber f.y) ∧
    (c = f.widthVal ∨ c = convertInputToNumber f.width) ∧
    (d = f.heightVal ∨ d = convertInputToNumber f.height)

/-- The characters that `String.prototype.trim` removes: the white space and line
terminator code points of the language. -/
def isWhiteSpace (c : Char) : Bool :=
  c.toNat = 0x09 || c.toNat = 0x0A || c.toNat = 0x0B || c.toNat = 0x0C || c.toNat = 0x0D ||
  c.toNat = 0x20 || c.toNat = 0xA0 || c.toNat = 0x1680 ||
  (0x2000 ≤ c.toNat && c.toNat ≤ 0x200A) ||
  c.toNat = 0x2028 || c.toNat = 0x2029 || c.toNat = 0x202F || c.toNat = 0x205F ||
  c.toNat = 0x3000 || c.toNat = 0xFEFF

/-- The characters of `str.trim()`. -/
def trimChars (cs : List Char) : List Char :=
  ((cs.dropWhile isWhiteSpace).reverse.dropWhile isWhiteSpace).reverse

/-- The test `value.indexOf(pattern) !== -1` on the characters of two texts. -/
def containsChars (pattern : List Char) : List Char → Bool
  | [] => pattern.isEmpty
  | c :: cs => pattern.isPrefixOf (c :: cs) || containsChars pattern cs

/-- The test `value.indexOf(pattern) !== -1`. -/
def includes (value pattern : String) : Bool :=
  containsChars pattern.data value.data

/-- The text with every occurrence of `oldVal` replaced by `newVal`, read from left to
right; `skip` counts the characters of an occurrence that are still to be passed. -/
def replaceAllChars (oldVal newVal : List Char) : Nat → List Char → List Char
  | _, [] => []
  | skip + 1, _ :: cs => replaceAllChars oldVal newVal skip cs
  | 0, c :: cs =>
    if oldVal.isPrefixOf (c :: cs) then
      newVal ++ replaceAllChars oldVal newVal (oldVal.length - 1) cs
    else c :: replaceAllChars oldVal newVal 0 cs

/-- Modelled from the spec: `utils.replaceAll` is not in `DocElement.js`; by the spec the
field's full value is replaced with all occurrences of the old pattern substituted. -/
def replaceAll (str oldVal newVal : String) : String :=
  ⟨replaceAllChars oldVal.data newVal.data 0 str.data⟩

/-- The value `getValue('type')` of a parameter as far as `DocElement.js` tells the
values apart: `Parameter.type.array`, `Parameter.type.map`, or another value. -/
inductive ParameterType where
  | array
  | map
  | other
deriving DecidableEq, Repr

/-- A parameter as far as `DocElement.js` reads it: the identity of the object (`id`,
what `indexOf` compares), `getName()`, `getValue('type')` and `getChildren()`. -/
inductive Parameter where
  | mk (id : Nat) (name : String) (type : ParameterType) (children : List Parameter)

/-- The identity of the parameter object. -/
def Parameter.id : Parameter → Nat
  | .mk id _ _ _ => id

/-- The method `getName()` of a parameter. -/
def Parameter.getName : Parameter → String
  | .mk _ name _ _ => name

/-- The value `getValue('type')` of a parameter. -/
def Parameter.type : Parameter → ParameterType
  | .mk _ _ type _ => type

/-- The method `getChildren()` of a parameter. -/
def Parameter.getChildren : Parameter → List Parameter
  | .mk _ _ _ children => children

/-- An item of the result of `getAllDataSources` (line 855). -/
structure DataSource where
  name : String
  parameters : List Parameter

/-- Modelled from the spec: `Band.bandType` is not in `DocElement.js`, which compares
the `bandType` of a child with `Band.bandType.content`; the model takes the text
`'content'` for that value. -/
def bandTypeContent : Value := .str "content"

/-- Lines 815-824.  The result is `none` when the call ends with a `TypeError`: the
element has a data source and its `dataSource` value is not a text. -/
def getDataSourceParameterName (f : Fields) : Option (Option String) :=
  if f.hasDataSource then
    match getValue f "dataSource" with
    | .str s =>
      let dataSource := trimChars s.data
      if dataSource.length ≥ 3 ∧ dataSource.take 2 = ['$', '\x7b'] ∧
          dataSource.getLast? = some '\x7d' then
        some (some ⟨(dataSource.take (dataSource.length - 1)).drop 2⟩)
      else some none
    | _ => none
  else some none

/-- Lines 866-882.  `ancestors` are the doc elements that
`getPanelItem().getParent().getData()` reaches in turn from the element (they are read
only while the panel item is not `null`); the names are appended to
`dataSourceParameterNames`. -/
def getAllDataSourceParameterNames :
    Fields → List Fields → Option Fields → List String → Option (List String)
  | f, ancestors, child, dataSourceParameterNames =>
    let own : Option (List String) :=
      if getElementType f = .table ∨ getElementType f = .section then
        match child with
        | some c =>
          if getValue c "bandType" = bandTypeContent then
            match getDataSourceParameterName f with
            | some (some dataSourceParameterName) =>
              some (dataSourceParameterNames ++ [dataSourceParameterName])
            | some none => some dataSourceParameterNames
            | none => none
          else some dataSourceParameterNames
        | none => some dataSourceParameterNames
      else some dataSourceParameterNames
    match own with
    | none => none
    | some dataSourceParameterNames =>
      match ancestors with
      | [] => some dataSourceParameterNames
      | parent :: rest =>
        if getPanelItem f ≠ none then
          getAllDataSourceParameterNames parent rest (some f) dataSourceParameterNames
        else some dataSourceParameterNames

/-- Lines 843-848: the inner loop of the search, over the parameters of one data source.
It stops at the first parameter with the name; `param` stays as it is when there is
none. -/
def findInDataSource (dataSourceName : String) (param : Option Parameter)
    (parentDataSource : DataSource) : Option Parameter :=
  match parentDataSource.parameters.find? (fun p => p.getName == dataSourceName) with
  | some dataSourceParameter => some dataSourceParameter
  | none => param

/-- Lines 841-849: the search for the data source name among the parameters of the data
sources found so far.  The outer loop goes on through every data source. -/
def findDataSourceParameter (dataSources : List DataSource) (dataSourceName : String) :
    Option Parameter :=
  dataSources.foldl (findInDataSource dataSourceName) none

/-- Lines 838-856: one round of the loop of `getAllDataSources`.
`getParameterByName` is the method of `rb`. -/
def addDataSource (getParameterByName : String → Option Parameter)
    (dataSources : List DataSource) (dataSourceName : String) : List DataSource :=
  let param :=
    match findDataSourceParameter dataSources dataSourceName with
    | some p => some p
    | none => getParameterByName dataSourceName
  match param with
  | some p =>
    if p.type = .array then
      { name := dataSourceName, parameters := p.getChildren } :: dataSources
    else dataSources
  | none => dataSources

/-- Lines 837-857: the loop of `getAllDataSources` over the names, from the last name to
the first. -/
def resolveDataSources (getParameterByName : String → Option Parameter) :
    List String → List DataSource
  | [] => []
  | dataSourceName :: rest =>
    addDataSource getParameterByName (resolveDataSources getParameterByName rest)
      dataSourceName

/-- Lines 831-859. -/
def getAllDataSources (getParameterByName : String → Option Parameter) (f : Fields)
    (ancestors : List Fields) : Option (List DataSource) :=
  (getAllDataSourceParameterNames f ancestors none []).map
    (resolveDataSources getParameterByName)

/-- The two functions of the built-in `JSON` object that `DocElement.js` calls, given
as parameters: `stringify` on an object value, and `parse`, which is `none` when the text
is not JSON (the call ends with a `SyntaxError`). -/
structure JSON where
  stringify : Value → String
  parse : String → Option Value

/-- The test `typeof value === 'object'`: an object reference or `null`. -/
def Value.isObject : Value → Bool
  | .ref _ => true
  | .null => true
  | _ => false

/-- The text `'$\x7b' + name + '\x7d'`. -/
def simpleRef (name : String) : String := "$\x7b" ++ name ++ "\x7d"

/-- The text `'$\x7b' + parent + '.' + name + '\x7d'`. -/
def qualifiedRef (parent name : String) : String := "$\x7b" ++ parent ++ "." ++ name ++ "\x7d"

/-- The text `'$\x7b' + name + '.'`. -/
def prefixRef (name : String) : String := "$\x7b" ++ name ++ "."

/-- Lines 905-941 of `addCommandForChangedParameterName`: the references `paramRef` and
`newParamRef`, `none` when they stay `null`.  `paramParent` is the result of
`parameter.getParent()`; `indexOf(parameter)` compares the identity of the objects. -/
def paramRefs (dataSources : List DataSource) (parameter : Parameter)
    (paramParent : Option Parameter) (newParameterName : String) : Option (String × String) :=
  if paramParent.map Parameter.type = some .array then
    if dataSources.any (fun dataSource =>
        dataSource.parameters.any fun p => p.id == parameter.id) then
      some (simpleRef parameter.getName, simpleRef newParameterName)
    else none
  else if paramParent.map Parameter.type = some .map then
    match paramParent with
    | some parent =>
      some (qualifiedRef parent.getName parameter.getName,
        qualifiedRef parent.getName newParameterName)
    | none => none
  else if parameter.type = .map then
    some (prefixRef parameter.getName, prefixRef newParameterName)
  else if dataSources.any (fun dataSource =>
      dataSource.parameters.any fun dataSourceParam =>
        dataSourceParam.getName == parameter.getName) then
    none
  else some (simpleRef parameter.getName, simpleRef newParameterName)

/-- Lines 943-960 of `addCommandForChangedParameterName`: the command for a field value,
given the references.  The result is `none` when the call ends with an error: the value
is neither a text nor an object (`indexOf` is not a function), or `JSON.parse` rejects the
updated text. -/
def addReplaceCommand (json : JSON) (f : Fields) (field : String)
    (paramRef newParamRef : String) (cmdGroup : List Command) : Option (List Command) :=
  match getValue f field with
  | .str value =>
    if includes value paramRef then
      some (cmdGroup ++ [.setValue
        { objId := f.id, field := field,
          value := .str (replaceAll value paramRef newParamRef), type := .text }])
    else some cmdGroup
  | .num _ => none
  | .bool _ => none
  | .undefined => none
  | .null =>
    if includes (json.stringify .null) paramRef then
      match json.parse (replaceAll (json.stringify .null) paramRef newParamRef) with
      | some updatedValue =>
        some (cmdGroup ++ [.setValue
          { objId := f.id, field := field, value := updatedValue, type := .richText }])
      | none => none
    else some cmdGroup
  | .ref n =>
    if includes (json.stringify (.ref n)) paramRef then
      match json.parse (replaceAll (json.stringify (.ref n)) paramRef newParamRef) with
      | some updatedValue =>
        some (cmdGroup ++ [.setValue
          { objId := f.id, field := field, value := updatedValue, type := .richText }])
      | none => none
    else some cmdGroup

/-- Lines 902-962.  `getParameterByName` is the method of `rb`, `ancestors` are the doc
elements above the element (see `getAllDataSourceParameterNames`), `paramParent` is the
result of `parameter.getParent()`.  The result is `none` when the call ends with an
error. -/
def addCommandForChangedParameterName (json : JSON)
    (getParameterByName : String → Option Parameter) (f : Fields) (ancestors : List Fields)
    (parameter : Parameter) (paramParent : Option Parameter) (newParameterName : String)
    (field : String) (cmdGroup : List Command) : Option (List Command) :=
  match getAllDataSources getParameterByName f ancestors with
  | none => none
  | some dataSources =>
    match paramRefs dataSources parameter paramParent newParameterName with
    | some (paramRef, newParamRef) =>
      addReplaceCommand json f field paramRef newParamRef cmdGroup
    | none => some cmdGroup

/-- What `addCommandsForDelete` reads of a panel item, by the reference of the item:
`getPanelName()` and `getSiblingPosition()`. -/
structure PanelItemStore where
  getPanelName : Nat → String
  getSiblingPosition : Nat → Nat

mutual
/-- Lines 275-287.  The children of the element in the tree are read here as
`this.panelItem.getChildren()`. -/
def appendContainerChildren : DocElement → List DocElement → List DocElement
  | .mk f _ children, elements =>
    if f.linkedContainerId ≠ none ∧ f.panelItem ≠ none then
      appendPanelChildren children elements
    else elements
/-- Lines 279-284: the loop over the children of the panel item. -/
def appendPanelChildren : PanelItems → List DocElement → List DocElement
  | .nil, elements => elements
  | .docElement e rest, elements =>
    appendPanelChildren rest (appendContainerChildren e (elements ++ [e]))
  | .other rest, elements => appendPanelChildren rest elements
end

/-- Lines 974-977: the delete command of an element whose panel item is `item`. -/
def deleteCommand (panelItems : PanelItemStore) (element : DocElement) (item : Nat) :
    Command :=
  .addDeleteDocElement
    { add := false, panelName := panelItems.getPanelName item,
      initialData := toJS element.fields, id := element.fields.id,
      parentId := getContainerId element.fields,
      position := panelItems.getSiblingPosition item }

/-- Lines 973-979: the loop of `addCommandsForDelete` over the collected elements.  The
result is `none` when an element has no panel item (`getPanelItem()` is `null` and the
call ends with a `TypeError`). -/
def addDeleteCommands (panelItems : PanelItemStore) :
    List DocElement → List Command → Option (List Command)
  | [], cmdGroup => some cmdGroup
  | element :: rest, cmdGroup =>
    match getPanelItem element.fields with
    | some item =>
      addDeleteCommands panelItems rest (cmdGroup ++ [deleteCommand panelItems element item])
    | none => none

/-- The id of the element that a delete command removes. -/
def Command.deletedId : Command → Option Nat
  | .addDeleteDocElement cmd => some cmd.id
  | _ => none

/-- Lines 969-980. -/
def addCommandsForDelete (panelItems : PanelItemStore) (e : DocElement)
    (cmdGroup : List Command) : Option (List Command) :=
  addDeleteCommands panelItems (appendContainerChildren e [] ++ [e]) cmdGroup

mutual
/-- The doc elements nested in an element through its linked container, directly or
transitively, in pre-order: every child that is a doc element, followed by the doc
elements nested in it, before the next child.  An element without a linked container
has none. -/
def DocElement.nested : DocElement → List DocElement
  | .mk f _ children => if f.linkedContainerId = none then [] else PanelItems.nested children
/-- The doc elements among the items, each followed by the doc elements nested in it. -/
def PanelItems.nested : PanelItems → List DocElement
  | .nil => []
  | .docElement e rest => e :: (DocElement.nested e ++ PanelItems.nested rest)
  | .other rest => PanelItems.nested rest
end

/-- The rectangle lies within a container of the given size. -/
def Rect.Within (r : Rect) (size : Size) : Prop :=
  0 ≤ r.x ∧ 0 ≤ r.y ∧ r.x + r.width ≤ size.width ∧ r.y + r.height ≤ size.height

instance (r : Rect) (size : Size) : Decidable (r.Within size) := by
  unfold Rect.Within; infer_instance

/-- A container with content size 300 x 200. -/
def frame300x200 : Container := { id := 1, contentSize := { width := 300, height := 200 } }

/-- An element at `(0, 0)` of size 100 x 50 in container 1, declaring the four geometry
properties. -/
def textElement : Fields :=
  { id := 2, x := .str "0", y := .str "0", width := .str "100", height := .str "50",
    containerId := some 1, xVal := 0, yVal := 0, widthVal := 100, heightVal := 50,
    properties := ["x", "y", "width", "height"] }

/-- A container with content size 105 x 205. -/
def frame105x205 : Container := { id := 1, contentSize := { width := 105, height := 205 } }

/-- An element of the minimum size 20 x 20 in the bottom right corner of a 105 x 205
container. -/
def cornerElement : Fields :=
  { id := 2, x := .str "85", y := .str "185", width := .str "20", height := .str "20",
    containerId := some 1, xVal := 85, yVal := 185, widthVal := 20, heightVal := 20,
    properties := ["x", "y", "width", "height"] }

/-- A grandchild element at `(20, 5)` of size 30 x 20. -/
def innerText : Fields :=
  { id := 5, x := .str "20", y := .str "5", width := .str "30", height := .str "20",
    containerId := some 11, xVal := 20, yVal := 5, widthVal := 30, heightVal := 20,
    properties := ["x", "y", "width", "height"] }

/-- A frame at `(50, 10)` of size 40 x 30, nested in the linked container 10 of the
outer frame; its own linked container is 11. -/
def innerFrame : Fields :=
  { id := 4, x := .str "50", y := .str "10", width := .str "40", height := .str "30",
    containerId := some 10, linkedContainerId := some 11,
    xVal := 50, yVal := 10, widthVal := 40, heightVal := 30,
    properties := ["x", "y", "width", "height"] }

/-- A frame at `(0, 0)` of size 100 x 50 with linked container 10. -/
def outerFrame : Fields :=
  { id := 3, x := .str "0", y := .str "0", width := .str "100", height := .str "50",
    containerId := some 1, linkedContainerId := some 10,
    xVal := 0, yVal := 0, widthVal := 100, heightVal := 50,
    properties := ["x", "y", "width", "height"] }

/-- The outer frame, holding the inner frame, which holds the inner text. -/
def nestedFrames : DocElement :=
  .mk outerFrame .withPanelItem
    (.docElement
      (.mk innerFrame .withPanelItem (.docElement (.mk innerText .null .nil) .nil))
      .nil)

/-- The panel item of the drop frame, with two children. -/
def dropPanelItem : PanelItem := { id := 20, children := [21, 22] }

/-- A container with content size 120 x 80 at offset `(40, 30)` that accepts text
elements. -/
def dropFrame : Container :=
  { id := 7, contentSize := { width := 120, height := 80 }, offset := { x := 40, y := 30 },
    allowedElementTypes := [.text], panelItem := some dropPanelItem }

/-- A container like `dropFrame` that accepts no element. -/
def closedFrame : Container :=
  { id := 8, contentSize := { width := 120, height := 80 }, offset := { x := 40, y := 30 },
    allowedElementTypes := [], panelItem := some dropPanelItem }

/-- A text element at `(100, 60)` of size 100 x 50 in container 1, with panel item 30. -/
def draggedText : Fields :=
  { id := 2, panelItem := some 30, x := .str "100", y := .str "60", width := .str "100",
    height := .str "50", containerId := some 1, xVal := 100, yVal := 60, widthVal := 100,
    heightVal := 50, properties := ["x", "y", "width", "height"], elementType := .text }

/-- An element of size 400 x 50, wider than a 300 x 200 container. -/
def wideElement : Fields :=
  { id := 2, x := .str "0", y := .str "0", width := .str "400", height := .str "50",
    containerId := some 1, xVal := 0, yVal := 0, widthVal := 400, heightVal := 50,
    properties := ["x", "y", "width", "height"] }

/-- The outer frame of size 100 x 50 holding the inner text at `(20, 5)` of size
30 x 20. -/
def tidyFrame : DocElement :=
  .mk outerFrame .withPanelItem (.docElement (.mk innerText .null .nil) .nil)

/-- The field `qty` of the rows of the list `items`. -/
def rowQty : Parameter := .mk 11 "qty" .other []

/-- The map `address` of the rows of the list `items`, with the field `city`. -/
def rowAddress : Parameter := .mk 13 "address" .map [.mk 14 "city" .other []]

/-- The list parameter `items`. -/
def itemsParameter : Parameter := .mk 10 "items" .array [rowQty, rowAddress]

/-- The parameter `qty` of the document, outside every list. -/
def globalQty : Parameter := .mk 12 "qty" .other []

/-- The field `name` of the map `customer`. -/
def customerName : Parameter := .mk 16 "name" .other []

/-- The map parameter `customer`. -/
def customerParameter : Parameter := .mk 15 "customer" .map [customerName]

/-- The parameters of the document by name: `items`, `qty` and `customer`. -/
def documentParameters (name : String) : Option Parameter :=
  [itemsParameter, globalQty, customerParameter].find? fun p => p.getName == name

/-- A table with the data source `items`. -/
def itemsTable : Fields :=
  { id := 20, panelItem := some 40, width := .str "200", height := .str "60",
    elementType := .table, hasDataSource := true,
    other := [("dataSource", .str " $\x7bitems\x7d ")] }

/-- The content band of the table. -/
def contentBand : Fields :=
  { id := 21, panelItem := some 41, width := .str "200", height := .str "20",
    other := [("bandType", .str "content")] }

/-- A cell of the content band with the text `Total:` and a reference to `qty`. -/
def totalCell : Fields :=
  { id := 22, panelItem := some 42, width := .str "100", height := .str "20",
    elementType := .tableText, other := [("content", .str "Total: $\x7bqty\x7d")] }

/-- A text element outside the table with the same text. -/
def totalLabel : Fields :=
  { id := 23, panelItem := some 43, width := .str "100", height := .str "20",
    elementType := .text, other := [("content", .str "Total: $\x7bqty\x7d")] }

/-- A text element with a reference to the field `name` of `customer` and a reference to
a parameter `name`. -/
def greeting : Fields :=
  { id := 24, panelItem := some 44, width := .str "100", height := .str "20",
    elementType := .text,
    other := [("content", .str "Dear $\x7bcustomer.name\x7d, $\x7bname\x7d")] }

/-- A cell of the content band with a reference to the city of the row's address. -/
def cityCell : Fields :=
  { id := 25, panelItem := some 45, width := .str "100", height := .str "20",
    elementType := .tableText, other := [("content", .str "$\x7baddress.city\x7d")] }

/-- A `JSON` object without rich text: every object is written `null` and no text is
read. -/
def plainJSON : JSON := { stringify := fun _ => "null", parse := fun _ => none }

/-- The list `rows` of the rows of `orders`. -/
def orderRows : Parameter := .mk 31 "rows" .array [.mk 34 "amount" .other []]

/-- The list `rows` of the rows of `lines`. -/
def lineRows : Parameter := .mk 33 "rows" .array [.mk 35 "note" .other []]

/-- The list `lines` of the rows of `orders`. -/
def orderLines : Parameter := .mk 32 "lines" .array [lineRows]

/-- The list parameter `orders`, whose rows have the lists `rows` and `lines`. -/
def ordersParameter : Parameter := .mk 30 "orders" .array [orderRows, orderLines]

/-- The parameters of a document with `orders` only. -/
def orderParameters (name : String) : Option Parameter :=
  [ordersParameter].find? fun p => p.getName == name

/-- A section with a data source. -/
def sectionOf (id : Nat) (dataSource : String) : Fields :=
  { id := id, panelItem := some (id + 100), width := .str "200", height := .str "60",
    elementType := .section, hasDataSource := true,
    other := [("dataSource", .str dataSource)] }

/-- The content band of a section. -/
def sectionBand (id : Nat) : Fields :=
  { id := id, panelItem := some (id + 100), width := .str "200", height := .str "20",
    other := [("bandType", .str "content")] }

/-- The doc elements above an element in the content band of a section over `rows`,
which is in the content band of a section over `lines`, which is in the content band of
a section over `orders`. -/
def nestedSections : List Fields :=
  [sectionBand 61, sectionOf 60 "$\x7brows\x7d", sectionBand 63, sectionOf 62 "$\x7blines\x7d",
    sectionBand 65, sectionOf 64 "$\x7borders\x7d"]

/-- A `JSON` object for a document with two rich texts: object 7 is written as a list
with the text `Total:` and a reference to `qty`, and the same list with a reference to
`quantity` is read as object 8. -/
def listJSON : JSON :=
  { stringify := fun v => if v = .ref 7 then "[\"Total: $\x7bqty\x7d\"]" else "null",
    parse := fun t => if t = "[\"Total: $\x7bquantity\x7d\"]" then some (.ref 8) else none }

/-- A text element whose rich text content is object 7. -/
def richLabel : Fields :=
  { id := 26, panelItem := some 46, width := .str "100", height := .str "20",
    elementType := .text, other := [("richTextContent", .ref 7)] }

/-- The panel items of the document: every item is in the panel `docElement`, and its
position among its siblings is the last digit of its reference. -/
def documentPanelItems : PanelItemStore :=
  { getPanelName := fun _ => "docElement", getSiblingPosition := fun item => item % 10 }

/-- The outer frame with panel item 50, holding the inner frame with panel item 51,
which holds the inner text, another item, and a second text. -/
def frameTree : DocElement :=
  .mk { outerFrame with panelItem := some 50 } .withPanelItem
    (.docElement
      (.mk { innerFrame with panelItem := some 51 } .withPanelItem
        (.docElement (.mk { innerText with panelItem := some 60 } .null .nil) .nil))
      (.other (.docElement
        (.mk { innerText with id := 6, panelItem := some 52, containerId := some 10 }
          .null .nil)
        .nil)))

end ReportBro

namespace ReportBro

theorem clampBounds_bounds (x y width height : Int) (containerSize : Size) :
    0 ≤ (clampBounds x y width height containerSize).x ∧
    0 ≤ (clampBounds x y width height containerSize).y ∧
    (clampBounds x y width height containerSize).x
        + (clampBounds x y width height containerSize).width ≤ containerSize.width ∧
    (clampBounds x y width height containerSize).y
        + (clampBounds x y width height containerSize).height ≤ containerSize.height := by
  simp only [clampBounds]
  refine ⟨?_, ?_, ?_, ?_⟩ <;> split_ifs <;> omega

/-- C1: for every proposed rectangle and every container size, the rectangle that
`checkBounds` computes before emitting commands has `x ≥ 0`, `y ≥ 0`,
`x + width ≤ cw` and `y + height ≤ ch`. -/
theorem clampBounds_within (x y width height : Int) (containerSize : Size) :
    0 ≤ (clampBounds x y width height containerSize).x ∧
    0 ≤ (clampBounds x y width height containerSize).y ∧
    (clampBounds x y width height containerSize).x
        + (clampBounds x y width height containerSize).width ≤ containerSize.width ∧
    (clampBounds x y width height containerSize).y
        + (clampBounds x y width height containerSize).height ≤ containerSize.height :=
  clampBounds_bounds x y width height containerSize

/-- C2: `checkBounds` repositions before it shrinks.  On each axis, a proposed extent
that fits the container is kept and the position becomes `min (max x 0) (cw - width)`;
an extent that does not fit gives position `0` and extent `cw`. -/
theorem clampBounds_reposition_then_shrink (x y width height : Int) (containerSize : Size) :
    (width ≤ containerSize.width →
      (clampBounds x y width height containerSize).width = width ∧
      (clampBounds x y width height containerSize).x
        = min (max x 0) (containerSize.width - width)) ∧
    (width > containerSize.width →
      (clampBounds x y width height containerSize).x = 0 ∧
      (clampBounds x y width height containerSize).width = containerSize.width) ∧
    (height ≤ containerSize.height →
      (clampBounds x y width height containerSize).height = height ∧
      (clampBounds x y width height containerSize).y
        = min (max y 0) (containerSize.height - height)) ∧
    (height > containerSize.height →
      (clampBounds x y width height containerSize).y = 0 ∧
      (clampBounds x y width height containerSize).height = containerSize.height) := by
  simp only [clampBounds]
  refine ⟨?_, ?_, ?_, ?_⟩ <;> intro h <;> constructor <;> split_ifs <;> omega

theorem hasProperty_iff (f : Fields) (p : String) : hasProperty f p = true ↔ p ∈ f.properties := by
  simp [hasProperty]

theorem addBoundsCommands_eq (f : Fields) (r : Rect) (cmdGroup : List Command) :
    addBoundsCommands f r cmdGroup = cmdGroup ++ expectedBoundsCommands f r := by
  unfold addBoundsCommands expectedBoundsCommands addCommandsForChangedWidth geometryCmd
    getDisplayWidth getDisplayHeight
  simp only [hasProperty_iff, List.filterMap_cons, List.filterMap_nil, if_true]
  split_ifs <;> simp only [List.append_assoc, List.cons_append, List.nil_append, List.append_nil]

/-- C3: for an element without a linked container, `checkBounds` appends to the group
exactly the commands of `expectedBoundsCommands` for the adapted rectangle: per field
`x`, `y`, `width`, `height`, in this order, one command with the decimal text of the
adapted value iff that value differs from the stored one and the field is declared. -/
theorem checkBounds_commands_without_linked_container (e : DocElement)
    (x y width height : Int) (containerSize : Size) (cmdGroup : List Command)
    (hlinked : e.getLinkedContainer = .null) :
    checkBounds e x y width height containerSize cmdGroup
      = cmdGroup ++ expectedBoundsCommands e.fields (clampBounds x y width height containerSize) := by
  cases e with
  | mk f linked children =>
    simp only [checkBounds, hlinked, DocElement.fields, addBoundsCommands_eq]
    simp

theorem roundValueToLowerInterval_le (val interval : Int) (h : 0 < interval) :
    roundValueToLowerInterval val interval ≤ val :=
  Int.ediv_mul_le val (ne_of_gt h)

theorem roundValueToLowerInterval_nonneg (val interval : Int) (h : 0 < interval)
    (hval : 0 ≤ val) : 0 ≤ roundValueToLowerInterval val interval :=
  mul_nonneg (Int.ediv_nonneg hval (le_of_lt h)) (le_of_lt h)

theorem le_roundValueToUpperInterval (val interval : Int) (h : 0 < interval) :
    val ≤ roundValueToUpperInterval val interval := by
  have := Int.ediv_mul_le (-val) (ne_of_gt h)
  unfold roundValueToUpperInterval
  rw [neg_mul]
  omega

theorem roundValueToUpperInterval_lt (val interval : Int) (h : 0 < interval) :
    roundValueToUpperInterval val interval < val + interval := by
  have := Int.lt_ediv_add_one_mul_self (-val) h
  unfold roundValueToUpperInterval
  rw [neg_mul]
  rw [add_mul, one_mul] at this
  omega

theorem dvd_roundValueToUpperInterval (val interval : Int) :
    interval ∣ roundValueToUpperInterval val interval :=
  Dvd.intro_left _ rfl

theorem dvd_roundValueToInterval (val interval : Int) :
    interval ∣ roundValueToInterval val interval := by
  unfold roundValueToInterval
  have h := dvd_roundValueToUpperInterval val interval
  simp only
  split_ifs
  · exact h
  · exact dvd_sub h (dvd_refl interval)

theorem multiple_gap (a b interval : Int) (h : 0 < interval) (ha : interval ∣ a)
    (hb : interval ∣ b) (hlt : a < b) : a + interval ≤ b := by
  obtain ⟨k, rfl⟩ := ha
  obtain ⟨c, rfl⟩ := hb
  have hkc : k < c := lt_of_mul_lt_mul_left hlt (le_of_lt h)
  have : interval * (k + 1) ≤ interval * c := Int.mul_le_mul_of_nonneg_left hkc (le_of_lt h)
  rw [mul_add, mul_one] at this
  exact this

/-- With a positive interval `roundValueToInterval` gives a multiple of the interval
that is at least as near to the value as every other multiple. -/
theorem roundValueToInterval_nearest (val interval : Int) (h : 0 < interval) (m : Int)
    (hm : interval ∣ m) : |roundValueToInterval val interval - val| ≤ |m - val| := by
  have hup := le_roundValueToUpperInterval val interval h
  have hlt := roundValueToUpperInterval_lt val interval h
  have hdvd := dvd_roundValueToUpperInterval val interval
  have h1 : m - val ≤ |m - val| := le_abs_self _
  have h2 : -(m - val) ≤ |m - val| := neg_le_abs _
  have hcase : m < roundValueToUpperInterval val interval ∨
      roundValueToUpperInterval val interval ≤ m := lt_or_le _ _
  have hgap : m < roundValueToUpperInterval val interval →
      m + interval ≤ roundValueToUpperInterval val interval :=
    multiple_gap m _ interval h hm hdvd
  have hgap2 : roundValueToUpperInterval val interval - interval < m →
      roundValueToUpperInterval val interval ≤ m := by
    intro hlt2
    have := multiple_gap (roundValueToUpperInterval val interval - interval) m interval h
      (dvd_sub hdvd (dvd_refl interval)) hm hlt2
    omega
  unfold roundValueToInterval
  simp only
  rw [abs_le]
  generalize |m - val| = a at *
  generalize roundValueToUpperInterval val interval = up at *
  split_ifs with hif
  · constructor <;> omega
  · constructor <;> omega

theorem getDragDiff_edges_min_size (f : Fields) (container : Option Container)
    (diffX diffY : Int) (dragType : DragType) (gridSize : Int)
    (hlegal : Legal f container) (hsizer : dragType.isSizer = true) (hgrid : 0 ≤ gridSize) :
    getMinWidth f ≤
      (dragEdges (storedEdges f) (getDragDiff f container diffX diffY dragType gridSize).x
        (getDragDiff f container diffX diffY dragType gridSize).y dragType).posX2 -
      (dragEdges (storedEdges f) (getDragDiff f container diffX diffY dragType gridSize).x
        (getDragDiff f container diffX diffY dragType gridSize).y dragType).posX1 ∧
    getMinHeight f ≤
      (dragEdges (storedEdges f) (getDragDiff f container diffX diffY dragType gridSize).x
        (getDragDiff f container diffX diffY dragType gridSize).y dragType).posY2 -
      (dragEdges (storedEdges f) (getDragDiff f container diffX diffY dragType gridSize).x
        (getDragDiff f container diffX diffY dragType gridSize).y dragType).posY1 := by
  obtain ⟨hx, hy, hxw, hyh, hmw, hmh⟩ := hlegal
  simp only [getDisplayWidth, getDisplayHeight, getMinWidth, getMinHeight] at *
  rcases hgrid.eq_or_lt with h0 | hpos
  · subst h0
    cases dragType <;> simp [DragType.isSizer] at hsizer <;>
      simp [getDragDiff, dragEdges, storedEdges, getDisplayWidth, getDisplayHeight,
        getMinWidth, getMinHeight, getMaxWidth] <;>
      (try constructor) <;> (try split_ifs) <;> omega
  · have hne : gridSize ≠ 0 := ne_of_gt hpos
    have l1 := roundValueToLowerInterval_le (f.yVal + f.heightVal - f.minHeight) gridSize hpos
    have l2 := roundValueToLowerInterval_le (f.xVal + f.widthVal - f.minWidth) gridSize hpos
    have u1 := le_roundValueToUpperInterval (f.xVal + f.minWidth) gridSize hpos
    have u2 := le_roundValueToUpperInterval (f.yVal + f.minHeight) gridSize hpos
    cases dragType <;> simp [DragType.isSizer] at hsizer <;>
      simp [getDragDiff, dragEdges, storedEdges, getDisplayWidth, getDisplayHeight,
        getMinWidth, getMinHeight, getMaxWidth, hne] <;>
      (try constructor) <;> (try split_ifs) <;> omega

theorem clampBounds_eq_self_iff (r : Rect) (containerSize : Size) :
    clampBounds r.x r.y r.width r.height containerSize = r ↔
      0 ≤ r.x ∧ 0 ≤ r.y ∧ r.x + r.width ≤ containerSize.width ∧
      r.y + r.height ≤ containerSize.height := by
  cases r with
  | mk x y w h =>
    simp only [clampBounds, Rect.mk.injEq]
    constructor
    · rintro ⟨h1, h2, h3, h4⟩
      refine ⟨?_, ?_, ?_, ?_⟩ <;> split_ifs at h1 h2 h3 h4 <;> omega
    · rintro ⟨h1, h2, h3, h4⟩
      refine ⟨?_, ?_, ?_, ?_⟩ <;> split_ifs <;> omega

theorem updateDragRect_sizer_within (f : Fields) (container : Option Container)
    (diffX diffY : Int) (dragType : DragType) (hsizer : dragType.isSizer = true) :
    0 ≤ (updateDragRect f container diffX diffY dragType).x ∧
    0 ≤ (updateDragRect f container diffX diffY dragType).y ∧
    (updateDragRect f container diffX diffY dragType).x
      + (updateDragRect f container diffX diffY dragType).width
      ≤ (getContainerContentSize container).width ∧
    (updateDragRect f container diffX diffY dragType).y
      + (updateDragRect f container diffX diffY dragType).height
      ≤ (getContainerContentSize container).height := by
  have hne : dragType ≠ .element := by
    intro h; subst h; simp [DragType.isSizer] at hsizer
  simp only [updateDragRect, hne, if_false, getMaxWidth]
  generalize dragEdges (storedEdges f) diffX diffY dragType = e
  refine ⟨?_, ?_, ?_, ?_⟩ <;> split_ifs <;> omega

theorem getDragDiff_edges_bounds (f : Fields) (container : Option Container)
    (diffX diffY : Int) (dragType : DragType) (gridSize : Int)
    (hlegal : Legal f container) (hsizer : dragType.isSizer = true) (hgrid : 0 ≤ gridSize) :
    0 ≤ (dragEdges (storedEdges f) (getDragDiff f container diffX diffY dragType gridSize).x
        (getDragDiff f container diffX diffY dragType gridSize).y dragType).posX1 ∧
    0 ≤ (dragEdges (storedEdges f) (getDragDiff f container diffX diffY dragType gridSize).x
        (getDragDiff f container diffX diffY dragType gridSize).y dragType).posY1 ∧
    (dragEdges (storedEdges f) (getDragDiff f container diffX diffY dragType gridSize).x
        (getDragDiff f container diffX diffY dragType gridSize).y dragType).posX1
      + getMinWidth f ≤ (getContainerContentSize container).width ∧
    (dragEdges (storedEdges f) (getDragDiff f container diffX diffY dragType gridSize).x
        (getDragDiff f container diffX diffY dragType gridSize).y dragType).posY1
      + getMinHeight f ≤ (getContainerContentSize container).height := by
  obtain ⟨hx, hy, hxw, hyh, hmw, hmh⟩ := hlegal
  simp only [getDisplayWidth, getDisplayHeight, getMinWidth, getMinHeight] at *
  rcases hgrid.eq_or_lt with h0 | hpos
  · subst h0
    cases dragType <;> simp [DragType.isSizer] at hsizer <;>
      simp [getDragDiff, dragEdges, storedEdges, getDisplayWidth, getDisplayHeight,
        getMinWidth, getMinHeight, getMaxWidth] <;>
      (try refine ⟨?_, ?_⟩) <;> (try split_ifs) <;> omega
  · have hne : gridSize ≠ 0 := ne_of_gt hpos
    have l1 := roundValueToLowerInterval_le (f.yVal + f.heightVal - f.minHeight) gridSize hpos
    have l2 := roundValueToLowerInterval_le (f.xVal + f.widthVal - f.minWidth) gridSize hpos
    have n1 := roundValueToLowerInterval_nonneg (f.yVal + f.heightVal - f.minHeight) gridSize
      hpos (by omega)
    have n2 := roundValueToLowerInterval_nonneg (f.xVal + f.widthVal - f.minWidth) gridSize
      hpos (by omega)
    cases dragType <;> simp [DragType.isSizer] at hsizer <;>
      simp [getDragDiff, dragEdges, storedEdges, getDisplayWidth, getDisplayHeight,
        getMinWidth, getMinHeight, getMaxWidth, hne] <;>
      (try refine ⟨?_, ?_⟩) <;> (try split_ifs) <;> omega

theorem updateDragRect_getDragDiff_min_size (f : Fields) (container : Option Container)
    (diffX diffY : Int) (dragType : DragType) (gridSize : Int)
    (hlegal : Legal f container) (hsizer : dragType.isSizer = true) (hgrid : 0 ≤ gridSize) :
    getMinWidth f ≤ (updateDragRect f container
      (getDragDiff f container diffX diffY dragType gridSize).x
      (getDragDiff f container diffX diffY dragType gridSize).y dragType).width ∧
    getMinHeight f ≤ (updateDragRect f container
      (getDragDiff f container diffX diffY dragType gridSize).x
      (getDragDiff f container diffX diffY dragType gridSize).y dragType).height := by
  have hmin := getDragDiff_edges_min_size f container diffX diffY dragType gridSize hlegal
    hsizer hgrid
  have hb := getDragDiff_edges_bounds f container diffX diffY dragType gridSize hlegal
    hsizer hgrid
  have hne : dragType ≠ .element := by
    intro h; subst h; simp [DragType.isSizer] at hsizer
  simp only [updateDragRect, hne, if_false, getMaxWidth]
  generalize dragEdges (storedEdges f) (getDragDiff f container diffX diffY dragType gridSize).x
    (getDragDiff f container diffX diffY dragType gridSize).y dragType = e at hmin hb ⊢
  obtain ⟨h1, h2⟩ := hmin
  obtain ⟨h3, h4, h5, h6⟩ := hb
  constructor <;> split_ifs <;> omega

/-- C3 at a concrete element: moved to `(250, -5)` in a 300 x 200 container, the
element is put at `(200, 0)` and only `x` differs from the stored rectangle. -/
theorem checkBounds_commands_without_linked_container_witness :
    (DocElement.mk textElement .null .nil).getLinkedContainer = .null ∧
    checkBounds (DocElement.mk textElement .null .nil) 250 (-5) 100 50
        { width := 300, height := 200 } []
      = [geometryCmd textElement "x" 200] :=
  ⟨rfl,
    (checkBounds_commands_without_linked_container (DocElement.mk textElement .null .nil)
      250 (-5) 100 50 { width := 300, height := 200 } [] rfl).trans (by decide)⟩

/-- C5: for an element with a legal rectangle, every resize gesture, all raw deltas and
every grid size `≥ 0`, applying the deltas returned by `getDragDiff` to the edges the
gesture touches gives a width of at least `getMinWidth()` and a height of at least
`getMinHeight()`. -/
theorem getDragDiff_keeps_min_size (f : Fields) (container : Option Container)
    (diffX diffY : Int) (dragType : DragType) (gridSize : Int)
    (hlegal : Legal f container) (hsizer : dragType.isSizer = true) (hgrid : 0 ≤ gridSize) :
    getMinWidth f ≤
      (dragEdges (storedEdges f) (getDragDiff f container diffX diffY dragType gridSize).x
        (getDragDiff f container diffX diffY dragType gridSize).y dragType).posX2 -
      (dragEdges (storedEdges f) (getDragDiff f container diffX diffY dragType gridSize).x
        (getDragDiff f container diffX diffY dragType gridSize).y dragType).posX1 ∧
    getMinHeight f ≤
      (dragEdges (storedEdges f) (getDragDiff f container diffX diffY dragType gridSize).x
        (getDragDiff f container diffX diffY dragType gridSize).y dragType).posY2 -
      (dragEdges (storedEdges f) (getDragDiff f container diffX diffY dragType gridSize).x
        (getDragDiff f container diffX diffY dragType gridSize).y dragType).posY1 :=
  getDragDiff_edges_min_size f container diffX diffY dragType gridSize hlegal hsizer hgrid

/-- C5 at a concrete gesture: shrinking the 100 x 50 element by its west handle by 95
on a grid of 10 leaves a width of 20. -/
theorem getDragDiff_keeps_min_size_witness :
    Legal textElement (some frame300x200) ∧
    getDragDiff textElement (some frame300x200) 95 0 .sizerW 10 = { x := 80, y := 0 } ∧
    getMinWidth textElement ≤
      (dragEdges (storedEdges textElement)
        (getDragDiff textElement (some frame300x200) 95 0 .sizerW 10).x
        (getDragDiff textElement (some frame300x200) 95 0 .sizerW 10).y .sizerW).posX2 -
      (dragEdges (storedEdges textElement)
        (getDragDiff textElement (some frame300x200) 95 0 .sizerW 10).x
        (getDragDiff textElement (some frame300x200) 95 0 .sizerW 10).y .sizerW).posX1 :=
  ⟨by decide, by decide,
    (getDragDiff_keeps_min_size textElement (some frame300x200) 95 0 .sizerW 10
      (by decide) rfl (by decide)).1⟩

/-- C6 at the failing input: for the legal 20 x 20 element at `(85, 185)` in a
105 x 205 container, the south-east handle dragged by `(-10, -10)` on a grid of 10 gives
the deltas `(5, 5)`: the new right edge is 110, beyond `getMaxWidth() = 105`, and the new
bottom edge is 210, beyond the content height 205. -/
theorem getDragDiff_east_south_edges_exceed_container :
    Legal cornerElement (some frame105x205) ∧
    getDragDiff cornerElement (some frame105x205) (-10) (-10) .sizerSE 10 = { x := 5, y := 5 } ∧
    getMaxWidth (some frame105x205) <
      cornerElement.xVal + getDisplayWidth cornerElement
        + (getDragDiff cornerElement (some frame105x205) (-10) (-10) .sizerSE 10).x ∧
    (getContainerContentSize (some frame105x205)).height <
      cornerElement.yVal + getDisplayHeight cornerElement
        + (getDragDiff cornerElement (some frame105x205) (-10) (-10) .sizerSE 10).y := by
  decide

/-- C7: for the move gesture `getDragDiff` returns the raw deltas when the grid size is
0; for a grid size `g > 0` it returns `(r (xVal + diffX) - xVal, r (yVal + diffY) - yVal)`
where `r` gives a multiple of `g` nearest to its argument; the x component is the same
for every element with the same `xVal`, whatever its other fields (minimum size
included), its container and `diffY`, and likewise the y component. -/
theorem getDragDiff_move (f : Fields) (container : Option Container)
    (diffX diffY gridSize : Int) :
    getDragDiff f container diffX diffY .element 0 = { x := diffX, y := diffY } ∧
    (0 < gridSize →
      getDragDiff f container diffX diffY .element gridSize =
        { x := roundValueToInterval (f.xVal + diffX) gridSize - f.xVal,
          y := roundValueToInterval (f.yVal + diffY) gridSize - f.yVal } ∧
      ∀ val : Int, gridSize ∣ roundValueToInterval val gridSize ∧
        ∀ m : Int, gridSize ∣ m → |roundValueToInterval val gridSize - val| ≤ |m - val|) ∧
    (∀ (f' : Fields) (container' : Option Container) (diffY' : Int), f'.xVal = f.xVal →
      (getDragDiff f' container' diffX diffY' .element gridSize).x
        = (getDragDiff f container diffX diffY .element gridSize).x) ∧
    (∀ (f' : Fields) (container' : Option Container) (diffX' : Int), f'.yVal = f.yVal →
      (getDragDiff f' container' diffX' diffY .element gridSize).y
        = (getDragDiff f container diffX diffY .element gridSize).y) := by
  refine ⟨?_, ?_, ?_, ?_⟩
  · simp [getDragDiff]
  · intro hpos
    have hne : gridSize ≠ 0 := ne_of_gt hpos
    refine ⟨by simp [getDragDiff, hne], fun val => ⟨dvd_roundValueToInterval val gridSize, ?_⟩⟩
    exact fun m hm => roundValueToInterval_nearest val gridSize hpos m hm
  · intro f' container' diffY' h
    simp [getDragDiff, h]
  · intro f' container' diffX' h
    simp [getDragDiff, h]

/-- C7 at concrete inputs: moving the element at `(0, 0)` by `(47, 23)` on a grid of 10
gives `(50, 20)`. -/
theorem getDragDiff_move_witness :
    (0 : Int) < 10 ∧
    getDragDiff textElement (some frame300x200) 47 23 .element 10 = { x := 50, y := 20 } :=
  ⟨by decide, by
    rw [((getDragDiff_move textElement (some frame300x200) 47 23 10).2.1 (by decide)).1]
    decide⟩

/-- C8 as stated fails for the move gesture: the element at `(0, 0)` moved by `(-10, 0)`
without grid gets the rectangle `(-10, 0, 100, 50)` from `updateDrag`, which `checkBounds`
changes to `(0, 0, 100, 50)`. -/
theorem move_rect_altered_by_clampBounds :
    getDragDiff textElement (some frame300x200) (-10) 0 .element 0 = { x := -10, y := 0 } ∧
    updateDragRect textElement (some frame300x200) (-10) 0 .element
      = { x := -10, y := 0, width := 100, height := 50 } ∧
    clampBounds (-10) 0 100 50 (getContainerContentSize (some frame300x200))
      = { x := 0, y := 0, width := 100, height := 50 } ∧
    ¬ (∀ (f : Fields) (container : Option Container) (diffX diffY : Int)
        (dragType : DragType) (gridSize : Int),
        dragType ≠ .none →
        clampBounds
          (updateDragRect f container (getDragDiff f container diffX diffY dragType gridSize).x
            (getDragDiff f container diffX diffY dragType gridSize).y dragType).x
          (updateDragRect f container (getDragDiff f container diffX diffY dragType gridSize).x
            (getDragDiff f container diffX diffY dragType gridSize).y dragType).y
          (updateDragRect f container (getDragDiff f container diffX diffY dragType gridSize).x
            (getDragDiff f container diffX diffY dragType gridSize).y dragType).width
          (updateDragRect f container (getDragDiff f container diffX diffY dragType gridSize).x
            (getDragDiff f container diffX diffY dragType gridSize).y dragType).height
          (getContainerContentSize container)
        = updateDragRect f container (getDragDiff f container diffX diffY dragType gridSize).x
            (getDragDiff f container diffX diffY dragType gridSize).y dragType) := by
  refine ⟨by decide, by decide, by decide, fun h => ?_⟩
  have h' := h textElement (some frame300x200) (-10) 0 .element 0 (by decide)
  revert h'
  decide

/-- C8, amended: for each of the eight resize gestures, all raw deltas and every grid
size, the rectangle that `updateDrag` computes from the deltas of `getDragDiff` is
returned unchanged by the adaptation of `checkBounds` to the content size of the
element's container; for the move gesture it is returned unchanged exactly when it lies
inside the container. -/
theorem drag_rect_fixed_by_clampBounds (f : Fields) (container : Option Container)
    (diffX diffY : Int) (dragType : DragType) (gridSize : Int) :
    (dragType.isSizer = true →
      clampBounds
        (updateDragRect f container (getDragDiff f container diffX diffY dragType gridSize).x
          (getDragDiff f container diffX diffY dragType gridSize).y dragType).x
        (updateDragRect f container (getDragDiff f container diffX diffY dragType gridSize).x
          (getDragDiff f container diffX diffY dragType gridSize).y dragType).y
        (updateDragRect f container (getDragDiff f container diffX diffY dragType gridSize).x
          (getDragDiff f container diffX diffY dragType gridSize).y dragType).width
        (updateDragRect f container (getDragDiff f container diffX diffY dragType gridSize).x
          (getDragDiff f container diffX diffY dragType gridSize).y dragType).height
        (getContainerContentSize container)
      = updateDragRect f container (getDragDiff f container diffX diffY dragType gridSize).x
          (getDragDiff f container diffX diffY dragType gridSize).y dragType) ∧
    (dragType = .element →
      (clampBounds
        (updateDragRect f container (getDragDiff f container diffX diffY dragType gridSize).x
          (getDragDiff f container diffX diffY dragType gridSize).y dragType).x
        (updateDragRect f container (getDragDiff f container diffX diffY dragType gridSize).x
          (getDragDiff f container diffX diffY dragType gridSize).y dragType).y
        (updateDragRect f container (getDragDiff f container diffX diffY dragType gridSize).x
          (getDragDiff f container diffX diffY dragType gridSize).y dragType).width
        (updateDragRect f container (getDragDiff f container diffX diffY dragType gridSize).x
          (getDragDiff f container diffX diffY dragType gridSize).y dragType).height
        (getContainerContentSize container)
      = updateDragRect f container (getDragDiff f container diffX diffY dragType gridSize).x
          (getDragDiff f container diffX diffY dragType gridSize).y dragType
      ↔
      0 ≤ f.xVal + (getDragDiff f container diffX diffY dragType gridSize).x ∧
      0 ≤ f.yVal + (getDragDiff f container diffX diffY dragType gridSize).y ∧
      f.xVal + (getDragDiff f container diffX diffY dragType gridSize).x + getDisplayWidth f
        ≤ (getContainerContentSize container).width ∧
      f.yVal + (getDragDiff f container diffX diffY dragType gridSize).y + getDisplayHeight f
        ≤ (getContainerContentSize container).height)) := by
  constructor
  · intro hsizer
    exact (clampBounds_eq_self_iff _ _).mpr (updateDragRect_sizer_within f container _ _ _ hsizer)
  · intro hmove
    subst hmove
    rw [clampBounds_eq_self_iff]
    simp only [updateDragRect, storedEdges, if_true]
    constructor <;> rintro ⟨h1, h2, h3, h4⟩ <;> refine ⟨?_, ?_, ?_, ?_⟩ <;> omega

/-- C8, amended, at a concrete gesture: the south-east resize of the corner element,
whose deltas `(5, 5)` overshoot the container, gives the rectangle `(85, 185, 20, 20)`,
which the adaptation of `checkBounds` returns unchanged. -/
theorem drag_rect_fixed_by_clampBounds_witness :
    DragType.sizerSE.isSizer = true ∧
    updateDragRect cornerElement (some frame105x205)
        (getDragDiff cornerElement (some frame105x205) (-10) (-10) .sizerSE 10).x
        (getDragDiff cornerElement (some frame105x205) (-10) (-10) .sizerSE 10).y .sizerSE
      = { x := 85, y := 185, width := 20, height := 20 } ∧
    clampBounds
        (updateDragRect cornerElement (some frame105x205)
          (getDragDiff cornerElement (some frame105x205) (-10) (-10) .sizerSE 10).x
          (getDragDiff cornerElement (some frame105x205) (-10) (-10) .sizerSE 10).y .sizerSE).x
        (updateDragRect cornerElement (some frame105x205)
          (getDragDiff cornerElement (some frame105x205) (-10) (-10) .sizerSE 10).x
          (getDragDiff cornerElement (some frame105x205) (-10) (-10) .sizerSE 10).y .sizerSE).y
        (updateDragRect cornerElement (some frame105x205)
          (getDragDiff cornerElement (some frame105x205) (-10) (-10) .sizerSE 10).x
          (getDragDiff cornerElement (some frame105x205) (-10) (-10) .sizerSE 10).y .sizerSE).width
        (updateDragRect cornerElement (some frame105x205)
          (getDragDiff cornerElement (some frame105x205) (-10) (-10) .sizerSE 10).x
          (getDragDiff cornerElement (some frame105x205) (-10) (-10) .sizerSE 10).y .sizerSE).height
        (getContainerContentSize (some frame105x205))
      = updateDragRect cornerElement (some frame105x205)
          (getDragDiff cornerElement (some frame105x205) (-10) (-10) .sizerSE 10).x
          (getDragDiff cornerElement (some frame105x205) (-10) (-10) .sizerSE 10).y .sizerSE :=
  ⟨rfl, by decide,
    (drag_rect_fixed_by_clampBounds cornerElement (some frame105x205) (-10) (-10) .sizerSE 10).1
      rfl⟩

theorem digitChar_isDigit (k : Nat) (h : k < 10) : (Nat.digitChar k).isDigit = true := by
  interval_cases k <;> decide

theorem digitChar_toNat (k : Nat) (h : k < 10) : (Nat.digitChar k).toNat - '0'.toNat = k := by
  interval_cases k <;> decide

theorem toDigitsCore_append (fuel n : Nat) (ds : List Char) :
    Nat.toDigitsCore 10 fuel n ds = Nat.toDigitsCore 10 fuel n [] ++ ds := by
  induction fuel generalizing n ds with
  | zero => simp [Nat.toDigitsCore]
  | succ fuel ih =>
    simp only [Nat.toDigitsCore]
    split_ifs
    · simp
    · rw [ih (n / 10) (_ :: ds), ih (n / 10) [_]]
      simp

theorem parseDigits_append (l rest : List Char) (acc : Nat)
    (h : ∀ c ∈ l, c.isDigit = true) :
    parseDigits (l ++ rest) acc = parseDigits rest (parseDigits l acc) := by
  induction l generalizing acc with
  | nil => rfl
  | cons c cs ih =>
    have hc : c.isDigit = true := h c (List.mem_cons_self _ _)
    simp only [List.cons_append, parseDigits, hc, if_true]
    exact ih _ (fun c hc => h c (List.mem_cons_of_mem _ hc))

theorem parseDigits_toDigitsCore (fuel n : Nat) (h : n < fuel) :
    (∀ c ∈ Nat.toDigitsCore 10 fuel n [], c.isDigit = true) ∧
    Nat.toDigitsCore 10 fuel n [] ≠ [] ∧
    parseDigits (Nat.toDigitsCore 10 fuel n []) 0 = n := by
  induction fuel generalizing n with
  | zero => omega
  | succ fuel ih =>
    have hmod : n % 10 < 10 := Nat.mod_lt _ (by decide)
    simp only [Nat.toDigitsCore]
    split_ifs with h0
    · refine ⟨?_, by simp, ?_⟩
      · intro c hc
        simp only [List.mem_singleton] at hc
        subst hc
        exact digitChar_isDigit _ hmod
      · simp only [parseDigits, digitChar_isDigit _ hmod, if_true, digitChar_toNat _ hmod]
        omega
    · have hlt : n / 10 < fuel := by omega
      obtain ⟨hd, hne, hval⟩ := ih (n / 10) hlt
      rw [toDigitsCore_append]
      refine ⟨?_, by simp [hne], ?_⟩
      · intro c hc
        rcases List.mem_append.mp hc with hc | hc
        · exact hd c hc
        · simp only [List.mem_singleton] at hc
          subst hc
          exact digitChar_isDigit _ hmod
      · rw [parseDigits_append _ _ _ hd, hval]
        simp only [parseDigits, digitChar_isDigit _ hmod, if_true, digitChar_toNat _ hmod]
        omega

theorem parseNumber_natRepr (n : Nat) : parseNumber (Nat.repr n).data = n := by
  obtain ⟨hd, hne, hval⟩ := parseDigits_toDigitsCore (n + 1) n (Nat.lt_succ_self n)
  have hdata : (Nat.repr n).data = Nat.toDigitsCore 10 (n + 1) n [] := rfl
  rw [hdata]
  cases hl : Nat.toDigitsCore 10 (n + 1) n [] with
  | nil => exact absurd hl hne
  | cons c rest =>
    rw [hl] at hd hval
    have hc : c.isDigit = true := hd c (List.mem_cons_self _ _)
    have hminus : c ≠ '-' := by
      intro h; subst h; revert hc; decide
    simp only [parseNumber, hminus, if_false, hval]

/-- The decimal text of a whole number converts back to the number. -/
theorem convertInputToNumber_toString (n : Int) :
    convertInputToNumber (.str (toString n)) = n := by
  show parseNumber (toString n).data = n
  cases n with
  | ofNat m => exact parseNumber_natRepr m
  | negSucc m =>
    have h : (toString (Int.negSucc m)).data = '-' :: (Nat.repr (m + 1)).data := rfl
    rw [h]
    obtain ⟨hd, hne, hval⟩ := parseDigits_toDigitsCore (m + 1 + 1) (m + 1) (Nat.lt_succ_self _)
    have hdata : (Nat.repr (m + 1)).data = Nat.toDigitsCore 10 (m + 1 + 1) (m + 1) [] := rfl
    simp only [parseNumber, if_true, hdata, hval]
    rfl

theorem setValue_x (f : Fields) (value : Value) :
    setValue f "x" value = { f with x := value, xVal := convertInputToNumber value } := rfl

theorem setValue_y (f : Fields) (value : Value) :
    setValue f "y" value = { f with y := value, yVal := convertInputToNumber value } := rfl

theorem setValue_width (f : Fields) (value : Value) :
    setValue f "width" value
      = { f with width := value, widthVal := convertInputToNumber value } := rfl

theorem setValue_height (f : Fields) (value : Value) :
    setValue f "height" value
      = { f with height := value, heightVal := convertInputToNumber value } := rfl

theorem key_of_ownField? (field : String) (k : OwnField) (h : ownField? field = some k) :
    k.key = field := by
  have := List.find?_some h
  simpa using this

theorem ownField?_key (k : OwnField) : ownField? k.key = some k := by
  cases k <;> rfl

theorem setOwn_id (f : Fields) (k : OwnField) (value : Value) (h : k ≠ .id) :
    (setOwn f k value).id = f.id := by
  cases k <;> first | exact absurd rfl h | rfl | (simp only [setOwn]; split <;> rfl)

theorem setField_id (f : Fields) (field : String) (value : Value) (h : field ≠ "id") :
    (setField f field value).id = f.id := by
  unfold setField
  split
  · next k hk =>
    refine setOwn_id f k value ?_
    intro hkid
    subst hkid
    exact h (key_of_ownField? field .id hk).symm
  · rfl

theorem setValue_id (f : Fields) (field : String) (value : Value) (h : field ≠ "id") :
    (setValue f field value).id = f.id := by
  unfold setValue
  simp only
  split_ifs <;> exact setField_id f field value h

theorem Command.apply_id (cmd : Command) (f : Fields) (h : cmd.field ≠ some "id") :
    (cmd.apply f).id = f.id := by
  cases cmd with
  | setValue c =>
    simp only [Command.apply]
    split_ifs
    · exact setValue_id _ _ _ (fun heq => h (congrArg some heq))
    · rfl
  | movePanelItem c => rfl
  | addDeleteDocElement c => rfl

theorem Command.field_ne_id_of_isGeometry (cmd : Command) (h : cmd.isGeometry = true) :
    cmd.field ≠ some "id" := by
  cases cmd with
  | setValue c =>
    intro heq
    have hf : c.field = "id" := Option.some.inj heq
    simp only [Command.isGeometry, hf] at h
    simp [geometryFields] at h
  | movePanelItem c => exact fun heq => Option.noConfusion heq
  | addDeleteDocElement c => exact fun heq => Option.noConfusion heq

theorem applyCommands_append (a b : List Command) (f : Fields) :
    applyCommands (a ++ b) f = applyCommands b (applyCommands a f) := by
  simp [applyCommands, List.foldl_append]

theorem applyCommands_of_ne (cmds : List Command) (f : Fields)
    (h : ∀ c ∈ cmds, c.objId ≠ some f.id) : applyCommands cmds f = f := by
  induction cmds generalizing f with
  | nil => rfl
  | cons c cs ih =>
    have hc : c.objId ≠ some f.id := h c (List.mem_cons_self _ _)
    have hstep : c.apply f = f := by
      cases c with
      | setValue cmd => exact if_neg (fun heq => hc (congrArg some heq))
      | movePanelItem cmd => rfl
      | addDeleteDocElement cmd => rfl
    show applyCommands cs (c.apply f) = f
    rw [hstep]
    exact ih f (fun c hc => h c (List.mem_cons_of_mem _ hc))

theorem applyCommands_id (cmds : List Command) (f : Fields)
    (h : ∀ c ∈ cmds, c.field ≠ some "id") : (applyCommands cmds f).id = f.id := by
  induction cmds generalizing f with
  | nil => rfl
  | cons c cs ih =>
    show (applyCommands cs (c.apply f)).id = f.id
    rw [ih _ (fun c hc => h c (List.mem_cons_of_mem _ hc)),
      Command.apply_id _ _ (h c (List.mem_cons_self _ _))]

theorem isGeometry_of_mem_expectedBoundsCommands (f : Fields) (r : Rect) (c : Command)
    (h : c ∈ expectedBoundsCommands f r) : c.isGeometry = true := by
  unfold expectedBoundsCommands at h
  simp only [List.mem_filterMap, List.mem_cons, List.mem_singleton, List.not_mem_nil,
    or_false] at h
  obtain ⟨a, ha, hc⟩ := h
  split_ifs at hc
  simp only [Option.some.injEq] at hc
  subst hc
  rcases ha with rfl | rfl | rfl | rfl <;> rfl

theorem declaresGeometry_iff (f : Fields) :
    declaresGeometry f = true ↔
      "x" ∈ f.properties ∧ "y" ∈ f.properties ∧ "width" ∈ f.properties ∧
      "height" ∈ f.properties := by
  simp [declaresGeometry, hasProperty, and_assoc]

/-- Applied to the element itself, the commands of `checkBounds` for an element that
declares the four geometry properties give it the adapted rectangle. -/
theorem applyCommands_expectedBoundsCommands (f : Fields) (r : Rect)
    (h : declaresGeometry f = true) :
    (applyCommands (expectedBoundsCommands f r) f).xVal = r.x ∧
    (applyCommands (expectedBoundsCommands f r) f).yVal = r.y ∧
    (applyCommands (expectedBoundsCommands f r) f).widthVal = r.width ∧
    (applyCommands (expectedBoundsCommands f r) f).heightVal = r.height := by
  obtain ⟨hx, hy, hw, hh⟩ := (declaresGeometry_iff f).mp h
  unfold expectedBoundsCommands
  simp only [List.filterMap_cons, List.filterMap_nil, hx, hy, hw, hh, and_true]
  by_cases h1 : r.x = f.xVal <;> by_cases h2 : r.y = f.yVal <;>
    by_cases h3 : r.width = f.widthVal <;> by_cases h4 : r.height = f.heightVal <;>
    simp [h1, h2, h3, h4, applyCommands, Command.apply, setValue_x, setValue_y,
      setValue_width, setValue_height, convertInputToNumber_toString]

theorem checkBounds_mk (f : Fields) (linked : LinkedContainer) (children : PanelItems)
    (x y width height : Int) (containerSize : Size) (cmdGroup : List Command) :
    checkBounds (.mk f linked children) x y width height containerSize cmdGroup =
      if (DocElement.mk f linked children).getLinkedContainer = .withPanelItem then
        checkBoundsChildren children
          { width := (clampBounds x y width height containerSize).width,
            height := (clampBounds x y width height containerSize).height }
          (cmdGroup ++ expectedBoundsCommands f (clampBounds x y width height containerSize))
      else cmdGroup ++ expectedBoundsCommands f (clampBounds x y width height containerSize) := by
  simp only [checkBounds, addBoundsCommands_eq]

mutual
theorem checkBounds_append : ∀ (e : DocElement) (x y width height : Int)
    (containerSize : Size) (cmdGroup : List Command),
    checkBounds e x y width height containerSize cmdGroup
      = cmdGroup ++ checkBounds e x y width height containerSize []
  | .mk f linked children, x, y, width, height, containerSize, cmdGroup => by
    rw [checkBounds_mk, checkBounds_mk]
    split_ifs
    · rw [checkBoundsChildren_append children _ (cmdGroup ++ _),
        checkBoundsChildren_append children _ ([] ++ _)]
      simp
    · simp
theorem checkBoundsChildren_append : ∀ (items : PanelItems) (size : Size)
    (cmdGroup : List Command),
    checkBoundsChildren items size cmdGroup = cmdGroup ++ checkBoundsChildren items size []
  | .nil, size, cmdGroup => by simp [checkBoundsChildren]
  | .docElement e rest, size, cmdGroup => by
    simp only [checkBoundsChildren]
    rw [checkBoundsChildren_append rest size (checkBounds e _ _ _ _ size cmdGroup),
      checkBounds_append e _ _ _ _ size cmdGroup,
      checkBoundsChildren_append rest size (checkBounds e _ _ _ _ size [])]
    simp
  | .other rest, size, cmdGroup => by
    simp only [checkBoundsChildren]
    exact checkBoundsChildren_append rest size cmdGroup
end

theorem objId_of_mem_expectedBoundsCommands (f : Fields) (r : Rect) (c : Command)
    (h : c ∈ expectedBoundsCommands f r) : c.objId = some f.id := by
  unfold expectedBoundsCommands at h
  simp only [List.mem_filterMap, List.mem_cons, List.mem_singleton, List.not_mem_nil,
    or_false] at h
  obtain ⟨a, -, ha⟩ := h
  split_ifs at ha
  simp only [Option.some.injEq] at ha
  subst ha
  rfl

mutual
theorem objId_of_mem_checkBounds : ∀ (e : DocElement) (x y width height : Int)
    (containerSize : Size) (c : Command),
    c ∈ checkBounds e x y width height containerSize [] →
      ∀ i, c.objId = some i → i ∈ e.nestedIds
  | .mk f linked children, x, y, width, height, containerSize, c => by
    rw [checkBounds_mk]
    unfold DocElement.nestedIds
    split_ifs with hl
    · rw [checkBoundsChildren_append]
      intro hc i hi
      rcases List.mem_append.mp hc with hc | hc
      · rw [objId_of_mem_expectedBoundsCommands f _ c (by simpa using hc)] at hi
        exact List.mem_cons.mpr (Or.inl (Option.some.inj hi).symm)
      · exact List.mem_cons_of_mem _ (objId_of_mem_checkBoundsChildren children _ c hc i hi)
    · intro hc i hi
      rw [objId_of_mem_expectedBoundsCommands f _ c (by simpa using hc)] at hi
      exact List.mem_cons.mpr (Or.inl (Option.some.inj hi).symm)
theorem objId_of_mem_checkBoundsChildren : ∀ (items : PanelItems) (size : Size)
    (c : Command), c ∈ checkBoundsChildren items size [] →
      ∀ i, c.objId = some i → i ∈ items.nestedIds
  | .nil, size, c => by simp [checkBoundsChildren]
  | .docElement e rest, size, c => by
    simp only [checkBoundsChildren]
    rw [checkBoundsChildren_append]
    unfold PanelItems.nestedIds
    intro hc i hi
    rcases List.mem_append.mp hc with hc | hc
    · exact List.mem_append_left _ (objId_of_mem_checkBounds e _ _ _ _ size c hc i hi)
    · exact List.mem_append_right _ (objId_of_mem_checkBoundsChildren rest size c hc i hi)
  | .other rest, size, c => by
    simp only [checkBoundsChildren]
    unfold PanelItems.nestedIds
    exact objId_of_mem_checkBoundsChildren rest size c
end

/-- The commands of `checkBounds` for an element and everything nested in it, put
between commands for other objects, leave the element with the adapted rectangle. -/
theorem applyCommands_own_between (f : Fields) (r : Rect) (pre nested post : List Command)
    (hpre : ∀ c ∈ pre, c.objId ≠ some f.id) (hnested : ∀ c ∈ nested, c.objId ≠ some f.id)
    (hpost : ∀ c ∈ post, c.objId ≠ some f.id) :
    applyCommands (pre ++ (expectedBoundsCommands f r ++ nested) ++ post) f
      = applyCommands (expectedBoundsCommands f r) f := by
  rw [applyCommands_append, applyCommands_append, applyCommands_append,
    applyCommands_of_ne pre f hpre]
  have hid : (applyCommands (expectedBoundsCommands f r) f).id = f.id :=
    applyCommands_id _ _ (fun c hc => Command.field_ne_id_of_isGeometry c
      (isGeometry_of_mem_expectedBoundsCommands f r c hc))
  rw [applyCommands_of_ne nested _ (fun c hc => by rw [hid]; exact hnested c hc),
    applyCommands_of_ne post _ (fun c hc => by rw [hid]; exact hpost c hc)]

mutual
theorem withinAfter_checkBounds : ∀ (e : DocElement) (size : Size)
    (pre post : List Command), e.nestedIds.Nodup →
    (∀ c ∈ pre, ∀ i ∈ e.nestedIds, c.objId ≠ some i) →
    (∀ c ∈ post, ∀ i ∈ e.nestedIds, c.objId ≠ some i) →
    e.WithinAfter size
      (pre ++ checkBounds e e.fields.xVal e.fields.yVal (getDisplayWidth e.fields)
        (getDisplayHeight e.fields) size [] ++ post)
  | .mk f linked children, size, pre, post, hnodup, hpre, hpost => by
    unfold DocElement.WithinAfter
    simp only [DocElement.fields]
    rw [checkBounds_mk]
    unfold DocElement.nestedIds at hnodup hpre hpost
    have hpre' : ∀ c ∈ pre, c.objId ≠ some f.id :=
      fun c hc => hpre c hc f.id (List.mem_cons_self _ _)
    have hpost' : ∀ c ∈ post, c.objId ≠ some f.id :=
      fun c hc => hpost c hc f.id (List.mem_cons_self _ _)
    have hbounds := clampBounds_bounds f.xVal f.yVal (getDisplayWidth f) (getDisplayHeight f)
      size
    by_cases hl : (DocElement.mk f linked children).getLinkedContainer = .withPanelItem
    · simp only [hl, if_true, List.nil_append, forall_true_left] at hnodup hpre hpost ⊢
      rw [checkBoundsChildren_append]
      obtain ⟨hfid, hkids⟩ := List.nodup_cons.mp hnodup
      have hnested : ∀ c ∈ checkBoundsChildren children
          { width := (clampBounds f.xVal f.yVal (getDisplayWidth f) (getDisplayHeight f)
              size).width,
            height := (clampBounds f.xVal f.yVal (getDisplayWidth f) (getDisplayHeight f)
              size).height } [], c.objId ≠ some f.id :=
        fun c hc h => hfid (objId_of_mem_checkBoundsChildren children _ c hc f.id h)
      constructor
      · intro hdecl
        rw [applyCommands_own_between f _ pre _ post hpre' hnested hpost']
        obtain ⟨h1, h2, h3, h4⟩ := applyCommands_expectedBoundsCommands f
          (clampBounds f.xVal f.yVal (getDisplayWidth f) (getDisplayHeight f) size) hdecl
        unfold Fields.Within
        rw [h1, h2, h3, h4]
        exact hbounds
      · have key := withinAfter_checkBoundsChildren children
          { width := (clampBounds f.xVal f.yVal (getDisplayWidth f) (getDisplayHeight f)
              size).width,
            height := (clampBounds f.xVal f.yVal (getDisplayWidth f) (getDisplayHeight f)
              size).height }
          (pre ++ expectedBoundsCommands f
            (clampBounds f.xVal f.yVal (getDisplayWidth f) (getDisplayHeight f) size))
          post hkids
          (fun c hc i hmem heq => by
            rcases List.mem_append.mp hc with hc | hc
            · exact hpre c hc i (List.mem_cons_of_mem _ hmem) heq
            · rw [objId_of_mem_expectedBoundsCommands f _ c hc] at heq
              exact hfid ((Option.some.inj heq) ▸ hmem))
          (fun c hc i hmem heq => hpost c hc i (List.mem_cons_of_mem _ hmem) heq)
        simpa [List.append_assoc] using key
    · simp only [hl, if_false, List.nil_append, false_implies, and_true]
      intro hdecl
      have h0 := applyCommands_own_between f
        (clampBounds f.xVal f.yVal (getDisplayWidth f) (getDisplayHeight f) size)
        pre [] post hpre' (fun c hc => absurd hc (List.not_mem_nil c)) hpost'
      rw [List.append_nil] at h0
      rw [h0]
      obtain ⟨h1, h2, h3, h4⟩ := applyCommands_expectedBoundsCommands f
        (clampBounds f.xVal f.yVal (getDisplayWidth f) (getDisplayHeight f) size) hdecl
      unfold Fields.Within
      rw [h1, h2, h3, h4]
      exact hbounds
theorem withinAfter_checkBoundsChildren : ∀ (items : PanelItems) (size : Size)
    (pre post : List Command), items.nestedIds.Nodup →
    (∀ c ∈ pre, ∀ i ∈ items.nestedIds, c.objId ≠ some i) →
    (∀ c ∈ post, ∀ i ∈ items.nestedIds, c.objId ≠ some i) →
    items.WithinAfter size (pre ++ checkBoundsChildren items size [] ++ post)
  | .nil, size, pre, post, _, _, _ => by
    unfold PanelItems.WithinAfter
    trivial
  | .docElement e rest, size, pre, post, hnodup, hpre, hpost => by
    unfold PanelItems.WithinAfter
    unfold PanelItems.nestedIds at hnodup hpre hpost
    simp only [checkBoundsChildren]
    rw [checkBoundsChildren_append]
    obtain ⟨he, hrest, hdisj⟩ := List.nodup_append.mp hnodup
    constructor
    · have key := withinAfter_checkBounds e size pre
        (checkBoundsChildren rest size [] ++ post) he
        (fun c hc i hmem heq => hpre c hc i (List.mem_append_left _ hmem) heq)
        (fun c hc i hmem heq => by
          rcases List.mem_append.mp hc with hc | hc
          · exact hdisj hmem (objId_of_mem_checkBoundsChildren rest size c hc i heq)
          · exact hpost c hc i (List.mem_append_left _ hmem) heq)
      simpa [List.append_assoc] using key
    · have key := withinAfter_checkBoundsChildren rest size
        (pre ++ checkBounds e e.fields.xVal e.fields.yVal (getDisplayWidth e.fields)
          (getDisplayHeight e.fields) size [])
        post hrest
        (fun c hc i hmem heq => by
          rcases List.mem_append.mp hc with hc | hc
          · exact hpre c hc i (List.mem_append_right _ hmem) heq
          · exact hdisj (objId_of_mem_checkBounds e _ _ _ _ size c hc i heq) hmem)
        (fun c hc i hmem heq => hpost c hc i (List.mem_append_right _ hmem) heq)
      simpa [List.append_assoc] using key
  | .other rest, size, pre, post, hnodup, hpre, hpost => by
    unfold PanelItems.WithinAfter
    unfold PanelItems.nestedIds at hnodup hpre hpost
    simp only [checkBoundsChildren]
    exact withinAfter_checkBoundsChildren rest size pre post hnodup hpre hpost
end

/-- C4: when `checkBounds` runs on an element with a linked container (ids unique in
the nesting), every doc element child of that container is checked against the adapted
(new) width and height of the parent: applying the emitted commands to the stored fields
of a child that declares the four geometry properties gives `x ≥ 0`, `y ≥ 0`,
`x + width ≤` the adapted parent width and `y + height ≤` the adapted parent height, and
the same holds at every nesting depth (`PanelItems.WithinAfter`). -/
theorem checkBounds_nested_within (e : DocElement) (x y width height : Int)
    (containerSize : Size) (cmdGroup : List Command)
    (hlinked : e.getLinkedContainer = .withPanelItem) (hids : e.nestedIds.Nodup) :
    checkBounds e x y width height containerSize cmdGroup
      = cmdGroup ++ checkBounds e x y width height containerSize [] ∧
    e.linkedChildren.WithinAfter
      { width := (clampBounds x y width height containerSize).width,
        height := (clampBounds x y width height containerSize).height }
      (checkBounds e x y width height containerSize []) := by
  refine ⟨checkBounds_append e x y width height containerSize cmdGroup, ?_⟩
  cases e with
  | mk f linked children =>
    unfold DocElement.nestedIds at hids
    simp only [hlinked, if_true] at hids
    obtain ⟨hfid, hkids⟩ := List.nodup_cons.mp hids
    rw [checkBounds_mk, if_pos hlinked, checkBoundsChildren_append]
    have key := withinAfter_checkBoundsChildren children
      { width := (clampBounds x y width height containerSize).width,
        height := (clampBounds x y width height containerSize).height }
      ([] ++ expectedBoundsCommands f (clampBounds x y width height containerSize)) []
      hkids
      (fun c hc i hmem heq => by
        rw [List.nil_append] at hc
        rw [objId_of_mem_expectedBoundsCommands f _ c hc] at heq
        exact hfid ((Option.some.inj heq) ▸ hmem))
      (fun c hc => absurd hc (List.not_mem_nil c))
    rw [List.append_nil] at key
    exact key

/-- C4 at a concrete nesting: the outer frame (100 x 50) resized to 60 x 30 moves the
inner frame from `(50, 10)` to `(20, 0)`, and the inner text, checked against the inner
frame's size 40 x 30, from `(20, 5)` to `(10, 5)`. -/
theorem checkBounds_nested_within_witness :
    nestedFrames.getLinkedContainer = .withPanelItem ∧ nestedFrames.nestedIds.Nodup ∧
    checkBounds nestedFrames 0 0 60 30 { width := 300, height := 200 } []
      = [geometryCmd outerFrame "width" 60, geometryCmd outerFrame "height" 30,
         geometryCmd innerFrame "x" 20, geometryCmd innerFrame "y" 0,
         geometryCmd innerText "x" 10] ∧
    nestedFrames.linkedChildren.WithinAfter
      { width := (clampBounds 0 0 60 30 { width := 300, height := 200 }).width,
        height := (clampBounds 0 0 60 30 { width := 300, height := 200 }).height }
      (checkBounds nestedFrames 0 0 60 30 { width := 300, height := 200 } []) :=
  ⟨by decide, by decide, by decide,
    (checkBounds_nested_within nestedFrames 0 0 60 30 { width := 300, height := 200 } []
      (by decide) (by decide)).2⟩

theorem setField_minSize (f : Fields) (field : String) (value : Value) :
    (setField f field value).minWidth = f.minWidth ∧
    (setField f field value).minHeight = f.minHeight := by
  unfold setField
  split
  · next k hk =>
    cases k <;> first | exact ⟨rfl, rfl⟩ | (simp only [setOwn]; split <;> exact ⟨rfl, rfl⟩)
  · exact ⟨rfl, rfl⟩

theorem setValue_minSize (f : Fields) (field : String) (value : Value) :
    (setValue f field value).minWidth = f.minWidth ∧
    (setValue f field value).minHeight = f.minHeight := by
  unfold setValue
  simp only
  split_ifs <;> exact setField_minSize f field value

theorem applyCommands_minSize (cmds : List Command) (f : Fields) :
    (applyCommands cmds f).minWidth = f.minWidth ∧
    (applyCommands cmds f).minHeight = f.minHeight := by
  induction cmds generalizing f with
  | nil => exact ⟨rfl, rfl⟩
  | cons c cs ih =>
    show (applyCommands cs (c.apply f)).minWidth = f.minWidth ∧
      (applyCommands cs (c.apply f)).minHeight = f.minHeight
    have hstep : (c.apply f).minWidth = f.minWidth ∧ (c.apply f).minHeight = f.minHeight := by
      cases c with
      | setValue cmd =>
        simp only [Command.apply]
        split_ifs
        · exact setValue_minSize _ _ _
        · exact ⟨rfl, rfl⟩
      | movePanelItem cmd => exact ⟨rfl, rfl⟩
      | addDeleteDocElement cmd => exact ⟨rfl, rfl⟩
    rw [(ih (c.apply f)).1, (ih (c.apply f)).2]
    exact hstep

/-- The commands that `checkBounds` emits, applied to the element itself: an element
that declares the four geometry properties gets the adapted rectangle. -/
theorem applyCommands_checkBounds_self (e : DocElement) (x y width height : Int)
    (containerSize : Size) (hdecl : declaresGeometry e.fields = true)
    (hids : e.nestedIds.Nodup) :
    (applyCommands (checkBounds e x y width height containerSize []) e.fields).xVal
      = (clampBounds x y width height containerSize).x ∧
    (applyCommands (checkBounds e x y width height containerSize []) e.fields).yVal
      = (clampBounds x y width height containerSize).y ∧
    (applyCommands (checkBounds e x y width height containerSize []) e.fields).widthVal
      = (clampBounds x y width height containerSize).width ∧
    (applyCommands (checkBounds e x y width height containerSize []) e.fields).heightVal
      = (clampBounds x y width height containerSize).height := by
  cases e with
  | mk f linked children =>
    simp only [DocElement.fields] at hdecl ⊢
    rw [checkBounds_mk]
    unfold DocElement.nestedIds at hids
    have hnil : ∀ c ∈ ([] : List Command), c.objId ≠ some f.id :=
      fun c hc => absurd hc (List.not_mem_nil c)
    by_cases hl : (DocElement.mk f linked children).getLinkedContainer = .withPanelItem
    · simp only [hl, if_true] at hids ⊢
      obtain ⟨hfid, -⟩ := List.nodup_cons.mp hids
      rw [checkBoundsChildren_append]
      have h0 := applyCommands_own_between f (clampBounds x y width height containerSize) []
        (checkBoundsChildren children
          { width := (clampBounds x y width height containerSize).width,
            height := (clampBounds x y width height containerSize).height } []) [] hnil
        (fun c hc h => hfid (objId_of_mem_checkBoundsChildren children _ c hc f.id h)) hnil
      rw [List.append_nil, List.nil_append] at h0
      rw [List.nil_append, h0]
      exact applyCommands_expectedBoundsCommands f _ hdecl
    · simp only [hl, if_false, List.nil_append]
      exact applyCommands_expectedBoundsCommands f _ hdecl

/-- C9: resize gestures preserve the legal-rectangle invariant.  For an element with a
legal rectangle, every resize gesture, all raw deltas and every grid size `≥ 0`, the
rectangle that `checkBounds` computes from the rectangle of `updateDrag` for the deltas of
`getDragDiff`, in the same container, satisfies the six inequalities; and for an element
that declares the four geometry properties (ids unique in its nesting) the fields with
the emitted commands applied are legal again. -/
theorem resize_pipeline_preserves_legal (f : Fields) (container : Option Container)
    (diffX diffY : Int) (dragType : DragType) (gridSize : Int)
    (hlegal : Legal f container) (hsizer : dragType.isSizer = true) (hgrid : 0 ≤ gridSize) :
    (clampBounds
      (updateDragRect f container (getDragDiff f container diffX diffY dragType gridSize).x
        (getDragDiff f container diffX diffY dragType gridSize).y dragType).x
      (updateDragRect f container (getDragDiff f container diffX diffY dragType gridSize).x
        (getDragDiff f container diffX diffY dragType gridSize).y dragType).y
      (updateDragRect f container (getDragDiff f container diffX diffY dragType gridSize).x
        (getDragDiff f container diffX diffY dragType gridSize).y dragType).width
      (updateDragRect f container (getDragDiff f container diffX diffY dragType gridSize).x
        (getDragDiff f container diffX diffY dragType gridSize).y dragType).height
      (getContainerContentSize container)).LegalIn (getMinWidth f) (getMinHeight f)
        (getContainerContentSize container) ∧
    ∀ e : DocElement, e.fields = f → declaresGeometry f = true → e.nestedIds.Nodup →
      Legal (applyCommands
        (checkBounds e
          (updateDragRect f container (getDragDiff f container diffX diffY dragType gridSize).x
            (getDragDiff f container diffX diffY dragType gridSize).y dragType).x
          (updateDragRect f container (getDragDiff f container diffX diffY dragType gridSize).x
            (getDragDiff f container diffX diffY dragType gridSize).y dragType).y
          (updateDragRect f container (getDragDiff f container diffX diffY dragType gridSize).x
            (getDragDiff f container diffX diffY dragType gridSize).y dragType).width
          (updateDragRect f container (getDragDiff f container diffX diffY dragType gridSize).x
            (getDragDiff f container diffX diffY dragType gridSize).y dragType).height
          (getContainerContentSize container) []) f) container := by
  have hfix := (clampBounds_eq_self_iff
    (updateDragRect f container (getDragDiff f container diffX diffY dragType gridSize).x
      (getDragDiff f container diffX diffY dragType gridSize).y dragType)
    (getContainerContentSize container)).mpr
      (updateDragRect_sizer_within f container _ _ _ hsizer)
  have hin := updateDragRect_sizer_within f container
    (getDragDiff f container diffX diffY dragType gridSize).x
    (getDragDiff f container diffX diffY dragType gridSize).y dragType hsizer
  have hmin := updateDragRect_getDragDiff_min_size f container diffX diffY dragType gridSize
    hlegal hsizer hgrid
  have hrect : (clampBounds
      (updateDragRect f container (getDragDiff f container diffX diffY dragType gridSize).x
        (getDragDiff f container diffX diffY dragType gridSize).y dragType).x
      (updateDragRect f container (getDragDiff f container diffX diffY dragType gridSize).x
        (getDragDiff f container diffX diffY dragType gridSize).y dragType).y
      (updateDragRect f container (getDragDiff f container diffX diffY dragType gridSize).x
        (getDragDiff f container diffX diffY dragType gridSize).y dragType).width
      (updateDragRect f container (getDragDiff f container diffX diffY dragType gridSize).x
        (getDragDiff f container diffX diffY dragType gridSize).y dragType).height
      (getContainerContentSize container)).LegalIn (getMinWidth f) (getMinHeight f)
        (getContainerContentSize container) := by
    rw [hfix]
    exact ⟨hin.1, hin.2.1, hin.2.2.1, hin.2.2.2, hmin.1, hmin.2⟩
  refine ⟨hrect, ?_⟩
  intro e he hdecl hids
  subst he
  obtain ⟨h1, h2, h3, h4⟩ := applyCommands_checkBounds_self e
    (updateDragRect e.fields container
      (getDragDiff e.fields container diffX diffY dragType gridSize).x
      (getDragDiff e.fields container diffX diffY dragType gridSize).y dragType).x
    (updateDragRect e.fields container
      (getDragDiff e.fields container diffX diffY dragType gridSize).x
      (getDragDiff e.fields container diffX diffY dragType gridSize).y dragType).y
    (updateDragRect e.fields container
      (getDragDiff e.fields container diffX diffY dragType gridSize).x
      (getDragDiff e.fields container diffX diffY dragType gridSize).y dragType).width
    (updateDragRect e.fields container
      (getDragDiff e.fields container diffX diffY dragType gridSize).x
      (getDragDiff e.fields container diffX diffY dragType gridSize).y dragType).height
    (getContainerContentSize container) hdecl hids
  obtain ⟨m1, m2⟩ := applyCommands_minSize
    (checkBounds e
      (updateDragRect e.fields container
        (getDragDiff e.fields container diffX diffY dragType gridSize).x
        (getDragDiff e.fields container diffX diffY dragType gridSize).y dragType).x
      (updateDragRect e.fields container
        (getDragDiff e.fields container diffX diffY dragType gridSize).x
        (getDragDiff e.fields container diffX diffY dragType gridSize).y dragType).y
      (updateDragRect e.fields container
        (getDragDiff e.fields container diffX diffY dragType gridSize).x
        (getDragDiff e.fields container diffX diffY dragType gridSize).y dragType).width
      (updateDragRect e.fields container
        (getDragDiff e.fields container diffX diffY dragType gridSize).x
        (getDragDiff e.fields container diffX diffY dragType gridSize).y dragType).height
      (getContainerContentSize container) []) e.fields
  unfold Legal
  simp only [getDisplayWidth, getDisplayHeight, getMinWidth, getMinHeight]
  rw [h1, h2, h3, h4, m1, m2]
  exact hrect

/-- C9 at a concrete gesture: the south-east resize of the corner element by
`(-10, -10)` on a grid of 10 commits the legal rectangle `(85, 185, 20, 20)`. -/
theorem resize_pipeline_preserves_legal_witness :
    Legal cornerElement (some frame105x205) ∧ DragType.sizerSE.isSizer = true ∧
    (0 : Int) ≤ 10 ∧
    (clampBounds
      (updateDragRect cornerElement (some frame105x205)
        (getDragDiff cornerElement (some frame105x205) (-10) (-10) .sizerSE 10).x
        (getDragDiff cornerElement (some frame105x205) (-10) (-10) .sizerSE 10).y .sizerSE).x
      (updateDragRect cornerElement (some frame105x205)
        (getDragDiff cornerElement (some frame105x205) (-10) (-10) .sizerSE 10).x
        (getDragDiff cornerElement (some frame105x205) (-10) (-10) .sizerSE 10).y .sizerSE).y
      (updateDragRect cornerElement (some frame105x205)
        (getDragDiff cornerElement (some frame105x205) (-10) (-10) .sizerSE 10).x
        (getDragDiff cornerElement (some frame105x205) (-10) (-10) .sizerSE 10).y .sizerSE).width
      (updateDragRect cornerElement (some frame105x205)
        (getDragDiff cornerElement (some frame105x205) (-10) (-10) .sizerSE 10).x
        (getDragDiff cornerElement (some frame105x205) (-10) (-10) .sizerSE 10).y
        .sizerSE).height
      (getContainerContentSize (some frame105x205))).LegalIn (getMinWidth cornerElement)
        (getMinHeight cornerElement) (getContainerContentSize (some frame105x205)) :=
  ⟨by decide, rfl, by decide,
    (resize_pipeline_preserves_legal cornerElement (some frame105x205) (-10) (-10) .sizerSE 10
      (by decide) rfl (by decide)).1⟩

/-- C10 at the failing input: for the 100 x 50 element at `(0, 0)` in a 300 x 200
container, `updateDrag` with the north-west handle and the raw deltas `(400, 300)`
computes the rectangle `(400, 300, -100, -100)`: the width and the height are negative. -/
theorem updateDragRect_negative_size :
    Legal textElement (some frame300x200) ∧
    updateDragRect textElement (some frame300x200) 400 300 .sizerNW
      = { x := 400, y := 300, width := -100, height := -100 } ∧
    checkBounds (DocElement.mk textElement .null .nil) 400 300 (-100) (-100)
        (getContainerContentSize (some frame300x200)) []
      = [geometryCmd textElement "x" 400, geometryCmd textElement "y" 300,
         geometryCmd textElement "width" (-100), geometryCmd textElement "height" (-100)] := by
  decide

/-- C11: preview mode is free of side effects: with `cmdGroup = null`, `updateDrag`
ends without error for every element, gesture, deltas and drag container, creates no
command, leaves the element (its `x`, `y`, `width`, `height`, `xVal`, `yVal`, `widthVal`,
`heightVal`, `containerId` included) as it is, and its only output is the display update
with the recomputed rectangle. -/
theorem updateDrag_preview (e : DocElement) (container : Option Container)
    (diffX diffY : Int) (dragType : DragType) (dragContainer : Option Container) :
    ∃ result, updateDrag e container diffX diffY dragType dragContainer none = some result ∧
      result.cmdGroup = none ∧ result.element = e ∧
      result.display = some (updateDragRect e.fields container diffX diffY dragType) :=
  ⟨_, rfl, rfl, rfl, rfl⟩

/-- C12: a disallowed drop is a no-op: in commit mode with a drag container whose id
differs from the element's `containerId` and that does not allow the element type,
`updateDrag` ends without error, appends no command to the group, leaves the element as
it is and refreshes the display from the stored rectangle. -/
theorem updateDrag_disallowed_drop (e : DocElement) (container : Option Container)
    (diffX diffY : Int) (dragType : DragType) (dragContainer : Container)
    (cmdGroup : List Command)
    (hother : some dragContainer.id ≠ getContainerId e.fields)
    (hdisallowed : dragContainer.isElementAllowed (getElementType e.fields) = false) :
    ∃ result,
      updateDrag e container diffX diffY dragType (some dragContainer) (some cmdGroup)
        = some result ∧
      result.cmdGroup = some cmdGroup ∧ result.element = e ∧
      result.display = some (storedRect e.fields) := by
  refine ⟨{ element := e, cmdGroup := some cmdGroup, display := some (storedRect e.fields) },
    ?_, rfl, rfl, rfl⟩
  simp only [updateDrag, hother, hdisallowed, ne_eq, not_false_eq_true, if_true]
  simp

/-- C12 at a concrete drop: the text element dragged onto a frame that accepts no
element leaves an empty group empty. -/
theorem updateDrag_disallowed_drop_witness :
    some closedFrame.id ≠ getContainerId (DocElement.mk draggedText .null .nil).fields ∧
    closedFrame.isElementAllowed (getElementType (DocElement.mk draggedText .null .nil).fields)
      = false ∧
    ∃ result,
      updateDrag (DocElement.mk draggedText .null .nil) (some frame300x200) (-70) (-40) .element
        (some closedFrame) (some []) = some result ∧
      result.cmdGroup = some [] ∧ result.element = DocElement.mk draggedText .null .nil ∧
      result.display = some (storedRect (DocElement.mk draggedText .null .nil).fields) :=
  ⟨by decide, by decide,
    updateDrag_disallowed_drop (DocElement.mk draggedText .null .nil) (some frame300x200)
      (-70) (-40) .element closedFrame [] (by decide) (by decide)⟩

mutual
theorem isGeometry_of_mem_checkBounds : ∀ (e : DocElement) (x y width height : Int)
    (containerSize : Size) (c : Command),
    c ∈ checkBounds e x y width height containerSize [] → c.isGeometry = true
  | .mk f linked children, x, y, width, height, containerSize, c => by
    rw [checkBounds_mk]
    split_ifs with hl
    · rw [checkBoundsChildren_append]
      intro hc
      rcases List.mem_append.mp hc with hc | hc
      · exact isGeometry_of_mem_expectedBoundsCommands f _ c (by simpa using hc)
      · exact isGeometry_of_mem_checkBoundsChildren children _ c hc
    · intro hc
      exact isGeometry_of_mem_expectedBoundsCommands f _ c (by simpa using hc)
theorem isGeometry_of_mem_checkBoundsChildren : ∀ (items : PanelItems) (size : Size)
    (c : Command), c ∈ checkBoundsChildren items size [] → c.isGeometry = true
  | .nil, size, c => by simp [checkBoundsChildren]
  | .docElement e rest, size, c => by
    simp only [checkBoundsChildren]
    rw [checkBoundsChildren_append]
    intro hc
    rcases List.mem_append.mp hc with hc | hc
    · exact isGeometry_of_mem_checkBounds e _ _ _ _ size c hc
    · exact isGeometry_of_mem_checkBoundsChildren rest size c hc
  | .other rest, size, c => by
    simp only [checkBoundsChildren]
    exact isGeometry_of_mem_checkBoundsChildren rest size c
end

theorem expectedBoundsCommands_storedRect (f : Fields) :
    expectedBoundsCommands f (storedRect f) = [] := by
  simp [expectedBoundsCommands, storedRect]

theorem clampBounds_of_within (f : Fields) (size : Size) (h : f.Within size) :
    clampBounds f.xVal f.yVal f.widthVal f.heightVal size = storedRect f :=
  (clampBounds_eq_self_iff (storedRect f) size).mpr h

mutual
theorem checkBounds_of_within : ∀ (e : DocElement) (size : Size) (cmdGroup : List Command),
    e.fields.Within size → e.NestedWithin →
    checkBounds e e.fields.xVal e.fields.yVal (getDisplayWidth e.fields)
      (getDisplayHeight e.fields) size cmdGroup = cmdGroup
  | .mk f linked children, size, cmdGroup, hwithin, hnested => by
    simp only [DocElement.fields, getDisplayWidth, getDisplayHeight] at hwithin ⊢
    rw [checkBounds_mk, clampBounds_of_within f size hwithin, expectedBoundsCommands_storedRect,
      List.append_nil]
    split_ifs with hl
    · unfold DocElement.NestedWithin at hnested
      exact checkBoundsChildren_of_within children _ cmdGroup (hnested hl)
    · rfl
theorem checkBoundsChildren_of_within : ∀ (items : PanelItems) (size : Size)
    (cmdGroup : List Command), items.AllWithin size →
    checkBoundsChildren items size cmdGroup = cmdGroup
  | .nil, size, cmdGroup, _ => by simp [checkBoundsChildren]
  | .docElement e rest, size, cmdGroup, h => by
    unfold PanelItems.AllWithin at h
    simp only [checkBoundsChildren]
    rw [checkBounds_of_within e size cmdGroup h.1 h.2.1]
    exact checkBoundsChildren_of_within rest size cmdGroup h.2.2
  | .other rest, size, cmdGroup, h => by
    unfold PanelItems.AllWithin at h
    simp only [checkBoundsChildren]
    exact checkBoundsChildren_of_within rest size cmdGroup h
end

theorem updateDrag_changed (e : DocElement) (container : Option Container)
    (diffX diffY : Int) (dragType : DragType) (dragContainer : Container)
    (cmdGroup : List Command) (parent : PanelItem)
    (hother : some dragContainer.id ≠ getContainerId e.fields)
    (hallowed : dragContainer.isElementAllowed (getElementType e.fields) = true)
    (hpanel : dragContainer.panelItem = some parent) :
    updateDrag e container diffX diffY dragType (some dragContainer) (some cmdGroup)
      = some
        { element := e,
          cmdGroup := some
            (checkBounds e
              (dropRect (updateDragRect e.fields container diffX diffY dragType) container
                dragContainer).x
              (dropRect (updateDragRect e.fields container diffX diffY dragType) container
                dragContainer).y
              (dropRect (updateDragRect e.fields container diffX diffY dragType) container
                dragContainer).width
              (dropRect (updateDragRect e.fields container diffX diffY dragType) container
                dragContainer).height
              dragContainer.contentSize cmdGroup
            ++ [containerIdCmd e.fields dragContainer,
                .movePanelItem { panelItem := getPanelItem e.fields,
                                 parentPanelItem := parent.id,
                                 position := parent.children.length }]),
          display := none } := by
  simp [updateDrag, hother, hallowed, hpanel]

theorem updateDrag_unchanged (e : DocElement) (current : Container)
    (diffX diffY : Int) (dragType : DragType) (dragContainer : Option Container)
    (cmdGroup : List Command)
    (hsame : dragContainer = none ∨
      ∃ dc, dragContainer = some dc ∧ some dc.id = getContainerId e.fields) :
    updateDrag e (some current) diffX diffY dragType dragContainer (some cmdGroup)
      = some
        { element := e,
          cmdGroup := some
            (checkBounds e
              (updateDragRect e.fields (some current) diffX diffY dragType).x
              (updateDragRect e.fields (some current) diffX diffY dragType).y
              (updateDragRect e.fields (some current) diffX diffY dragType).width
              (updateDragRect e.fields (some current) diffX diffY dragType).height
              current.contentSize cmdGroup),
          display :=
            if (checkBounds e
              (updateDragRect e.fields (some current) diffX diffY dragType).x
              (updateDragRect e.fields (some current) diffX diffY dragType).y
              (updateDragRect e.fields (some current) diffX diffY dragType).width
              (updateDragRect e.fields (some current) diffX diffY dragType).height
              current.contentSize cmdGroup).isEmpty
            then some (storedRect e.fields) else none } := by
  rcases hsame with hnone | ⟨dc, hdc, hid⟩
  · subst hnone
    simp only [updateDrag]
  · subst hdc
    simp only [updateDrag, hid, ne_eq, not_true_eq_false, if_false]

theorem setValue_containerId (f : Fields) (n : Nat) :
    setValue f "containerId" (.num n) = { f with containerId := some n } := rfl

theorem applyCommands_checkBounds_id (e : DocElement) (x y width height : Int)
    (containerSize : Size) (f : Fields) :
    (applyCommands (checkBounds e x y width height containerSize []) f).id = f.id :=
  applyCommands_id _ _ (fun c hc => Command.field_ne_id_of_isGeometry c
    (isGeometry_of_mem_checkBounds e x y width height containerSize c hc))

/-- The group of an allowed drop into another container, applied to the element itself:
the geometry is that left by the commands of `checkBounds`. -/
theorem applyCommands_drop_group (e : DocElement) (x y width height : Int)
    (containerSize : Size) (dragContainer : Container) (move : MovePanelItemCmd) :
    applyCommands (checkBounds e x y width height containerSize []
        ++ [containerIdCmd e.fields dragContainer, .movePanelItem move]) e.fields
      = { applyCommands (checkBounds e x y width height containerSize []) e.fields with
          containerId := some dragContainer.id } := by
  rw [applyCommands_append]
  have hid := applyCommands_checkBounds_id e x y width height containerSize e.fields
  show Command.apply (.movePanelItem move) (Command.apply (containerIdCmd e.fields dragContainer)
    (applyCommands (checkBounds e x y width height containerSize []) e.fields)) = _
  simp only [Command.apply, containerIdCmd, hid, if_true, setValue_containerId]

/-- C13: on an allowed drop into another container (the drop container has a panel
item), `updateDrag` ends without error and passes to `checkBounds` the rectangle
`(x1 - off.x, y1 - off.y, width, height)`, where `(x1, y1, width, height)` is the
rectangle after the deltas and `off = dragContainer.getOffsetTo(container)`, with the
content size of the drop container; the rectangle that `checkBounds` computes from it
lies within the content size of the drop container, and so does, for an element that
declares the four geometry properties (ids unique in its nesting), the rectangle of the
element after the commands of the group. -/
theorem updateDrag_allowed_drop_bounds (e : DocElement) (container dragContainer : Container)
    (diffX diffY : Int) (dragType : DragType) (cmdGroup : List Command) (parent : PanelItem)
    (hother : some dragContainer.id ≠ getContainerId e.fields)
    (hallowed : dragContainer.isElementAllowed (getElementType e.fields) = true)
    (hpanel : dragContainer.panelItem = some parent) :
    ∃ result,
      updateDrag e (some container) diffX diffY dragType (some dragContainer) (some cmdGroup)
        = some result ∧
      result.cmdGroup = some
        (checkBounds e
          ((updateDragRect e.fields (some container) diffX diffY dragType).x
            - (dragContainer.getOffsetTo container).x)
          ((updateDragRect e.fields (some container) diffX diffY dragType).y
            - (dragContainer.getOffsetTo container).y)
          (updateDragRect e.fields (some container) diffX diffY dragType).width
          (updateDragRect e.fields (some container) diffX diffY dragType).height
          dragContainer.contentSize cmdGroup
        ++ [containerIdCmd e.fields dragContainer,
            .movePanelItem { panelItem := getPanelItem e.fields, parentPanelItem := parent.id,
                             position := parent.children.length }]) ∧
      (clampBounds
          ((updateDragRect e.fields (some container) diffX diffY dragType).x
            - (dragContainer.getOffsetTo container).x)
          ((updateDragRect e.fields (some container) diffX diffY dragType).y
            - (dragContainer.getOffsetTo container).y)
          (updateDragRect e.fields (some container) diffX diffY dragType).width
          (updateDragRect e.fields (some container) diffX diffY dragType).height
          dragContainer.contentSize).Within dragContainer.contentSize ∧
      (declaresGeometry e.fields = true → e.nestedIds.Nodup →
        (applyCommands
          (checkBounds e
            ((updateDragRect e.fields (some container) diffX diffY dragType).x
              - (dragContainer.getOffsetTo container).x)
            ((updateDragRect e.fields (some container) diffX diffY dragType).y
              - (dragContainer.getOffsetTo container).y)
            (updateDragRect e.fields (some container) diffX diffY dragType).width
            (updateDragRect e.fields (some container) diffX diffY dragType).height
            dragContainer.contentSize []
          ++ [containerIdCmd e.fields dragContainer,
              .movePanelItem { panelItem := getPanelItem e.fields, parentPanelItem := parent.id,
                               position := parent.children.length }])
          e.fields).Within dragContainer.contentSize) := by
  refine ⟨_, updateDrag_changed e (some container) diffX diffY dragType dragContainer
    cmdGroup parent hother hallowed hpanel, rfl, clampBounds_bounds _ _ _ _ _, ?_⟩
  · intro hdecl hids
    rw [applyCommands_drop_group]
    obtain ⟨h1, h2, h3, h4⟩ := applyCommands_checkBounds_self e
      ((updateDragRect e.fields (some container) diffX diffY dragType).x
        - (dragContainer.getOffsetTo container).x)
      ((updateDragRect e.fields (some container) diffX diffY dragType).y
        - (dragContainer.getOffsetTo container).y)
      (updateDragRect e.fields (some container) diffX diffY dragType).width
      (updateDragRect e.fields (some container) diffX diffY dragType).height
      dragContainer.contentSize hdecl hids
    unfold Fields.Within
    simp only [h1, h2, h3, h4]
    exact clampBounds_bounds _ _ _ _ _

/-- C13 at a concrete drop: the text element at `(100, 60)`, moved by `(-20, -10)` and
dropped into the 120 x 80 frame at offset `(40, 30)`, is checked at `(40, 20)` in the
frame and put at `(20, 20)`. -/
theorem updateDrag_allowed_drop_bounds_witness :
    some dropFrame.id ≠ getContainerId (DocElement.mk draggedText .null .nil).fields ∧
    dropFrame.isElementAllowed (getElementType (DocElement.mk draggedText .null .nil).fields)
      = true ∧
    dropFrame.panelItem = some dropPanelItem ∧
    (updateDrag (DocElement.mk draggedText .null .nil) (some frame300x200) (-20) (-10) .element
        (some dropFrame) (some [])).map DragResult.cmdGroup
      = some (some [geometryCmd draggedText "x" 20, geometryCmd draggedText "y" 20,
          containerIdCmd draggedText dropFrame,
          .movePanelItem { panelItem := some 30, parentPanelItem := 20, position := 2 }]) ∧
    ∃ result,
      updateDrag (DocElement.mk draggedText .null .nil) (some frame300x200) (-20) (-10) .element
        (some dropFrame) (some []) = some result ∧
      result.cmdGroup = some
        (checkBounds (DocElement.mk draggedText .null .nil)
          ((updateDragRect (DocElement.mk draggedText .null .nil).fields (some frame300x200)
              (-20) (-10) .element).x - (dropFrame.getOffsetTo frame300x200).x)
          ((updateDragRect (DocElement.mk draggedText .null .nil).fields (some frame300x200)
              (-20) (-10) .element).y - (dropFrame.getOffsetTo frame300x200).y)
          (updateDragRect (DocElement.mk draggedText .null .nil).fields (some frame300x200)
              (-20) (-10) .element).width
          (updateDragRect (DocElement.mk draggedText .null .nil).fields (some frame300x200)
              (-20) (-10) .element).height
          dropFrame.contentSize []
        ++ [containerIdCmd (DocElement.mk draggedText .null .nil).fields dropFrame,
            .movePanelItem
              { panelItem := getPanelItem (DocElement.mk draggedText .null .nil).fields,
                parentPanelItem := dropPanelItem.id,
                position := dropPanelItem.children.length }]) :=
  ⟨by decide, by decide, rfl, by decide,
    (updateDrag_allowed_drop_bounds (DocElement.mk draggedText .null .nil) frame300x200
      dropFrame (-20) (-10) .element [] dropPanelItem (by decide) (by decide) rfl).imp
      fun _ h => ⟨h.1, h.2.1⟩⟩

/-- C14: on an allowed drop into another container the group gets, after the geometry
commands of `checkBounds`, exactly two commands in this order: the `SetValueCmd` on
`containerId` with the id of the drop container, and the `MovePanelItemCmd` that moves the
panel item of the element under the panel item of the drop container at the position
that is the number of children of that panel item.  When the container does not change,
only geometry commands are appended. -/
theorem updateDrag_structural_commands (e : DocElement) (container : Option Container)
    (diffX diffY : Int) (dragType : DragType) (cmdGroup : List Command) :
    (∀ (dragContainer : Container) (parent : PanelItem),
      some dragContainer.id ≠ getContainerId e.fields →
      dragContainer.isElementAllowed (getElementType e.fields) = true →
      dragContainer.panelItem = some parent →
      ∃ result geometry,
        updateDrag e container diffX diffY dragType (some dragContainer) (some cmdGroup)
          = some result ∧
        (∀ c ∈ geometry, c.isGeometry = true) ∧
        result.cmdGroup = some (cmdGroup ++ geometry ++
          [.setValue { objId := e.fields.id, field := "containerId",
                       value := .num dragContainer.id, type := .internal },
           .movePanelItem { panelItem := getPanelItem e.fields, parentPanelItem := parent.id,
                            position := parent.children.length }])) ∧
    (∀ (dragContainer : Option Container) (current : Container),
      container = some current →
      (dragContainer = none ∨
        ∃ dc, dragContainer = some dc ∧ some dc.id = getContainerId e.fields) →
      ∃ result geometry,
        updateDrag e container diffX diffY dragType dragContainer (some cmdGroup)
          = some result ∧
        (∀ c ∈ geometry, c.isGeometry = true) ∧
        result.cmdGroup = some (cmdGroup ++ geometry)) := by
  constructor
  · intro dragContainer parent hother hallowed hpanel
    refine ⟨_, _, updateDrag_changed e container diffX diffY dragType dragContainer cmdGroup
      parent hother hallowed hpanel,
      isGeometry_of_mem_checkBounds e
        (dropRect (updateDragRect e.fields container diffX diffY dragType) container
          dragContainer).x
        (dropRect (updateDragRect e.fields container diffX diffY dragType) container
          dragContainer).y
        (dropRect (updateDragRect e.fields container diffX diffY dragType) container
          dragContainer).width
        (dropRect (updateDragRect e.fields container diffX diffY dragType) container
          dragContainer).height dragContainer.contentSize, ?_⟩
    show some _ = some _
    rw [checkBounds_append]
    rfl
  · intro dragContainer current hcurrent hsame
    subst hcurrent
    refine ⟨_, _, updateDrag_unchanged e current diffX diffY dragType dragContainer cmdGroup
      hsame,
      isGeometry_of_mem_checkBounds e
        (updateDragRect e.fields (some current) diffX diffY dragType).x
        (updateDragRect e.fields (some current) diffX diffY dragType).y
        (updateDragRect e.fields (some current) diffX diffY dragType).width
        (updateDragRect e.fields (some current) diffX diffY dragType).height
        current.contentSize, ?_⟩
    show some _ = some _
    rw [checkBounds_append]

/-- C14 at a concrete element: dropped into the frame with two children, the text
element gets the `containerId` command and the move to position 2; dropped on its own
container it gets geometry commands only. -/
theorem updateDrag_structural_commands_witness :
    some dropFrame.id ≠ getContainerId (DocElement.mk draggedText .null .nil).fields ∧
    dropFrame.isElementAllowed (getElementType (DocElement.mk draggedText .null .nil).fields)
      = true ∧
    dropFrame.panelItem = some dropPanelItem ∧
    (∃ result geometry,
      updateDrag (DocElement.mk draggedText .null .nil) (some frame300x200) (-20) (-10) .element
        (some dropFrame) (some []) = some result ∧
      (∀ c ∈ geometry, c.isGeometry = true) ∧
      result.cmdGroup = some ([] ++ geometry ++
        [.setValue { objId := (DocElement.mk draggedText .null .nil).fields.id,
                     field := "containerId", value := .num dropFrame.id, type := .internal },
         .movePanelItem
           { panelItem := getPanelItem (DocElement.mk draggedText .null .nil).fields,
             parentPanelItem := dropPanelItem.id,
             position := dropPanelItem.children.length }])) ∧
    (∃ result geometry,
      updateDrag (DocElement.mk draggedText .null .nil) (some frame300x200) (-20) (-10) .element
        (some frame300x200) (some []) = some result ∧
      (∀ c ∈ geometry, c.isGeometry = true) ∧
      result.cmdGroup = some ([] ++ geometry)) :=
  ⟨by decide, by decide, rfl,
    (updateDrag_structural_commands (DocElement.mk draggedText .null .nil)
      (some frame300x200) (-20) (-10) .element []).1 dropFrame dropPanelItem (by decide)
      (by decide) rfl,
    (updateDrag_structural_commands (DocElement.mk draggedText .null .nil)
      (some frame300x200) (-20) (-10) .element []).2 (some frame300x200) frame300x200 rfl
      (Or.inr ⟨frame300x200, rfl, by decide⟩)⟩

/-- C15: the worked example.  For the element `(0, 0, 100, 50)` that declares `x`, `y`,
`width`, `height`, in a container of content size 300 x 200, `getDragDiff(47, 23,
sizerSE, 10)` is `(50, 20)`, and `updateDrag(50, 20, sizerSE, container, group)` on an
empty group leaves exactly the two commands `width = '150'` and `height = '70'`. -/
theorem updateDrag_worked_example :
    getDragDiff textElement (some frame300x200) 47 23 .sizerSE 10 = { x := 50, y := 20 } ∧
    (updateDrag (DocElement.mk textElement .null .nil) (some frame300x200) 50 20 .sizerSE
        (some frame300x200) (some [])).map DragResult.cmdGroup
      = some (some
          [.setValue { objId := 2, field := "width", value := .str "150", type := .text,
                       selectDisabled := true },
           .setValue { objId := 2, field := "height", value := .str "70", type := .text,
                       selectDisabled := true }]) := by
  decide

theorem dragEdges_zero (e : Edges) (dragType : DragType) : dragEdges e 0 0 dragType = e := by
  cases e
  simp [dragEdges]

theorem updateDragRect_zero (f : Fields) (container : Option Container)
    (dragType : DragType) (hlegal : Legal f container)
    (hminWidth : 0 ≤ getMinWidth f) (hminHeight : 0 ≤ getMinHeight f) :
    updateDragRect f container 0 0 dragType = storedRect f := by
  obtain ⟨hx, hy, hxw, hyh, hmw, hmh⟩ := hlegal
  simp only [getDisplayWidth, getDisplayHeight, getMinWidth, getMinHeight] at *
  simp only [updateDragRect, dragEdges_zero, storedEdges, storedRect, getMaxWidth,
    getDisplayWidth, getDisplayHeight, Rect.mk.injEq]
  refine ⟨?_, ?_, ?_, ?_⟩ <;> split_ifs <;> dsimp only at * <;> omega

/-- C16: a gesture without movement leaves the group as it is.  For an element whose
rectangle is legal in its container (minimum sizes not negative) and whose nested
elements lie within it at every depth, `updateDrag(0, 0, kind, dragContainer, group)`
with `dragContainer` `null` or the current container ends without error and appends no
command, for every gesture kind; the display is refreshed from the stored rectangle
exactly when the group is empty. -/
theorem updateDrag_noop (e : DocElement) (current : Container) (dragType : DragType)
    (dragContainer : Option Container) (cmdGroup : List Command)
    (hlegal : Legal e.fields (some current))
    (hminWidth : 0 ≤ getMinWidth e.fields) (hminHeight : 0 ≤ getMinHeight e.fields)
    (hnested : e.NestedWithin)
    (hsame : dragContainer = none ∨
      ∃ dc, dragContainer = some dc ∧ some dc.id = getContainerId e.fields) :
    ∃ result,
      updateDrag e (some current) 0 0 dragType dragContainer (some cmdGroup) = some result ∧
      result.cmdGroup = some cmdGroup ∧
      result.display = if cmdGroup.isEmpty then some (storedRect e.fields) else none := by
  have hrect := updateDragRect_zero e.fields (some current) dragType hlegal hminWidth hminHeight
  have hwithin : e.fields.Within current.contentSize :=
    ⟨hlegal.1, hlegal.2.1, hlegal.2.2.1, hlegal.2.2.2.1⟩
  have hcb := checkBounds_of_within e current.contentSize cmdGroup hwithin hnested
  refine ⟨_, updateDrag_unchanged e current 0 0 dragType dragContainer cmdGroup hsame, ?_, ?_⟩
  · show some _ = some _
    rw [hrect]
    exact congrArg some hcb
  · show (if (checkBounds e _ _ _ _ current.contentSize cmdGroup).isEmpty then _ else _) = _
    rw [hrect]
    exact congrArg (fun g : List Command => if g.isEmpty then some (storedRect e.fields) else none)
      hcb

theorem tidyFrame_nestedWithin : tidyFrame.NestedWithin := by
  unfold tidyFrame DocElement.NestedWithin
  intro _
  unfold PanelItems.AllWithin DocElement.NestedWithin PanelItems.AllWithin
  exact ⟨by decide, fun h => absurd h (by decide), trivial⟩

/-- C16 at a concrete element: the frame of size 100 x 50 that holds a text within it,
with the south-east handle and no movement, dropped on its own container, leaves the
empty group empty. -/
theorem updateDrag_noop_witness :
    Legal tidyFrame.fields (some frame300x200) ∧
    0 ≤ getMinWidth tidyFrame.fields ∧ 0 ≤ getMinHeight tidyFrame.fields ∧
    tidyFrame.NestedWithin ∧
    ∃ result,
      updateDrag tidyFrame (some frame300x200) 0 0 .sizerSE (some frame300x200) (some [])
        = some result ∧
      result.cmdGroup = some [] ∧
      result.display =
        if ([] : List Command).isEmpty then some (storedRect tidyFrame.fields) else none :=
  ⟨by decide, by decide, by decide, tidyFrame_nestedWithin,
    updateDrag_noop tidyFrame frame300x200 .sizerSE (some frame300x200) [] (by decide)
      (by decide) (by decide) tidyFrame_nestedWithin (Or.inr ⟨frame300x200, rfl, by decide⟩)⟩

theorem consistent_of_geometry_eq (f g : Fields) (h : g.geometry = f.geometry)
    (hf : Consistent f) : Consistent g := by
  simp only [Fields.geometry, Prod.mk.injEq] at h
  obtain ⟨h1, h2, h3, h4, h5, h6, h7, h8⟩ := h
  unfold Consistent at hf ⊢
  rw [h1, h2, h3, h4, h5, h6, h7, h8]
  exact hf

theorem setOwn_geometry (f : Fields) (k : OwnField) (value : Value)
    (hgeo : k.key ∉ geometryFields) (hder : k.key ∉ derivedFields) :
    (setOwn f k value).geometry = f.geometry := by
  cases k <;>
    first
    | exact absurd (by decide) hgeo
    | exact absurd (by decide) hder
    | (simp only [setOwn]; split <;> rfl)

theorem setField_geometry (f : Fields) (field : String) (value : Value)
    (hgeo : field ∉ geometryFields) (hder : field ∉ derivedFields) :
    (setField f field value).geometry = f.geometry := by
  unfold setField
  split
  · next k hk =>
    have hkey := key_of_ownField? field k hk
    exact setOwn_geometry f k value (hkey ▸ hgeo) (hkey ▸ hder)
  · rfl

theorem setValue_of_not_geometry (f : Fields) (field : String) (value : Value)
    (hgeo : field ∉ geometryFields) : setValue f field value = setField f field value := by
  simp only [geometryFields, List.mem_cons, List.mem_singleton, List.not_mem_nil, or_false,
    not_or] at hgeo
  obtain ⟨h1, h2, h3, h4⟩ := hgeo
  simp only [setValue, h1, h2, h3, h4, if_false]

theorem setValue_consistent (f : Fields) (field : String) (value : Value)
    (hf : Consistent f) (hder : field ∉ derivedFields) : Consistent (setValue f field value) := by
  by_cases hgeo : field ∈ geometryFields
  · obtain ⟨h1, h2, h3, h4⟩ := hf
    simp only [geometryFields, List.mem_cons, List.mem_singleton, List.not_mem_nil,
      or_false] at hgeo
    rcases hgeo with rfl | rfl | rfl | rfl
    · exact ⟨rfl, h2, h3, h4⟩
    · exact ⟨h1, rfl, h3, h4⟩
    · exact ⟨h1, h2, rfl, h4⟩
    · exact ⟨h1, h2, h3, rfl⟩
  · rw [setValue_of_not_geometry f field value hgeo]
    exact consistent_of_geometry_eq f _ (setField_geometry f field value hgeo hder) hf

theorem setInitialData_consistent (f : Fields) (initialData : List (String × Value)) :
    Consistent (setInitialData f initialData) :=
  ⟨rfl, rfl, rfl, rfl⟩

theorem setup_consistent (f : Fields) (container : Option Container) (hf : Consistent f) :
    Consistent (setup f container) := by
  cases container with
  | none => exact hf
  | some c =>
    obtain ⟨-, -, h3, h4⟩ := hf
    refine ⟨?_, ?_, h3, h4⟩
    · exact (convertInputToNumber_toString _).symm
    · exact (convertInputToNumber_toString _).symm

/-- C17 as stated fails for `setValue` on a numeric field: `setValue('xVal', 7)` on the
consistent element with `x = '0'` leaves `x` and gives `xVal = 7`. -/
theorem setValue_xVal_breaks_consistency :
    Consistent textElement ∧
    (setValue textElement "xVal" (.num 7)).x = .str "0" ∧
    (setValue textElement "xVal" (.num 7)).xVal = 7 ∧
    ¬ Consistent (setValue textElement "xVal" (.num 7)) := by
  decide

/-- C17, amended: the numeric geometry is the conversion of the text geometry after
`setInitialData`; this is preserved by `setValue` on every field other than the numeric
fields `xVal`, `yVal`, `widthVal`, `heightVal` themselves, and by `setup`; and `setValue`
on one of `x`, `y`, `width`, `height` changes only that field and its numeric field. -/
theorem geometry_consistency (f : Fields) (initialData : List (String × Value))
    (field : String) (value : Value) (container : Option Container) :
    Consistent (setInitialData f initialData) ∧
    (Consistent f → field ∉ derivedFields → Consistent (setValue f field value)) ∧
    (Consistent f → Consistent (setup f container)) ∧
    setValue f "x" value = { f with x := value, xVal := convertInputToNumber value } ∧
    setValue f "y" value = { f with y := value, yVal := convertInputToNumber value } ∧
    setValue f "width" value
      = { f with width := value, widthVal := convertInputToNumber value } ∧
    setValue f "height" value
      = { f with height := value, heightVal := convertInputToNumber value } :=
  ⟨setInitialData_consistent f initialData, setValue_consistent f field value,
    setup_consistent f container, rfl, rfl, rfl, rfl⟩

/-- C17, amended, at a concrete element: the consistent element stays consistent when
`width` is set to `'120'` and when it is set up in its container. -/
theorem geometry_consistency_witness :
    Consistent textElement ∧ "width" ∉ derivedFields ∧
    Consistent (setValue textElement "width" (.str "120")) ∧
    (setValue textElement "width" (.str "120")).widthVal = 120 ∧
    Consistent (setup textElement (some frame300x200)) :=
  ⟨by decide, by decide,
    (geometry_consistency textElement [] "width" (.str "120") (some frame300x200)).2.1
      (by decide) (by decide),
    by decide,
    (geometry_consistency textElement [] "width" (.str "120") (some frame300x200)).2.2.1
      (by decide)⟩

theorem setValue_containerId_idValue (f : Fields) (i : Option Nat) :
    setValue f "containerId" (idValue i) = { f with containerId := i } := by
  cases i <;> rfl

theorem setValue_containerId_cases (f : Fields) (value : Value) :
    ∃ i, setValue f "containerId" value = { f with containerId := i } := by
  have h : setValue f "containerId" value
      = match value.toId? with
        | some i => { f with containerId := i }
        | none => f := rfl
  rw [h]
  cases value.toId? with
  | none => exact ⟨f.containerId, rfl⟩
  | some i => exact ⟨i, rfl⟩

theorem Fields.RestoredFrom.refl (f : Fields) : f.RestoredFrom f :=
  ⟨f.xVal, f.yVal, f.widthVal, f.heightVal, rfl, Or.inl rfl, Or.inl rfl, Or.inl rfl, Or.inl rfl⟩

/-- One command applied, with the state after it restored up to the numbers, and then
reverted with the captured value: the state before it is restored up to the numbers. -/
theorem revert_apply_step (cmd : Command) (f g : Fields) (hcmd : cmd.isDragCommand = true)
    (h : g.RestoredFrom (cmd.apply f)) : (cmd.revert (cmd.capture f) g).RestoredFrom f := by
  cases cmd with
  | movePanelItem c => exact h
  | addDeleteDocElement c => exact h
  | setValue c =>
    by_cases hid : c.objId = f.id
    · simp only [Command.apply, hid, if_true] at h
      obtain ⟨a, b, c', d, hg, ha, hb, hc, hd⟩ := h
      have hgid : g.id = (setValue f c.field c.value).id := by rw [hg]
      simp only [Command.isDragCommand, dragFields, List.contains_iff_exists_mem_beq] at hcmd
      obtain ⟨k, hk, hkeq⟩ := hcmd
      have hfield : c.field = k := by simpa using hkeq
      simp only [List.mem_cons, List.mem_singleton, List.not_mem_nil, or_false] at hk
      rcases hk with rfl | rfl | rfl | rfl | rfl
      all_goals
        rw [hfield] at hg hgid ha hb hc hd
        simp only [Command.revert, Command.capture, hfield]
      · rw [if_pos (hid.trans hgid.symm), hg]
        exact ⟨convertInputToNumber f.x, b, c', d, rfl, Or.inr rfl, hb, hc, hd⟩
      · rw [if_pos (hid.trans hgid.symm), hg]
        exact ⟨a, convertInputToNumber f.y, c', d, rfl, ha, Or.inr rfl, hc, hd⟩
      · rw [if_pos (hid.trans hgid.symm), hg]
        exact ⟨a, b, convertInputToNumber f.width, d, rfl, ha, hb, Or.inr rfl, hd⟩
      · rw [if_pos (hid.trans hgid.symm), hg]
        exact ⟨a, b, c', convertInputToNumber f.height, rfl, ha, hb, hc, Or.inr rfl⟩
      · obtain ⟨i, hi⟩ := setValue_containerId_cases f c.value
        rw [hi] at hg hgid ha hb hc hd
        rw [if_pos (hid.trans hgid.symm), hg]
        have hcap : getValue f "containerId" = idValue f.containerId := rfl
        rw [hcap, setValue_containerId_idValue]
        exact ⟨a, b, c', d, rfl, ha, hb, hc, hd⟩
    · simp only [Command.apply, hid, if_false] at h
      obtain ⟨a, b, c', d, hg, ha, hb, hc, hd⟩ := h
      have hgid : g.id = f.id := by rw [hg]
      simp only [Command.revert]
      rw [if_neg (fun heq => hid (heq.trans hgid))]
      exact ⟨a, b, c', d, hg, ha, hb, hc, hd⟩

theorem applyThenRevert_cons (cmd : Command) (cmds : List Command) (f : Fields) :
    applyThenRevert (cmd :: cmds) f
      = cmd.revert (cmd.capture f) (applyThenRevert cmds (cmd.apply f)) := rfl

theorem applyThenRevert_restoredFrom (cmds : List Command) (f : Fields)
    (h : ∀ c ∈ cmds, c.isDragCommand = true) : (applyThenRevert cmds f).RestoredFrom f := by
  induction cmds generalizing f with
  | nil => exact Fields.RestoredFrom.refl f
  | cons c cs ih =>
    rw [applyThenRevert_cons]
    exact revert_apply_step c f _ (h c (List.mem_cons_self _ _))
      (ih (c.apply f) (fun c' hc' => h c' (List.mem_cons_of_mem _ hc')))

theorem Command.isDragCommand_of_isGeometry (cmd : Command) (h : cmd.isGeometry = true) :
    cmd.isDragCommand = true := by
  cases cmd with
  | movePanelItem c => rfl
  | addDeleteDocElement c => exact absurd h Bool.false_ne_true
  | setValue c =>
    simp only [Command.isGeometry, geometryFields, Bool.and_eq_true] at h
    simp only [Command.isDragCommand, dragFields]
    have h1 := h.1
    simp only [List.contains_iff_exists_mem_beq, List.mem_cons, List.mem_singleton,
      List.not_mem_nil, or_false] at h1 ⊢
    obtain ⟨k, hk, hkeq⟩ := h1
    exact ⟨k, by tauto, hkeq⟩

theorem updateDrag_disallowed (e : DocElement) (container : Option Container)
    (diffX diffY : Int) (dragType : DragType) (dragContainer : Container)
    (cmdGroup : List Command)
    (hother : some dragContainer.id ≠ getContainerId e.fields)
    (hdisallowed : dragContainer.isElementAllowed (getElementType e.fields) = false) :
    updateDrag e container diffX diffY dragType (some dragContainer) (some cmdGroup)
      = some { element := e, cmdGroup := some cmdGroup,
               display := some (storedRect e.fields) } := by
  simp [updateDrag, hother, hdisallowed]

/-- Every command that a call of `updateDrag` appends to the group is a `SetValueCmd` on
`x`, `y`, `width`, `height` or `containerId`, or a `MovePanelItemCmd`. -/
theorem updateDrag_appends_drag_commands (e : DocElement) (container : Option Container)
    (diffX diffY : Int) (dragType : DragType) (dragContainer : Option Container)
    (cmdGroup : List Command) (result : DragResult)
    (h : updateDrag e container diffX diffY dragType dragContainer (some cmdGroup)
      = some result) :
    ∃ appended, result.cmdGroup = some (cmdGroup ++ appended) ∧
      ∀ c ∈ appended, c.isDragCommand = true := by
  have hgeo : ∀ (x y width height : Int) (size : Size),
      ∀ c ∈ checkBounds e x y width height size [], c.isDragCommand = true :=
    fun x y width height size c hc => Command.isDragCommand_of_isGeometry c
      (isGeometry_of_mem_checkBounds e x y width height size c hc)
  have hunchanged : (dragContainer = none ∨
      ∃ dc, dragContainer = some dc ∧ some dc.id = getContainerId e.fields) →
      ∃ appended, result.cmdGroup = some (cmdGroup ++ appended) ∧
        ∀ c ∈ appended, c.isDragCommand = true := by
    intro hsame
    cases container with
    | none =>
      rcases hsame with hnone | ⟨dc, hdc, hid⟩
      · subst hnone
        simp [updateDrag] at h
      · subst hdc
        simp [updateDrag, hid] at h
    | some current =>
      rw [updateDrag_unchanged e current diffX diffY dragType dragContainer cmdGroup hsame] at h
      have hres := Option.some.inj h
      subst hres
      exact ⟨_, congrArg some (checkBounds_append e _ _ _ _ current.contentSize cmdGroup),
        hgeo _ _ _ _ _⟩
  cases hdc : dragContainer with
  | none => exact hunchanged (Or.inl hdc)
  | some dc =>
    by_cases hid : some dc.id = getContainerId e.fields
    · exact hunchanged (Or.inr ⟨dc, hdc, hid⟩)
    · subst hdc
      cases hallowed : dc.isElementAllowed (getElementType e.fields) with
      | false =>
        rw [updateDrag_disallowed e container diffX diffY dragType dc cmdGroup hid hallowed] at h
        have hres := Option.some.inj h
        subst hres
        exact ⟨[], by simp, fun c hc => absurd hc (List.not_mem_nil c)⟩
      | true =>
        cases hpanel : dc.panelItem with
        | none => simp [updateDrag, hid, hallowed, hpanel] at h
        | some parent =>
          rw [updateDrag_changed e container diffX diffY dragType dc cmdGroup parent hid
            hallowed hpanel] at h
          have hres := Option.some.inj h
          subst hres
          obtain ⟨r, hr⟩ : ∃ r, r = dropRect (updateDragRect e.fields container diffX diffY
              dragType) container dc := ⟨_, rfl⟩
          refine ⟨checkBounds e r.x r.y r.width r.height dc.contentSize []
            ++ [containerIdCmd e.fields dc,
              .movePanelItem { panelItem := getPanelItem e.fields,
                               parentPanelItem := parent.id,
                               position := parent.children.length }], ?_, ?_⟩
          · show some _ = some _
            rw [← hr, checkBounds_append, List.append_assoc]
          · intro c hc
            rcases List.mem_append.mp hc with hc | hc
            · exact hgeo _ _ _ _ _ c hc
            · simp only [List.mem_cons, List.mem_singleton, List.not_mem_nil, or_false] at hc
              rcases hc with rfl | rfl <;> rfl

theorem restoredFrom_fields (g f : Fields) (h : g.RestoredFrom f) :
    g.x = f.x ∧ g.y = f.y ∧ g.width = f.width ∧ g.height = f.height ∧
    g.containerId = f.containerId ∧ (Consistent f → g = f) := by
  obtain ⟨a, b, c, d, hg, ha, hb, hc, hd⟩ := h
  subst hg
  refine ⟨rfl, rfl, rfl, rfl, rfl, ?_⟩
  intro hf
  obtain ⟨h1, h2, h3, h4⟩ := hf
  have ha' : a = f.xVal := ha.elim id (fun h => h.trans h1.symm)
  have hb' : b = f.yVal := hb.elim id (fun h => h.trans h2.symm)
  have hc' : c = f.widthVal := hc.elim id (fun h => h.trans h3.symm)
  have hd' : d = f.heightVal := hd.elim id (fun h => h.trans h4.symm)
  subst ha' hb' hc' hd'
  rfl

/-- C18: apply-then-revert is the identity on the state of every element, for a group
built by `checkBounds` or by `updateDrag` from an empty group.  A `SetValueCmd` captures
`getValue(field)` when it is applied and reverts by `setValue(field, captured)`; the
commands are applied in order and reverted in reverse order.  The text fields `x`, `y`,
`width`, `height` and `containerId` get back their values, and when the numeric geometry
was the conversion of the text geometry before, all fields (the numeric ones included)
do. -/
theorem apply_then_revert_restores (cmds : List Command) (f : Fields)
    (hbuilt :
      (∃ (e : DocElement) (x y width height : Int) (containerSize : Size),
        cmds = checkBounds e x y width height containerSize []) ∨
      (∃ (e : DocElement) (container : Option Container) (diffX diffY : Int)
          (dragType : DragType) (dragContainer : Option Container) (result : DragResult),
        updateDrag e container diffX diffY dragType dragContainer (some []) = some result ∧
        result.cmdGroup = some cmds)) :
    (applyThenRevert cmds f).x = f.x ∧ (applyThenRevert cmds f).y = f.y ∧
    (applyThenRevert cmds f).width = f.width ∧ (applyThenRevert cmds f).height = f.height ∧
    (applyThenRevert cmds f).containerId = f.containerId ∧
    (Consistent f → applyThenRevert cmds f = f) := by
  apply restoredFrom_fields
  apply applyThenRevert_restoredFrom
  rcases hbuilt with ⟨e, x, y, width, height, containerSize, rfl⟩ |
    ⟨e, container, diffX, diffY, dragType, dragContainer, result, hres, hcmds⟩
  · exact fun c hc => Command.isDragCommand_of_isGeometry c
      (isGeometry_of_mem_checkBounds e x y width height containerSize c hc)
  · obtain ⟨appended, happ, hall⟩ := updateDrag_appends_drag_commands e container diffX diffY
      dragType dragContainer [] result hres
    rw [hcmds, List.nil_append] at happ
    rw [Option.some.inj happ]
    exact hall

/-- C18 at a concrete group: the commands of the drop of the text element into the
frame move it to `(20, 20)` in container 7; reverted, the element is as before. -/
theorem apply_then_revert_restores_witness :
    (updateDrag (DocElement.mk draggedText .null .nil) (some frame300x200) (-20) (-10) .element
        (some dropFrame) (some [])).map DragResult.cmdGroup
      = some (some [geometryCmd draggedText "x" 20, geometryCmd draggedText "y" 20,
          containerIdCmd draggedText dropFrame,
          .movePanelItem { panelItem := some 30, parentPanelItem := 20, position := 2 }]) ∧
    storedRect (applyCommands [geometryCmd draggedText "x" 20, geometryCmd draggedText "y" 20,
          containerIdCmd draggedText dropFrame,
          .movePanelItem { panelItem := some 30, parentPanelItem := 20, position := 2 }]
        draggedText) = { x := 20, y := 20, width := 100, height := 50 } ∧
    Consistent draggedText ∧
    applyThenRevert [geometryCmd draggedText "x" 20, geometryCmd draggedText "y" 20,
          containerIdCmd draggedText dropFrame,
          .movePanelItem { panelItem := some 30, parentPanelItem := 20, position := 2 }]
        draggedText = draggedText :=
  ⟨by decide, by decide, by decide,
    (apply_then_revert_restores _ draggedText
      (Or.inr ⟨DocElement.mk draggedText .null .nil, some frame300x200, -20, -10, .element,
        some dropFrame, _,
        updateDrag_changed (DocElement.mk draggedText .null .nil) (some frame300x200) (-20) (-10)
          .element dropFrame [] dropPanelItem (by decide) (by decide) rfl,
        by decide⟩)).2.2.2.2.2 (by decide)⟩

/-- C19 as stated fails for an element wider than its container: `setup` puts the
400 x 50 element at `x = 0` in the 300 x 200 container and leaves its width, so
`xVal + widthVal = 400` is beyond the content width 300. -/
theorem setup_wide_element_overflows :
    (setup wideElement (some frame300x200)).xVal = 0 ∧
    (setup wideElement (some frame300x200)).widthVal = 400 ∧
    ¬ (setup wideElement (some frame300x200)).Within frame300x200.contentSize := by
  decide

/-- C19, amended: after `setup` on an element that has a container, `xVal ≥ 0` and
`yVal ≥ 0`, the text fields `x` and `y` are the decimal texts of `xVal` and `yVal`, the
size is unchanged, and `xVal + widthVal ≤` content width holds when the width fits the
container (`widthVal ≤` content width), likewise `yVal + heightVal ≤` content height when
the height fits. -/
theorem setup_position_within (f : Fields) (container : Container) :
    0 ≤ (setup f (some container)).xVal ∧ 0 ≤ (setup f (some container)).yVal ∧
    (f.widthVal ≤ container.contentSize.width →
      (setup f (some container)).xVal + (setup f (some container)).widthVal
        ≤ container.contentSize.width) ∧
    (f.heightVal ≤ container.contentSize.height →
      (setup f (some container)).yVal + (setup f (some container)).heightVal
        ≤ container.contentSize.height) ∧
    (setup f (some container)).x = .str (toString (setup f (some container)).xVal) ∧
    (setup f (some container)).y = .str (toString (setup f (some container)).yVal) ∧
    (setup f (some container)).widthVal = f.widthVal ∧
    (setup f (some container)).heightVal = f.heightVal := by
  refine ⟨?_, ?_, ?_, ?_, rfl, rfl, rfl, rfl⟩
  · simp only [setup]; split_ifs <;> omega
  · simp only [setup]; split_ifs <;> omega
  · intro h; simp only [setup]; split_ifs <;> omega
  · intro h; simp only [setup]; split_ifs <;> omega

/-- C19, amended, at a concrete element: the 100 x 50 element created at `(250, 180)`
is put at `(200, 150)` in the 300 x 200 container. -/
theorem setup_position_within_witness :
    (setup { textElement with x := .str "250", y := .str "180", xVal := 250, yVal := 180 }
        (some frame300x200)).x = .str "200" ∧
    (setup { textElement with x := .str "250", y := .str "180", xVal := 250, yVal := 180 }
        (some frame300x200)).y = .str "150" ∧
    (setup { textElement with x := .str "250", y := .str "180", xVal := 250, yVal := 180 }
        (some frame300x200)).xVal
      + (setup { textElement with x := .str "250", y := .str "180", xVal := 250, yVal := 180 }
        (some frame300x200)).widthVal ≤ frame300x200.contentSize.width :=
  ⟨by decide, by decide,
    (setup_position_within
      { textElement with x := .str "250", y := .str "180", xVal := 250, yVal := 180 }
      frame300x200).2.2.1 (by decide)⟩

theorem lookup_cons_eq (key k : String) (v : Value) (rest : List (String × Value)) :
    List.lookup key ((k, v) :: rest) = if key = k then some v else List.lookup key rest := by
  by_cases h : key = k
  · subst h
    simp [List.lookup]
  · have hb : (key == k) = false := beq_eq_false_iff_ne.mpr h
    simp [List.lookup, hb, h]

theorem lookup_assign (m : List (String × Value)) (k : String) (v : Value) (key : String) :
    (assign m k v).lookup key = if key = k then some v else m.lookup key := by
  induction m with
  | nil => simp [assign, lookup_cons_eq]
  | cons kv rest ih =>
    obtain ⟨k', v'⟩ := kv
    by_cases hk : k' = k
    · subst hk
      simp only [assign, if_true, lookup_cons_eq]
      split_ifs <;> rfl
    · simp only [assign, hk, if_false, lookup_cons_eq, ih]
      by_cases h' : key = k'
      · subst h'
        have hne : ¬ key = k := hk
        simp only [if_true, hne, if_false]
      · simp [h']

theorem keys_assign (m : List (String × Value)) (k : String) (v : Value) :
    (assign m k v).map Prod.fst
      = if k ∈ m.map Prod.fst then m.map Prod.fst else m.map Prod.fst ++ [k] := by
  induction m with
  | nil => simp [assign]
  | cons kv rest ih =>
    obtain ⟨k', v'⟩ := kv
    by_cases hk : k' = k
    · subst hk
      simp [assign]
    · have hk' : ¬ k = k' := fun h => hk h.symm
      simp only [assign, hk, if_false, List.map_cons, ih, List.mem_cons, hk', false_or]
      split_ifs <;> simp

theorem assign_of_not_mem (m : List (String × Value)) (k : String) (v : Value)
    (h : k ∉ m.map Prod.fst) : assign m k v = m ++ [(k, v)] := by
  induction m with
  | nil => rfl
  | cons kv rest ih =>
    obtain ⟨k', v'⟩ := kv
    simp only [List.map_cons, List.mem_cons, not_or] at h
    have hk : ¬ k' = k := fun heq => h.1 heq.symm
    simp only [assign, hk, if_false, ih h.2, List.cons_append]

theorem foldl_assign_lookup (val : String → Value) (ks : List String)
    (init : List (String × Value)) (key : String) :
    (ks.foldl (fun ret field => assign ret field (val field)) init).lookup key
      = if key ∈ ks then some (val key) else init.lookup key := by
  induction ks generalizing init with
  | nil => simp
  | cons k rest ih =>
    simp only [List.foldl_cons, ih, lookup_assign, List.mem_cons]
    by_cases h1 : key ∈ rest
    · simp [h1]
    · by_cases h2 : key = k
      · subst h2; simp [h1]
      · simp [h1, h2]

theorem foldl_assign_keys (val : String → Value) (ks : List String)
    (init : List (String × Value)) :
    (∀ key, key ∈ (ks.foldl (fun ret field => assign ret field (val field)) init).map Prod.fst
      ↔ key ∈ init.map Prod.fst ∨ key ∈ ks) ∧
    ((init.map Prod.fst).Nodup →
      ((ks.foldl (fun ret field => assign ret field (val field)) init).map Prod.fst).Nodup) := by
  induction ks generalizing init with
  | nil => simp
  | cons k rest ih =>
    obtain ⟨ih1, ih2⟩ := ih (assign init k (val k))
    simp only [List.foldl_cons]
    constructor
    · intro key
      rw [ih1, keys_assign]
      split_ifs with h
      · constructor
        · rintro (h1 | h1)
          · exact Or.inl h1
          · exact Or.inr (List.mem_cons_of_mem _ h1)
        · rintro (h1 | h1)
          · exact Or.inl h1
          · rcases List.mem_cons.mp h1 with rfl | h2
            · exact Or.inl h
            · exact Or.inr h2
      · simp only [List.mem_append, List.mem_singleton, List.mem_cons]
        tauto
    · intro hnodup
      apply ih2
      rw [keys_assign]
      split_ifs with h
      · exact hnodup
      · exact List.Nodup.append hnodup (List.nodup_singleton k)
          (by simpa [List.disjoint_singleton] using h)

theorem foldl_assign_of_nodup (val : String → Value) (ks : List String)
    (init : List (String × Value)) (hks : ks.Nodup)
    (hnew : ∀ k ∈ ks, k ∉ init.map Prod.fst) :
    ks.foldl (fun ret field => assign ret field (val field)) init
      = init ++ ks.map (fun k => (k, val k)) := by
  induction ks generalizing init with
  | nil => simp
  | cons k rest ih =>
    obtain ⟨hk, hrest⟩ := List.nodup_cons.mp hks
    simp only [List.foldl_cons, List.map_cons]
    rw [assign_of_not_mem init k (val k) (hnew k (List.mem_cons_self _ _))]
    rw [ih (init ++ [(k, val k)]) hrest]
    · simp
    · intro k' hk'
      simp only [List.map_append, List.map_cons, List.map_nil, List.mem_append,
        List.mem_singleton, not_or]
      exact ⟨hnew k' (List.mem_cons_of_mem _ hk'), fun heq => hk (heq ▸ hk')⟩

theorem setOwn_other (f : Fields) (k : OwnField) (value : Value) :
    (k ≠ .x → (setOwn f k value).x = f.x) ∧ (k ≠ .y → (setOwn f k value).y = f.y) ∧
    (k ≠ .width → (setOwn f k value).width = f.width) ∧
    (k ≠ .height → (setOwn f k value).height = f.height) ∧
    (k ≠ .id → (setOwn f k value).id = f.id) ∧
    (k ≠ .containerId → (setOwn f k value).containerId = f.containerId) := by
  cases k <;> refine ⟨?_, ?_, ?_, ?_, ?_, ?_⟩ <;> intro h <;>
    first
    | exact absurd rfl h
    | rfl
    | (simp only [setOwn]; split <;> rfl)

theorem setField_other (f : Fields) (key : String) (value : Value) :
    (key ≠ "x" → (setField f key value).x = f.x) ∧
    (key ≠ "y" → (setField f key value).y = f.y) ∧
    (key ≠ "width" → (setField f key value).width = f.width) ∧
    (key ≠ "height" → (setField f key value).height = f.height) ∧
    (key ≠ "id" → (setField f key value).id = f.id) ∧
    (key ≠ "containerId" → (setField f key value).containerId = f.containerId) := by
  unfold setField
  split
  · next k hk =>
    have hkey := key_of_ownField? key k hk
    obtain ⟨h1, h2, h3, h4, h5, h6⟩ := setOwn_other f k value
    refine ⟨fun h => h1 ?_, fun h => h2 ?_, fun h => h3 ?_, fun h => h4 ?_, fun h => h5 ?_,
      fun h => h6 ?_⟩ <;> intro hk' <;> subst hk' <;> exact h hkey.symm
  · exact ⟨fun _ => rfl, fun _ => rfl, fun _ => rfl, fun _ => rfl, fun _ => rfl, fun _ => rfl⟩

theorem assignInitialData_cons (f : Fields) (k : String) (v : Value)
    (rest : List (String × Value)) :
    assignInitialData f ((k, v) :: rest)
      = assignInitialData (if hasOwnProperty f k then setField f k v else f) rest := rfl

/-- What `setInitialData` assigns to an own property depends on the data only: a
projection that no assignment to another key changes is left as it is when the key is
not in the data, and gets the value the data gives the key otherwise. -/
theorem assignInitialData_project {α : Type} (π : Fields → α) (key : String)
    (hown : (ownField? key).isSome = true)
    (hother : ∀ (g : Fields) (k : String) (v : Value), k ≠ key → π (setField g k v) = π g)
    (data : List (String × Value)) (f : Fields) :
    (key ∉ data.map Prod.fst → π (assignInitialData f data) = π f) ∧
    (∀ (v : Value) (t : α), (data.map Prod.fst).Nodup → data.lookup key = some v →
      (∀ g : Fields, π (setField g key v) = t) → π (assignInitialData f data) = t) := by
  induction data generalizing f with
  | nil =>
    refine ⟨fun _ => rfl, ?_⟩
    intro v t _ h
    simp [List.lookup] at h
  | cons kv rest ih =>
    obtain ⟨k, w⟩ := kv
    rw [assignInitialData_cons]
    constructor
    · intro hnot
      simp only [List.map_cons, List.mem_cons, not_or] at hnot
      rw [(ih _).1 hnot.2]
      split_ifs
      · exact hother f k w (fun h => hnot.1 h.symm)
      · rfl
    · intro v t hnodup hlookup hset
      simp only [List.map_cons, List.nodup_cons] at hnodup
      rw [lookup_cons_eq] at hlookup
      by_cases hk : key = k
      · subst hk
        simp only [if_true, Option.some.injEq] at hlookup
        subst hlookup
        have hhas : hasOwnProperty f key = true := by simp [hasOwnProperty, hown]
        rw [(ih _).1 hnodup.1, hhas, if_pos rfl]
        exact hset f
      · simp only [hk, if_false] at hlookup
        exact (ih _).2 v t hnodup.2 hlookup hset

theorem toJS_lookup (f : Fields) (key : String) :
    (toJS f).lookup key
      = if key ∈ getFields f then some (toJSValue f key)
        else if key = "elementType" then some (.str (getElementType f).value) else none := by
  unfold toJS
  rw [foldl_assign_lookup, lookup_cons_eq]
  rfl

theorem toJS_keys (f : Fields) :
    (∀ key, key ∈ (toJS f).map Prod.fst ↔ key = "elementType" ∨ key ∈ getFields f) ∧
    ((toJS f).map Prod.fst).Nodup := by
  obtain ⟨h1, h2⟩ := foldl_assign_keys (toJSValue f) (getFields f)
    [("elementType", .str (getElementType f).value)]
  refine ⟨fun key => ?_, h2 (by simp)⟩
  have := h1 key
  simpa [toJS] using this

theorem mem_getFields_of_mem_properties (f : Fields) (key : String)
    (h : key ∈ f.properties) : key ∈ getFields f :=
  List.mem_cons_of_mem _ (List.mem_cons_of_mem _ h)

/-- Loading the result of `toJS` gives back the id, the container id and the numeric
geometry, with the geometry fields stored as decimal text. -/
theorem setInitialData_toJS (f g : Fields)
    (hx : "x" ∈ f.properties) (hy : "y" ∈ f.properties)
    (hw : "width" ∈ f.properties) (hh : "height" ∈ f.properties) :
    (setInitialData g (toJS f)).id = f.id ∧
    (setInitialData g (toJS f)).containerId = f.containerId ∧
    (setInitialData g (toJS f)).xVal = f.xVal ∧
    (setInitialData g (toJS f)).yVal = f.yVal ∧
    (setInitialData g (toJS f)).widthVal = f.widthVal ∧
    (setInitialData g (toJS f)).heightVal = f.heightVal ∧
    (setInitialData g (toJS f)).x = .str (toString f.xVal) ∧
    (setInitialData g (toJS f)).y = .str (toString f.yVal) ∧
    (setInitialData g (toJS f)).width = .str (toString f.widthVal) ∧
    (setInitialData g (toJS f)).height = .str (toString f.heightVal) := by
  have hnodup := (toJS_keys f).2
  have lx : (toJS f).lookup "x" = some (.num f.xVal) := by
    rw [toJS_lookup, if_pos (mem_getFields_of_mem_properties f _ hx)]; rfl
  have ly : (toJS f).lookup "y" = some (.num f.yVal) := by
    rw [toJS_lookup, if_pos (mem_getFields_of_mem_properties f _ hy)]; rfl
  have lw : (toJS f).lookup "width" = some (.num f.widthVal) := by
    rw [toJS_lookup, if_pos (mem_getFields_of_mem_properties f _ hw)]; rfl
  have lh : (toJS f).lookup "height" = some (.num f.heightVal) := by
    rw [toJS_lookup, if_pos (mem_getFields_of_mem_properties f _ hh)]; rfl
  have lid : (toJS f).lookup "id" = some (.num f.id) := by
    have hmem : "id" ∈ getFields f := List.mem_cons_self _ _
    rw [toJS_lookup, if_pos hmem]; rfl
  have lcid : (toJS f).lookup "containerId" = some (idValue f.containerId) := by
    have hmem : "containerId" ∈ getFields f := List.mem_cons_of_mem _ (List.mem_cons_self _ _)
    rw [toJS_lookup, if_pos hmem]; rfl
  have ax : (assignInitialData g (toJS f)).x = .num f.xVal :=
    (assignInitialData_project (fun h => h.x) "x" rfl
      (fun g k v hk => (setField_other g k v).1 hk) (toJS f) g).2 _ _ hnodup lx (fun _ => rfl)
  have ay : (assignInitialData g (toJS f)).y = .num f.yVal :=
    (assignInitialData_project (fun h => h.y) "y" rfl
      (fun g k v hk => (setField_other g k v).2.1 hk) (toJS f) g).2 _ _ hnodup ly
      (fun _ => rfl)
  have aw : (assignInitialData g (toJS f)).width = .num f.widthVal :=
    (assignInitialData_project (fun h => h.width) "width" rfl
      (fun g k v hk => (setField_other g k v).2.2.1 hk) (toJS f) g).2 _ _ hnodup lw
      (fun _ => rfl)
  have ah : (assignInitialData g (toJS f)).height = .num f.heightVal :=
    (assignInitialData_project (fun h => h.height) "height" rfl
      (fun g k v hk => (setField_other g k v).2.2.2.1 hk) (toJS f) g).2 _ _ hnodup lh
      (fun _ => rfl)
  have aid : (assignInitialData g (toJS f)).id = f.id :=
    (assignInitialData_project (fun h => h.id) "id" rfl
      (fun g k v hk => (setField_other g k v).2.2.2.2.1 hk) (toJS f) g).2 _ _ hnodup lid
      (fun _ => rfl)
  have acid : (assignInitialData g (toJS f)).containerId = f.containerId :=
    (assignInitialData_project (fun h => h.containerId) "containerId" rfl
      (fun g k v hk => (setField_other g k v).2.2.2.2.2 hk) (toJS f) g).2 _ _ hnodup lcid
      (fun g' => by cases f.containerId <;> rfl)
  have hxs : (setInitialData g (toJS f)).x = .str (toString f.xVal) := by
    show Value.str (jsToString (assignInitialData g (toJS f)).x) = _
    rw [ax]; rfl
  have hys : (setInitialData g (toJS f)).y = .str (toString f.yVal) := by
    show Value.str (jsToString (assignInitialData g (toJS f)).y) = _
    rw [ay]; rfl
  have hws : (setInitialData g (toJS f)).width = .str (toString f.widthVal) := by
    show Value.str (jsToString (assignInitialData g (toJS f)).width) = _
    rw [aw]; rfl
  have hhs : (setInitialData g (toJS f)).height = .str (toString f.heightVal) := by
    show Value.str (jsToString (assignInitialData g (toJS f)).height) = _
    rw [ah]; rfl
  have hcons := setInitialData_consistent g (toJS f)
  obtain ⟨c1, c2, c3, c4⟩ := hcons
  refine ⟨aid, acid, ?_, ?_, ?_, ?_, hxs, hys, hws, hhs⟩
  · rw [c1, hxs, convertInputToNumber_toString]
  · rw [c2, hys, convertInputToNumber_toString]
  · rw [c3, hws, convertInputToNumber_toString]
  · rw [c4, hhs, convertInputToNumber_toString]

/-- C20: the serialization round trip.  For an element whose declared properties include
`x`, `y`, `width`, `height`: the keys of `toJS()` are `elementType` and the fields of
`getFields()`, which are `'id'`, `'containerId'` followed by the declared properties (in
this order when no key repeats); `x`, `y`, `width`, `height` carry the numbers `xVal`,
`yVal`, `widthVal`, `heightVal` and every other field carries `getValue(field)`; and an
element loaded with `setInitialData(e.toJS())` has the id, container id and numeric
geometry of `e`, with `x`, `y`, `width`, `height` stored as decimal text. -/
theorem toJS_round_trip (f g : Fields)
    (hx : "x" ∈ f.properties) (hy : "y" ∈ f.properties)
    (hw : "width" ∈ f.properties) (hh : "height" ∈ f.properties) :
    (∀ key, key ∈ (toJS f).map Prod.fst ↔ key = "elementType" ∨ key ∈ getFields f) ∧
    ((toJS f).map Prod.fst).Nodup ∧
    getFields f = "id" :: "containerId" :: f.properties ∧
    (("elementType" :: getFields f).Nodup →
      toJS f = ("elementType", .str (getElementType f).value)
        :: (getFields f).map (fun key => (key, toJSValue f key))) ∧
    (toJS f).lookup "x" = some (.num f.xVal) ∧ (toJS f).lookup "y" = some (.num f.yVal) ∧
    (toJS f).lookup "width" = some (.num f.widthVal) ∧
    (toJS f).lookup "height" = some (.num f.heightVal) ∧
    (∀ key ∈ getFields f, key ∉ geometryFields →
      (toJS f).lookup key = some (getValue f key)) ∧
    ("elementType" ∉ getFields f →
      (toJS f).lookup "elementType" = some (.str (getElementType f).value)) ∧
    (setInitialData g (toJS f)).id = f.id ∧
    (setInitialData g (toJS f)).containerId = f.containerId ∧
    (setInitialData g (toJS f)).xVal = f.xVal ∧
    (setInitialData g (toJS f)).yVal = f.yVal ∧
    (setInitialData g (toJS f)).widthVal = f.widthVal ∧
    (setInitialData g (toJS f)).heightVal = f.heightVal ∧
    (setInitialData g (toJS f)).x = .str (toString f.xVal) ∧
    (setInitialData g (toJS f)).y = .str (toString f.yVal) ∧
    (setInitialData g (toJS f)).width = .str (toString f.widthVal) ∧
    (setInitialData g (toJS f)).height = .str (toString f.heightVal) := by
  refine ⟨(toJS_keys f).1, (toJS_keys f).2, rfl, ?_, ?_, ?_, ?_, ?_, ?_, ?_,
    setInitialData_toJS f g hx hy hw hh⟩
  · intro hnodup
    obtain ⟨hnot, hfields⟩ := List.nodup_cons.mp hnodup
    unfold toJS
    rw [foldl_assign_of_nodup (toJSValue f) (getFields f) _ hfields]
    · rfl
    · intro k hk
      simp only [List.map_cons, List.map_nil, List.mem_singleton]
      exact fun heq => hnot (heq ▸ hk)
  · rw [toJS_lookup, if_pos (mem_getFields_of_mem_properties f _ hx)]; rfl
  · rw [toJS_lookup, if_pos (mem_getFields_of_mem_properties f _ hy)]; rfl
  · rw [toJS_lookup, if_pos (mem_getFields_of_mem_properties f _ hw)]; rfl
  · rw [toJS_lookup, if_pos (mem_getFields_of_mem_properties f _ hh)]; rfl
  · intro key hkey hgeo
    rw [toJS_lookup, if_pos hkey]
    have hcontains : geometryFields.contains key = false := by
      simpa using hgeo
    simp only [toJSValue, hcontains, Bool.false_eq_true, if_false]
  · intro hnot
    rw [toJS_lookup, if_neg hnot, if_pos rfl]

/-- C20 at a concrete element: the mapping of the element `(0, 0, 100, 50)` with id 2 in
container 1, and the element loaded from it into a new element with id 9. -/
theorem toJS_round_trip_witness :
    toJS textElement
      = [("elementType", .str "none"), ("id", .num 2), ("containerId", .num 1),
         ("x", .num 0), ("y", .num 0), ("width", .num 100), ("height", .num 50)] ∧
    (setInitialData { id := 9, width := .str "20", height := .str "20" }
        (toJS textElement)).id = textElement.id ∧
    (setInitialData { id := 9, width := .str "20", height := .str "20" }
        (toJS textElement)).widthVal = textElement.widthVal ∧
    (setInitialData { id := 9, width := .str "20", height := .str "20" }
        (toJS textElement)).width = .str (toString textElement.widthVal) :=
  ⟨by decide,
    (toJS_round_trip textElement { id := 9, width := .str "20", height := .str "20" }
      (by decide) (by decide) (by decide) (by decide)).2.2.2.2.2.2.2.2.2.2.1,
    (toJS_round_trip textElement { id := 9, width := .str "20", height := .str "20" }
      (by decide) (by decide) (by decide) (by decide)).2.2.2.2.2.2.2.2.2.2.2.2.2.2.1,
    (toJS_round_trip textElement { id := 9, width := .str "20", height := .str "20" }
      (by decide) (by decide) (by decide) (by decide)).2.2.2.2.2.2.2.2.2.2.2.2.2.2.2.2.2.2.1⟩

theorem containsChars_iff (p s : List Char) :
    containsChars p s = true ↔ ∃ a b, s = a ++ p ++ b := by
  induction s with
  | nil =>
    simp only [containsChars, List.isEmpty_iff]
    constructor
    · rintro rfl; exact ⟨[], [], rfl⟩
    · rintro ⟨a, b, h⟩
      have := congrArg List.length h
      simp at this
      exact List.length_eq_zero.mp (by omega)
  | cons c cs ih =>
    simp only [containsChars, Bool.or_eq_true, ih, List.isPrefixOf_iff_prefix]
    constructor
    · rintro (⟨t, ht⟩ | ⟨a, b, h⟩)
      · exact ⟨[], t, by simpa using ht.symm⟩
      · exact ⟨c :: a, b, by simp [h]⟩
    · rintro ⟨a, b, h⟩
      cases a with
      | nil => exact Or.inl ⟨b, by simpa using h.symm⟩
      | cons a as =>
        simp only [List.cons_append, List.cons.injEq] at h
        exact Or.inr ⟨as, b, h.2⟩

theorem replaceAllChars_zero_cons (p n : List Char) (c : Char) (cs : List Char) :
    replaceAllChars p n 0 (c :: cs)
      = if p.isPrefixOf (c :: cs) then n ++ replaceAllChars p n (p.length - 1) cs
        else c :: replaceAllChars p n 0 cs := rfl

theorem replaceAllChars_succ_cons (p n : List Char) (k : Nat) (c : Char) (cs : List Char) :
    replaceAllChars p n (k + 1) (c :: cs) = replaceAllChars p n k cs := rfl

theorem replaceAllChars_skip (p n s t : List Char) :
    replaceAllChars p n s.length (s ++ t) = replaceAllChars p n 0 t := by
  induction s with
  | nil => rfl
  | cons a s ih => simpa [replaceAllChars] using ih

theorem replaceAllChars_of_not_mem (c : Char) (q n s t : List Char) (hs : c ∉ s) :
    replaceAllChars (c :: q) n 0 (s ++ t) = s ++ replaceAllChars (c :: q) n 0 t := by
  induction s with
  | nil => rfl
  | cons a s ih =>
    have ha : c ≠ a := fun h => hs (h ▸ List.mem_cons_self _ _)
    have hs' : c ∉ s := fun h => hs (List.mem_cons_of_mem _ h)
    simp [replaceAllChars, List.isPrefixOf, ha, ih hs']

theorem prefix_of_prefix_append (c : Char) (q pre t : List Char) (hq : c ∉ q)
    (hpre : pre ≠ []) (h : (c :: q) <+: pre ++ c :: t) : (c :: q) <+: pre := by
  by_cases hlen : (c :: q).length ≤ pre.length
  · exact List.prefix_of_prefix_length_le h (List.prefix_append _ _) hlen
  · exfalso
    have hp : pre <+: c :: q :=
      List.prefix_of_prefix_length_le (List.prefix_append _ _) h (by omega)
    obtain ⟨u, hu⟩ := hp
    rw [← hu, List.prefix_append_right_inj] at h
    cases pre with
    | nil => exact hpre rfl
    | cons a pre' =>
      simp only [List.cons_append, List.cons.injEq] at hu
      cases u with
      | nil =>
        simp at hu
        simp [← hu.2] at hlen
      | cons b u' =>
        have hb : b = c := by
          obtain ⟨w, hw⟩ := h
          simp at hw
          exact hw.1
        apply hq
        rw [← hu.2, hb]
        simp

theorem replaceAllChars_append_of_head (c : Char) (q n pre t : List Char) (hq : c ∉ q)
    (k : Nat) (hk : k ≤ pre.length) :
    replaceAllChars (c :: q) n k (pre ++ c :: t)
      = replaceAllChars (c :: q) n k pre ++ replaceAllChars (c :: q) n 0 (c :: t) := by
  induction pre generalizing k with
  | nil =>
    have : k = 0 := by simpa using hk
    subst this
    rfl
  | cons a pre ih =>
    cases k with
    | succ k =>
      rw [List.cons_append, replaceAllChars_succ_cons, replaceAllChars_succ_cons]
      exact ih k (by simpa using hk)
    | zero =>
      by_cases hp : (c :: q) <+: (a :: pre) ++ c :: t
      · have hp' := prefix_of_prefix_append c q (a :: pre) t hq (by simp) hp
        have hlen : (c :: q).length - 1 ≤ pre.length := by
          have := hp'.length_le
          simp at this ⊢
          omega
        have e1 : List.isPrefixOf (c :: q) (a :: (pre ++ c :: t)) = true :=
          List.isPrefixOf_iff_prefix.mpr hp
        have e2 : List.isPrefixOf (c :: q) (a :: pre) = true :=
          List.isPrefixOf_iff_prefix.mpr hp'
        rw [List.cons_append, replaceAllChars_zero_cons, replaceAllChars_zero_cons _ _ a pre,
          if_pos e1, if_pos e2, ih _ hlen, List.append_assoc]
      · have hp' : ¬ (c :: q) <+: (a :: pre) := fun h => hp (h.trans (List.prefix_append _ _))
        have e1 : List.isPrefixOf (c :: q) (a :: (pre ++ c :: t)) = false := by
          rw [← Bool.not_eq_true, List.isPrefixOf_iff_prefix]; exact hp
        have e2 : List.isPrefixOf (c :: q) (a :: pre) = false := by
          rw [← Bool.not_eq_true, List.isPrefixOf_iff_prefix]; exact hp'
        rw [List.cons_append, replaceAllChars_zero_cons, replaceAllChars_zero_cons _ _ a pre,
          if_neg (by simp [e1]), if_neg (by simp [e2]), ih 0 (Nat.zero_le _), List.cons_append]

theorem replaceAllChars_occurrence (c : Char) (q n pre rest : List Char) (hq : c ∉ q) :
    replaceAllChars (c :: q) n 0 (pre ++ (c :: q) ++ rest)
      = replaceAllChars (c :: q) n 0 pre ++ n ++ replaceAllChars (c :: q) n 0 rest := by
  have h := replaceAllChars_append_of_head c q n pre (q ++ rest) hq 0 (Nat.zero_le _)
  have e : List.isPrefixOf (c :: q) (c :: (q ++ rest)) = true :=
    List.isPrefixOf_iff_prefix.mpr ⟨rest, by simp⟩
  simp only [List.append_assoc, List.cons_append] at h ⊢
  rw [h, replaceAllChars_zero_cons, if_pos e]
  simp only [List.length_cons, Nat.add_sub_cancel]
  rw [replaceAllChars_skip]


theorem dropWhile_append_of_forall (p : Char → Bool) (ws rest : List Char)
    (h : ∀ c ∈ ws, p c = true) : (ws ++ rest).dropWhile p = rest.dropWhile p := by
  induction ws with
  | nil => rfl
  | cons a ws ih =>
    have ha : p a = true := h a (List.mem_cons_self _ _)
    simp only [List.cons_append, List.dropWhile_cons, ha, if_true]
    exact ih (fun c hc => h c (List.mem_cons_of_mem _ hc))

/-- A text that starts with `'$'` and ends with the closing brace, surrounded by white
space, is trimmed to itself. -/
theorem trimChars_surrounded (before after m : List Char)
    (hb : ∀ c ∈ before, isWhiteSpace c = true) (ha : ∀ c ∈ after, isWhiteSpace c = true) :
    trimChars (before ++ ('$' :: m ++ ['\x7d']) ++ after) = '$' :: m ++ ['\x7d'] := by
  unfold trimChars
  rw [List.append_assoc, dropWhile_append_of_forall _ _ _ hb]
  have h1 : (('$' :: m ++ ['\x7d']) ++ after).dropWhile isWhiteSpace
      = ('$' :: m ++ ['\x7d']) ++ after := by
    simp only [List.cons_append, List.dropWhile_cons]
    rw [if_neg (by decide)]
  rw [h1, List.reverse_append,
    dropWhile_append_of_forall _ _ _ (fun c hc => ha c (List.mem_reverse.mp hc))]
  have h2 : ('$' :: m ++ ['\x7d']).reverse = '\x7d' :: ('$' :: m).reverse := by simp
  rw [h2, List.dropWhile_cons, if_neg (by decide), ← h2, List.reverse_reverse]

/-- The test of lines 818-819 holds exactly for the texts `'$\x7b' + m + '\x7d'`, and
line 820 then gives `m`. -/
theorem dataSource_form_iff (t : List Char) :
    (t.length ≥ 3 ∧ t.take 2 = ['$', '\x7b'] ∧ t.getLast? = some '\x7d')
      ↔ ∃ m, t = '$' :: '\x7b' :: m ++ ['\x7d'] := by
  constructor
  · rintro ⟨hlen, htake, hlast⟩
    match t, hlen, htake, hlast with
    | a :: b :: rest, hlen, htake, hlast =>
      simp only [List.take_succ_cons, List.take_zero, List.cons.injEq, and_true] at htake
      obtain ⟨rfl, rfl⟩ := htake
      rcases List.eq_nil_or_concat rest with rfl | ⟨m, c, rfl⟩
      · simp at hlen
      · refine ⟨m, ?_⟩
        simp only [List.concat_eq_append] at hlast ⊢
        have : ('$' :: '\x7b' :: (m ++ [c])).getLast? = some c := by
          rw [show '$' :: '\x7b' :: (m ++ [c]) = ('$' :: '\x7b' :: m) ++ [c] by simp]
          exact List.getLast?_concat _
        rw [this] at hlast
        rw [Option.some.inj hlast]
        simp
  · rintro ⟨m, rfl⟩
    refine ⟨by simp, by simp, ?_⟩
    rw [show '$' :: '\x7b' :: m ++ ['\x7d'] = ('$' :: '\x7b' :: m) ++ ['\x7d'] by simp]
    exact List.getLast?_concat _

theorem dataSource_substring (m : List Char) :
    (('$' :: '\x7b' :: m ++ ['\x7d']).take (('$' :: '\x7b' :: m ++ ['\x7d']).length - 1)).drop 2
      = m := by
  have : ('$' :: '\x7b' :: m ++ ['\x7d']).length - 1 = ('$' :: '\x7b' :: m).length := by simp
  rw [this, show '$' :: '\x7b' :: m ++ ['\x7d'] = ('$' :: '\x7b' :: m) ++ ['\x7d'] by simp,
    List.take_left]
  rfl

theorem getDataSourceParameterName_of_text (f : Fields) (s : String)
    (hds : f.hasDataSource = true) (hs : getValue f "dataSource" = .str s) :
    getDataSourceParameterName f
      = some (if (trimChars s.data).length ≥ 3 ∧ (trimChars s.data).take 2 = ['$', '\x7b'] ∧
            (trimChars s.data).getLast? = some '\x7d' then
          some ⟨((trimChars s.data).take ((trimChars s.data).length - 1)).drop 2⟩
        else none) := by
  unfold getDataSourceParameterName
  rw [if_pos hds, hs]
  simp only
  split_ifs <;> rfl

/-- C25: `getDataSourceParameterName` returns `null` for an element without a data
source.  For an element with a data source whose `dataSource` value is a text, it
returns `null` exactly when the trimmed text is not of the form `'$\x7b' + m + '\x7d'`
(length at least 3, starting with `'$\x7b'` and ending with `'\x7d'`), and for a trimmed
text of that form it returns `m`, the text between the leading `'$\x7b'` and the final
`'\x7d'`; so a `dataSource` of `'$\x7b' + n + '\x7d'` surrounded by any white space yields
`n`, for every name `n`. -/
theorem getDataSourceParameterName_spec (f : Fields) (s : String)
    (hs : f.hasDataSource = true → getValue f "dataSource" = .str s) :
    (f.hasDataSource = false → getDataSourceParameterName f = some none) ∧
    (f.hasDataSource = true →
      (getDataSourceParameterName f = some none ↔
        ¬ ∃ m, trimChars s.data = '$' :: '\x7b' :: m ++ ['\x7d']) ∧
      ((∃ m, trimChars s.data = '$' :: '\x7b' :: m ++ ['\x7d']) ↔
        (trimChars s.data).length ≥ 3 ∧ (trimChars s.data).take 2 = ['$', '\x7b'] ∧
          (trimChars s.data).getLast? = some '\x7d') ∧
      (∀ m, trimChars s.data = '$' :: '\x7b' :: m ++ ['\x7d'] →
        getDataSourceParameterName f = some (some ⟨m⟩)) ∧
      (∀ (n : String) (before after : List Char),
        (∀ c ∈ before, isWhiteSpace c = true) → (∀ c ∈ after, isWhiteSpace c = true) →
        s.data = before ++ (simpleRef n).data ++ after →
        getDataSourceParameterName f = some (some n))) := by
  have hform : ∀ m, f.hasDataSource = true → trimChars s.data = '$' :: '\x7b' :: m ++ ['\x7d'] →
      getDataSourceParameterName f = some (some ⟨m⟩) := by
    intro m hds hm
    rw [getDataSourceParameterName_of_text f s hds (hs hds),
      if_pos ((dataSource_form_iff _).mpr ⟨m, hm⟩), hm, dataSource_substring]
  refine ⟨?_, fun hds => ⟨?_, (dataSource_form_iff _).symm, fun m => hform m hds, ?_⟩⟩
  · intro hds
    unfold getDataSourceParameterName
    rw [if_neg (by simp [hds])]
  · constructor
    · rintro hnull ⟨m, hm⟩
      rw [hform m hds hm] at hnull
      exact Option.noConfusion (Option.some.inj hnull)
    · intro hnot
      rw [getDataSourceParameterName_of_text f s hds (hs hds),
        if_neg (fun h => hnot ((dataSource_form_iff _).mp h))]
  · intro n before after hb ha hdata
    have hm : trimChars s.data = '$' :: '\x7b' :: n.data ++ ['\x7d'] := by
      rw [hdata]
      exact trimChars_surrounded before after ('\x7b' :: n.data) hb ha
    exact hform n.data hds hm

/-- C25 at a concrete element: the table with the data source `items`, written with a
blank before and after. -/
theorem getDataSourceParameterName_spec_witness :
    itemsTable.hasDataSource = true ∧
    getValue itemsTable "dataSource" = .str " $\x7bitems\x7d " ∧
    getDataSourceParameterName itemsTable = some (some "items") :=
  ⟨rfl, rfl,
    ((getDataSourceParameterName_spec itemsTable " $\x7bitems\x7d " (fun _ => rfl)).2 rfl).2.2.2
      "items" [' '] [' '] (by decide) (by decide) rfl⟩


/-- The first parameter of a data source with a given name. -/
theorem find?_name_some {l : List Parameter} {name : String} {p : Parameter}
    (h : l.find? (fun q => q.getName == name) = some p) : p ∈ l ∧ p.getName = name := by
  refine ⟨List.mem_of_find?_eq_some h, ?_⟩
  have := List.find?_some h
  simpa using this

theorem find?_name_none {l : List Parameter} {name : String} :
    l.find? (fun q => q.getName == name) = none ↔ ∀ q ∈ l, q.getName ≠ name := by
  simp [List.find?_eq_none]

theorem findDataSourceParameter_foldl (name : String) (dss : List DataSource)
    (init : Option Parameter) :
    dss.foldl (findInDataSource name) init
      = match findDataSourceParameter dss name with
        | some p => some p
        | none => init := by
  induction dss generalizing init with
  | nil => rfl
  | cons ds dss ih =>
    unfold findDataSourceParameter
    simp only [List.foldl_cons]
    rw [ih, ih (findInDataSource name none ds)]
    cases findDataSourceParameter dss name with
    | some p => rfl
    | none =>
      unfold findInDataSource
      cases ds.parameters.find? (fun p => p.getName == name) <;> rfl

theorem findDataSourceParameter_cons (name : String) (ds : DataSource)
    (dss : List DataSource) :
    findDataSourceParameter (ds :: dss) name
      = match findDataSourceParameter dss name with
        | some p => some p
        | none => ds.parameters.find? (fun p => p.getName == name) := by
  show List.foldl (findInDataSource name) (findInDataSource name none ds) dss = _
  rw [findDataSourceParameter_foldl]
  cases findDataSourceParameter dss name with
  | some p => rfl
  | none =>
    unfold findInDataSource
    cases ds.parameters.find? (fun p => p.getName == name) <;> rfl

theorem findDataSourceParameter_eq_none (name : String) (dss : List DataSource) :
    findDataSourceParameter dss name = none ↔
      ∀ ds ∈ dss, ∀ q ∈ ds.parameters, q.getName ≠ name := by
  induction dss with
  | nil => simp [findDataSourceParameter]
  | cons ds dss ih =>
    rw [findDataSourceParameter_cons]
    cases h : findDataSourceParameter dss name with
    | some p =>
      simp only [false_iff, reduceCtorEq]
      intro hall
      rw [ih.mpr (fun d hd => hall d (List.mem_cons_of_mem _ hd))] at h
      exact Option.noConfusion h
    | none =>
      simp only [find?_name_none, List.forall_mem_cons]
      exact ⟨fun h1 => ⟨h1, ih.mp h⟩, fun h1 => h1.1⟩

theorem findDataSourceParameter_mem (name : String) (dss : List DataSource) (p : Parameter)
    (h : findDataSourceParameter dss name = some p) :
    ∃ ds ∈ dss, p ∈ ds.parameters ∧ p.getName = name := by
  induction dss with
  | nil => exact Option.noConfusion h
  | cons ds dss ih =>
    rw [findDataSourceParameter_cons] at h
    cases h' : findDataSourceParameter dss name with
    | some q =>
      rw [h'] at h
      have hq : q = p := Option.some.inj h
      subst hq
      obtain ⟨d, hd, hq⟩ := ih h'
      exact ⟨d, List.mem_cons_of_mem _ hd, hq⟩
    | none =>
      rw [h'] at h
      exact ⟨ds, List.mem_cons_self _ _, find?_name_some h⟩

/-- The search goes on through every data source: a match in a later (root-most) data
source overrides the matches in the data sources before it. -/
theorem findDataSourceParameter_outermost (name : String) (inner outer : List DataSource)
    (ds : DataSource) (p : Parameter)
    (hmatch : ds.parameters.find? (fun q => q.getName == name) = some p)
    (houter : ∀ d ∈ outer, ∀ q ∈ d.parameters, q.getName ≠ name) :
    findDataSourceParameter (inner ++ ds :: outer) name = some p := by
  induction inner with
  | nil =>
    rw [List.nil_append, findDataSourceParameter_cons,
      (findDataSourceParameter_eq_none name outer).mpr houter]
    exact hmatch
  | cons d inner ih =>
    rw [List.cons_append, findDataSourceParameter_cons, ih]

theorem addDataSource_cases (getParameterByName : String → Option Parameter)
    (dataSources : List DataSource) (name : String) :
    addDataSource getParameterByName dataSources name = dataSources ∨
    ∃ p, p.type = .array ∧
      (findDataSourceParameter dataSources name = some p ∨
        (findDataSourceParameter dataSources name = none ∧ getParameterByName name = some p)) ∧
      addDataSource getParameterByName dataSources name
        = { name := name, parameters := p.getChildren } :: dataSources := by
  unfold addDataSource
  cases hfind : findDataSourceParameter dataSources name with
  | some p =>
    by_cases harray : p.type = .array
    · exact Or.inr ⟨p, harray, Or.inl rfl, by simp [harray]⟩
    · exact Or.inl (by simp [harray])
  | none =>
    cases hglobal : getParameterByName name with
    | none => exact Or.inl rfl
    | some p =>
      by_cases harray : p.type = .array
      · exact Or.inr ⟨p, harray, Or.inr ⟨rfl, rfl⟩, by simp [harray]⟩
      · exact Or.inl (by simp [harray])

theorem addDataSource_of_found (getParameterByName : String → Option Parameter)
    (dataSources : List DataSource) (name : String) (p : Parameter)
    (h : findDataSourceParameter dataSources name = some p) :
    addDataSource getParameterByName dataSources name
      = if p.type = .array then { name := name, parameters := p.getChildren } :: dataSources
        else dataSources := by
  unfold addDataSource
  rw [h]

theorem addDataSource_of_not_found (getParameterByName : String → Option Parameter)
    (dataSources : List DataSource) (name : String)
    (h : findDataSourceParameter dataSources name = none) :
    (getParameterByName name = none →
      addDataSource getParameterByName dataSources name = dataSources) ∧
    (∀ p, getParameterByName name = some p →
      addDataSource getParameterByName dataSources name
        = if p.type = .array then { name := name, parameters := p.getChildren } :: dataSources
          else dataSources) := by
  constructor
  · intro hglobal
    unfold addDataSource
    rw [h, hglobal]
  · intro p hglobal
    unfold addDataSource
    rw [h, hglobal]

theorem resolveDataSources_suffix (getParameterByName : String → Option Parameter)
    (before rest : List String) :
    resolveDataSources getParameterByName rest
      <:+ resolveDataSources getParameterByName (before ++ rest) := by
  induction before with
  | nil => exact List.suffix_refl _
  | cons name before ih =>
    show _ <:+ addDataSource getParameterByName
      (resolveDataSources getParameterByName (before ++ rest)) name
    rcases addDataSource_cases getParameterByName
      (resolveDataSources getParameterByName (before ++ rest)) name with h | ⟨p, _, _, h⟩
    · rw [h]; exact ih
    · rw [h]; exact ih.trans (List.suffix_cons _ _)

theorem resolveDataSources_names (getParameterByName : String → Option Parameter)
    (names : List String) :
    ((resolveDataSources getParameterByName names).map DataSource.name).Sublist names := by
  induction names with
  | nil => exact List.Sublist.slnil
  | cons name names ih =>
    show (List.map DataSource.name (addDataSource getParameterByName _ name)).Sublist _
    rcases addDataSource_cases getParameterByName
      (resolveDataSources getParameterByName names) name with h | ⟨p, _, _, h⟩
    · rw [h]; exact ih.cons _
    · rw [h]; exact ih.cons₂ _

theorem resolveDataSources_array (getParameterByName : String → Option Parameter)
    (names : List String) :
    ∀ ds ∈ resolveDataSources getParameterByName names,
      ∃ p, p.type = .array ∧ ds.parameters = p.getChildren ∧
        (p.getName = ds.name ∨ getParameterByName ds.name = some p) := by
  induction names with
  | nil => intro ds hds; exact absurd hds (List.not_mem_nil _)
  | cons name names ih =>
    intro ds hds
    change ds ∈ addDataSource getParameterByName _ name at hds
    rcases addDataSource_cases getParameterByName
      (resolveDataSources getParameterByName names) name with h | ⟨p, harray, hp, h⟩
    · rw [h] at hds; exact ih ds hds
    · rw [h] at hds
      rcases List.mem_cons.mp hds with rfl | hds
      · refine ⟨p, harray, rfl, ?_⟩
        rcases hp with hfound | ⟨_, hglobal⟩
        · obtain ⟨_, _, _, hname⟩ := findDataSourceParameter_mem _ _ _ hfound
          exact Or.inl hname
        · exact Or.inr hglobal
      · exact ih ds hds

/-- C26: `getAllDataSources` resolves the data source names root-first.  With `names` the
names that `getAllDataSourceParameterNames` collects (the nearest first), the result is
`resolveDataSources names`, and for every name of the list: the data sources of the names
after it (the enclosing ones) are resolved before it and stay at the end of the result;
when one of them has a child parameter with the name, the name is resolved to a child
parameter of an enclosing data source, whatever `getParameterByName` gives for it, and
it is added in front exactly when that parameter is a list; when none of them has, the
name is resolved by `getParameterByName`.  Every data source of the result holds the
children of a parameter of type `array`, and the names of the result are in the order of
`names`, the innermost first. -/
theorem getAllDataSources_root_first (getParameterByName : String → Option Parameter)
    (f : Fields) (ancestors : List Fields) (names : List String)
    (hnames : getAllDataSourceParameterNames f ancestors none [] = some names) :
    getAllDataSources getParameterByName f ancestors
      = some (resolveDataSources getParameterByName names) ∧
    (∀ before name rest, names = before ++ name :: rest →
      resolveDataSources getParameterByName (name :: rest)
        <:+ resolveDataSources getParameterByName names ∧
      resolveDataSources getParameterByName rest
        <:+ resolveDataSources getParameterByName (name :: rest) ∧
      ((∃ ds ∈ resolveDataSources getParameterByName rest,
          ∃ q ∈ ds.parameters, q.getName = name) →
        ∃ p, (∃ ds ∈ resolveDataSources getParameterByName rest, p ∈ ds.parameters) ∧
          p.getName = name ∧
          resolveDataSources getParameterByName (name :: rest)
            = if p.type = .array then
                { name := name, parameters := p.getChildren }
                  :: resolveDataSources getParameterByName rest
              else resolveDataSources getParameterByName rest) ∧
      ((∀ ds ∈ resolveDataSources getParameterByName rest,
          ∀ q ∈ ds.parameters, q.getName ≠ name) →
        (getParameterByName name = none →
          resolveDataSources getParameterByName (name :: rest)
            = resolveDataSources getParameterByName rest) ∧
        (∀ p, getParameterByName name = some p →
          resolveDataSources getParameterByName (name :: rest)
            = if p.type = .array then
                { name := name, parameters := p.getChildren }
                  :: resolveDataSources getParameterByName rest
              else resolveDataSources getParameterByName rest))) ∧
    (∀ ds ∈ resolveDataSources getParameterByName names,
      ∃ p, p.type = .array ∧ ds.parameters = p.getChildren ∧
        (p.getName = ds.name ∨ getParameterByName ds.name = some p)) ∧
    ((resolveDataSources getParameterByName names).map DataSource.name).Sublist names := by
  refine ⟨?_, ?_, resolveDataSources_array getParameterByName names,
    resolveDataSources_names getParameterByName names⟩
  · unfold getAllDataSources
    rw [hnames]
    rfl
  · rintro before name rest rfl
    refine ⟨resolveDataSources_suffix getParameterByName before (name :: rest),
      resolveDataSources_suffix getParameterByName [name] rest, ?_, ?_⟩
    · rintro ⟨ds, hds, q, hq, hname⟩
      cases hfind : findDataSourceParameter (resolveDataSources getParameterByName rest)
          name with
      | none =>
        exact absurd hname ((findDataSourceParameter_eq_none _ _).mp hfind ds hds q hq)
      | some p =>
        obtain ⟨d, hd, hp, hpname⟩ := findDataSourceParameter_mem _ _ _ hfind
        exact ⟨p, ⟨d, hd, hp⟩, hpname, addDataSource_of_found _ _ _ _ hfind⟩
    · intro hnone
      exact addDataSource_of_not_found getParameterByName _ name
        ((findDataSourceParameter_eq_none _ _).mpr hnone)

/-- C26 at a concrete element: below three nested sections over `rows`, `lines` and
`orders`, the names are resolved from `orders` inwards and listed innermost first;
`lines` is the child parameter of `orders`, which the document does not know by name. -/
theorem getAllDataSources_root_first_witness :
    getAllDataSourceParameterNames totalLabel nestedSections none []
      = some ["rows", "lines", "orders"] ∧
    orderParameters "lines" = none ∧
    getAllDataSources orderParameters totalLabel nestedSections
      = some [{ name := "rows", parameters := orderRows.getChildren },
              { name := "lines", parameters := orderLines.getChildren },
              { name := "orders", parameters := ordersParameter.getChildren }] :=
  ⟨rfl, rfl,
    (getAllDataSources_root_first orderParameters totalLabel nestedSections
      ["rows", "lines", "orders"] rfl).1⟩

/-- C30: when the data source name matches a child parameter of more than one enclosing
resolved data source, the child parameter of the outermost (root-most) matching data
source is used: with the enclosing data sources `inner ++ ds :: outer` (the nearest
first), `p` the first parameter of `ds` with the name and no parameter with the name in
`outer`, the name is resolved to `p`, whatever `inner` holds. -/
theorem getAllDataSources_outermost_match (getParameterByName : String → Option Parameter)
    (f : Fields) (ancestors : List Fields) (name : String) (rest : List String)
    (inner outer : List DataSource) (ds : DataSource) (p : Parameter)
    (hnames : getAllDataSourceParameterNames f ancestors none [] = some (name :: rest))
    (hsplit : resolveDataSources getParameterByName rest = inner ++ ds :: outer)
    (hmatch : ds.parameters.find? (fun q => q.getName == name) = some p)
    (houter : ∀ d ∈ outer, ∀ q ∈ d.parameters, q.getName ≠ name) :
    findDataSourceParameter (inner ++ ds :: outer) name = some p ∧
    getAllDataSources getParameterByName f ancestors
      = some (if p.type = .array then
          { name := name, parameters := p.getChildren } :: (inner ++ ds :: outer)
        else inner ++ ds :: outer) := by
  have hfind := findDataSourceParameter_outermost name inner outer ds p hmatch houter
  refine ⟨hfind, ?_⟩
  unfold getAllDataSources
  rw [hnames]
  show some (addDataSource getParameterByName (resolveDataSources getParameterByName rest) name)
    = _
  rw [hsplit, addDataSource_of_found _ _ _ _ hfind]

/-- C30 at a concrete element: `rows` is a list of the rows of `lines` (the nearest
data source) and of the rows of `orders` (the outermost); the data source `rows` holds
the children of the `rows` of `orders`. -/
theorem getAllDataSources_outermost_match_witness :
    (orderLines.getChildren.find? (fun q => q.getName == "rows")).map Parameter.id = some 33 ∧
    (ordersParameter.getChildren.find? (fun q => q.getName == "rows")).map Parameter.id
      = some 31 ∧
    getAllDataSources orderParameters totalLabel nestedSections
      = some [{ name := "rows", parameters := orderRows.getChildren },
              { name := "lines", parameters := orderLines.getChildren },
              { name := "orders", parameters := ordersParameter.getChildren }] :=
  ⟨by decide, by decide,
    (getAllDataSources_outermost_match orderParameters totalLabel nestedSections "rows"
      ["lines", "orders"] [{ name := "lines", parameters := orderLines.getChildren }] []
      { name := "orders", parameters := ordersParameter.getChildren } orderRows rfl rfl rfl
      (fun d hd => absurd hd (List.not_mem_nil _))).2⟩


mutual
theorem appendContainerChildren_eq : ∀ (e : DocElement) (elements : List DocElement),
    (∀ el ∈ e :: e.nested, getPanelItem el.fields ≠ none) →
    appendContainerChildren e elements = elements ++ e.nested
  | .mk f linked children, elements, h => by
    unfold appendContainerChildren DocElement.nested
    by_cases hlinked : f.linkedContainerId = none
    · simp [hlinked]
    · have hitem : f.panelItem ≠ none := h (.mk f linked children) (List.mem_cons_self _ _)
      rw [if_pos ⟨hlinked, hitem⟩, if_neg hlinked]
      apply appendPanelChildren_eq children elements
      intro el hel
      apply h el
      apply List.mem_cons_of_mem
      unfold DocElement.nested
      rw [if_neg hlinked]
      exact hel
theorem appendPanelChildren_eq : ∀ (items : PanelItems) (elements : List DocElement),
    (∀ el ∈ items.nested, getPanelItem el.fields ≠ none) →
    appendPanelChildren items elements = elements ++ items.nested
  | .nil, elements, _ => by simp [appendPanelChildren, PanelItems.nested]
  | .docElement e rest, elements, h => by
    unfold PanelItems.nested at h
    unfold appendPanelChildren PanelItems.nested
    rw [appendContainerChildren_eq e (elements ++ [e])
        (fun el hel => h el (by
          rcases List.mem_cons.mp hel with rfl | hel
          · exact List.mem_cons_self _ _
          · exact List.mem_cons_of_mem _ (List.mem_append_left _ hel))),
      appendPanelChildren_eq rest _
        (fun el hel => h el (List.mem_cons_of_mem _ (List.mem_append_right _ hel)))]
    simp
  | .other rest, elements, h => by
    unfold PanelItems.nested at h
    unfold appendPanelChildren PanelItems.nested
    exact appendPanelChildren_eq rest elements h
end

theorem addDeleteCommands_eq (panelItems : PanelItemStore) (elements : List DocElement)
    (cmdGroup : List Command) (items : List Nat)
    (h : elements.map (fun el => getPanelItem el.fields) = items.map some) :
    addDeleteCommands panelItems elements cmdGroup
      = some (cmdGroup ++ List.zipWith (deleteCommand panelItems) elements items) := by
  induction elements generalizing cmdGroup items with
  | nil => simp [addDeleteCommands]
  | cons el rest ih =>
    cases items with
    | nil => simp at h
    | cons item items =>
      simp only [List.map_cons, List.cons.injEq] at h
      unfold addDeleteCommands
      rw [h.1]
      simp only
      rw [ih _ items h.2]
      simp

theorem exists_items (elements : List DocElement)
    (h : ∀ el ∈ elements, getPanelItem el.fields ≠ none) :
    ∃ items : List Nat, elements.map (fun el => getPanelItem el.fields) = items.map some := by
  induction elements with
  | nil => exact ⟨[], rfl⟩
  | cons el rest ih =>
    obtain ⟨items, hitems⟩ := ih (fun e he => h e (List.mem_cons_of_mem _ he))
    obtain ⟨item, hitem⟩ := Option.ne_none_iff_exists'.mp (h el (List.mem_cons_self _ _))
    exact ⟨item :: items, by simp [hitem, hitems]⟩

theorem deletedId_zipWith (panelItems : PanelItemStore) (elements : List DocElement)
    (items : List Nat) (hlen : elements.length = items.length) :
    (List.zipWith (deleteCommand panelItems) elements items).map Command.deletedId
      = elements.map (fun el => some el.fields.id) := by
  induction elements generalizing items with
  | nil => simp
  | cons el rest ih =>
    cases items with
    | nil => simp at hlen
    | cons item items =>
      simp only [List.zipWith_cons_cons, List.map_cons, List.cons.injEq]
      exact ⟨rfl, ih items (by simpa using hlen)⟩


/-- C27: for an element whose nested elements and itself all have a panel item,
`addCommandsForDelete` ends without error and appends exactly one delete command for
each doc element nested through the linked container, in pre-order, and then one for the
element itself, the last command; the command of an element carries `false`, the panel
name, the `toJS()` state, the id, the container id and the sibling position of the
element.  The number of commands is the number of nested elements plus one, the commands
are pairwise different when the ids of the elements are, and an element with
`linkedContainerId = null` yields exactly one command. -/
theorem addCommandsForDelete_spec (panelItems : PanelItemStore) (e : DocElement)
    (cmdGroup : List Command)
    (hitems : ∀ el ∈ e :: e.nested, getPanelItem el.fields ≠ none) :
    ∃ items : List Nat,
      (e.nested ++ [e]).map (fun el => getPanelItem el.fields) = items.map some ∧
      addCommandsForDelete panelItems e cmdGroup
        = some (cmdGroup ++ List.zipWith (deleteCommand panelItems) (e.nested ++ [e]) items) ∧
      (∀ (el : DocElement) (item : Nat),
        deleteCommand panelItems el item
          = .addDeleteDocElement
              { add := false, panelName := panelItems.getPanelName item,
                initialData := toJS el.fields, id := el.fields.id,
                parentId := getContainerId el.fields,
                position := panelItems.getSiblingPosition item }) ∧
      (List.zipWith (deleteCommand panelItems) (e.nested ++ [e]) items).length
        = e.nested.length + 1 ∧
      (List.zipWith (deleteCommand panelItems) (e.nested ++ [e]) items).map Command.deletedId
        = (e.nested ++ [e]).map (fun el => some el.fields.id) ∧
      (((e.nested ++ [e]).map (fun el => el.fields.id)).Nodup →
        (List.zipWith (deleteCommand panelItems) (e.nested ++ [e]) items).Nodup) ∧
      (e.fields.linkedContainerId = none →
        ∃ item, items = [item] ∧ getPanelItem e.fields = some item ∧
          addCommandsForDelete panelItems e cmdGroup
            = some (cmdGroup ++ [deleteCommand panelItems e item])) := by
  have hall : ∀ el ∈ e.nested ++ [e], getPanelItem el.fields ≠ none := by
    intro el hel
    apply hitems el
    rcases List.mem_append.mp hel with h | h
    · exact List.mem_cons_of_mem _ h
    · rw [List.mem_singleton.mp h]; exact List.mem_cons_self _ _
  obtain ⟨items, hmap⟩ := exists_items (e.nested ++ [e]) hall
  have hlen : (e.nested ++ [e]).length = items.length := by
    have := congrArg List.length hmap
    simpa using this
  have hresult : addCommandsForDelete panelItems e cmdGroup
      = some (cmdGroup ++ List.zipWith (deleteCommand panelItems) (e.nested ++ [e]) items) := by
    unfold addCommandsForDelete
    rw [appendContainerChildren_eq e [] hitems, List.nil_append]
    exact addDeleteCommands_eq panelItems _ cmdGroup items hmap
  have hids : (List.zipWith (deleteCommand panelItems) (e.nested ++ [e]) items).map
      Command.deletedId = (e.nested ++ [e]).map (fun el => some el.fields.id) :=
    deletedId_zipWith panelItems _ items hlen
  refine ⟨items, hmap, hresult, fun _ _ => rfl, ?_, hids, ?_, ?_⟩
  · rw [List.length_zipWith, ← hlen]
    simp
  · intro hnodup
    apply List.Nodup.of_map Command.deletedId
    rw [hids]
    have := hnodup.map (Option.some_injective Nat)
    simpa [List.map_map] using this
  · intro hlinked
    have hnested : e.nested = [] := by
      cases e with
      | mk f linked children =>
        unfold DocElement.nested
        exact if_pos hlinked
    rw [hnested, List.nil_append] at hmap hresult
    cases items with
    | nil => simp at hmap
    | cons item items =>
      cases items with
      | cons item2 items => simp at hmap
      | nil =>
        simp only [List.map_cons, List.map_nil, List.cons.injEq, and_true] at hmap
        exact ⟨item, rfl, hmap, hresult⟩

/-- C27 at a concrete tree: the outer frame holds the inner frame (which holds a text),
another item and a second text; the elements 4, 5, 6 and then 3 are deleted. -/
theorem addCommandsForDelete_spec_witness :
    (∀ el ∈ frameTree :: frameTree.nested, getPanelItem el.fields ≠ none) ∧
    (addCommandsForDelete documentPanelItems frameTree []).map
        (fun cmds => cmds.map Command.deletedId)
      = some [some 4, some 5, some 6, some 3] := by
  have hitems : ∀ el ∈ frameTree :: frameTree.nested, getPanelItem el.fields ≠ none := by
    intro el hel
    have hall : (frameTree :: frameTree.nested).all
        (fun el => (getPanelItem el.fields).isSome) = true := by decide
    have hsome := List.all_eq_true.mp hall el hel
    exact fun h => by rw [h] at hsome; exact Bool.false_ne_true hsome
  obtain ⟨items, _, hresult, _, _, hids, _⟩ :=
    addCommandsForDelete_spec documentPanelItems frameTree [] hitems
  refine ⟨hitems, ?_⟩
  rw [hresult, Option.map_some', List.nil_append, hids]
  rfl

theorem includes_iff (value pattern : String) :
    includes value pattern = true ↔ ∃ a b : String, value = a ++ pattern ++ b := by
  unfold includes
  rw [containsChars_iff]
  constructor
  · rintro ⟨a, b, h⟩
    exact ⟨⟨a⟩, ⟨b⟩, String.ext (by simp [h])⟩
  · rintro ⟨a, b, rfl⟩
    exact ⟨a.data, b.data, by simp⟩

theorem simpleRef_data (name : String) :
    (simpleRef name).data = '$' :: ('\x7b' :: name.data ++ ['\x7d']) := by
  simp [simpleRef]

theorem qualifiedRef_data (parent name : String) :
    (qualifiedRef parent name).data
      = '$' :: ('\x7b' :: parent.data ++ '.' :: name.data ++ ['\x7d']) := by
  simp [qualifiedRef]

theorem prefixRef_data (name : String) :
    (prefixRef name).data = '$' :: ('\x7b' :: name.data ++ ['.']) := by
  simp [prefixRef]

theorem addCommandForChangedParameterName_of_refs (json : JSON)
    (getParameterByName : String → Option Parameter) (f : Fields) (ancestors : List Fields)
    (parameter : Parameter) (paramParent : Option Parameter) (newParameterName field : String)
    (cmdGroup : List Command) (dataSources : List DataSource) (paramRef newParamRef : String)
    (hsources : getAllDataSources getParameterByName f ancestors = some dataSources)
    (hrefs : paramRefs dataSources parameter paramParent newParameterName
      = some (paramRef, newParamRef)) :
    addCommandForChangedParameterName json getParameterByName f ancestors parameter paramParent
        newParameterName field cmdGroup
      = addReplaceCommand json f field paramRef newParamRef cmdGroup := by
  unfold addCommandForChangedParameterName
  rw [hsources]
  simp only
  rw [hrefs]

theorem addCommandForChangedParameterName_of_no_refs (json : JSON)
    (getParameterByName : String → Option Parameter) (f : Fields) (ancestors : List Fields)
    (parameter : Parameter) (paramParent : Option Parameter) (newParameterName field : String)
    (cmdGroup : List Command) (dataSources : List DataSource)
    (hsources : getAllDataSources getParameterByName f ancestors = some dataSources)
    (hrefs : paramRefs dataSources parameter paramParent newParameterName = none) :
    addCommandForChangedParameterName json getParameterByName f ancestors parameter paramParent
        newParameterName field cmdGroup
      = some cmdGroup := by
  unfold addCommandForChangedParameterName
  rw [hsources]
  simp only
  rw [hrefs]

theorem addReplaceCommand_text (json : JSON) (f : Fields) (field paramRef newParamRef : String)
    (cmdGroup : List Command) (value : String) (hvalue : getValue f field = .str value) :
    addReplaceCommand json f field paramRef newParamRef cmdGroup
      = some (if includes value paramRef = true then
          cmdGroup ++ [.setValue
            { objId := f.id, field := field,
              value := .str (replaceAll value paramRef newParamRef), type := .text }]
        else cmdGroup) := by
  unfold addReplaceCommand
  rw [hvalue]
  simp only
  split_ifs <;> rfl

theorem any_name_iff (dataSources : List DataSource) (name : String) :
    dataSources.any (fun dataSource =>
        dataSource.parameters.any fun dataSourceParam => dataSourceParam.getName == name) = true
      ↔ ∃ ds ∈ dataSources, ∃ p ∈ ds.parameters, p.getName = name := by
  simp [List.any_eq_true]

theorem any_id_iff (dataSources : List DataSource) (id : Nat) :
    dataSources.any (fun dataSource =>
        dataSource.parameters.any fun p => p.id == id) = true
      ↔ ∃ ds ∈ dataSources, ∃ p ∈ ds.parameters, p.id = id := by
  simp [List.any_eq_true]

theorem paramRefs_simple (dataSources : List DataSource) (parameter : Parameter)
    (paramParent : Option Parameter) (newParameterName : String)
    (htype : parameter.type ≠ .map)
    (hparentArray : paramParent.map Parameter.type ≠ some .array)
    (hparentMap : paramParent.map Parameter.type ≠ some .map) :
    paramRefs dataSources parameter paramParent newParameterName
      = if dataSources.any (fun dataSource =>
            dataSource.parameters.any fun dataSourceParam =>
              dataSourceParam.getName == parameter.getName) = true then none
        else some (simpleRef parameter.getName, simpleRef newParameterName) := by
  unfold paramRefs
  rw [if_neg hparentArray, if_neg hparentMap, if_neg htype]

theorem paramRefs_array (dataSources : List DataSource) (parameter : Parameter)
    (paramParent : Option Parameter) (newParameterName : String)
    (hparentArray : paramParent.map Parameter.type = some .array) :
    paramRefs dataSources parameter paramParent newParameterName
      = if dataSources.any (fun dataSource =>
            dataSource.parameters.any fun p => p.id == parameter.id) = true then
          some (simpleRef parameter.getName, simpleRef newParameterName)
        else none := by
  unfold paramRefs
  rw [if_pos hparentArray]

theorem paramRefs_qualified (dataSources : List DataSource) (parameter parent : Parameter)
    (newParameterName : String) (hparent : parent.type = .map) :
    paramRefs dataSources parameter (some parent) newParameterName
      = some (qualifiedRef parent.getName parameter.getName,
          qualifiedRef parent.getName newParameterName) := by
  unfold paramRefs
  rw [if_neg (by simp [hparent]), if_pos (by simp [hparent])]

theorem paramRefs_of_map (dataSources : List DataSource) (parameter : Parameter)
    (paramParent : Option Parameter) (newParameterName : String)
    (htype : parameter.type = .map)
    (hparentArray : paramParent.map Parameter.type ≠ some .array)
    (hparentMap : paramParent.map Parameter.type ≠ some .map) :
    paramRefs dataSources parameter paramParent newParameterName
      = some (prefixRef parameter.getName, prefixRef newParameterName) := by
  unfold paramRefs
  rw [if_neg hparentArray, if_neg hparentMap, if_pos htype]

/-- C21: the simple name is rewritten unless a data source parameter shadows it.  For a
renamed parameter that is not a map and whose parent is neither a list nor a map, and a
text field: a command is appended exactly when the field contains the literal
`'$\x7b' + name + '\x7d'` and no data source of `getAllDataSources()` has a child
parameter with the name; the command carries the text with the references rewritten.
At the example of the spec: renaming `qty` to `quantity` leaves the cell with
`Total:` and the reference to `qty` in the table over `items`, whose rows have a
parameter `qty`, without a command, and gives the text element outside the table the
command with the reference to `quantity`. -/
theorem rename_simple_unless_shadowed (json : JSON)
    (getParameterByName : String → Option Parameter) (f : Fields) (ancestors : List Fields)
    (parameter : Parameter) (paramParent : Option Parameter) (newParameterName field : String)
    (cmdGroup : List Command) (dataSources : List DataSource) (value : String)
    (htype : parameter.type ≠ .map)
    (hparentArray : paramParent.map Parameter.type ≠ some .array)
    (hparentMap : paramParent.map Parameter.type ≠ some .map)
    (hsources : getAllDataSources getParameterByName f ancestors = some dataSources)
    (hvalue : getValue f field = .str value) :
    ((∃ a b : String, value = a ++ simpleRef parameter.getName ++ b) ∧
        (∀ ds ∈ dataSources, ∀ p ∈ ds.parameters, p.getName ≠ parameter.getName) →
      addCommandForChangedParameterName json getParameterByName f ancestors parameter
          paramParent newParameterName field cmdGroup
        = some (cmdGroup ++ [.setValue
            { objId := f.id, field := field,
              value := .str (replaceAll value (simpleRef parameter.getName)
                (simpleRef newParameterName)),
              type := .text }])) ∧
    (¬ ((∃ a b : String, value = a ++ simpleRef parameter.getName ++ b) ∧
        (∀ ds ∈ dataSources, ∀ p ∈ ds.parameters, p.getName ≠ parameter.getName)) →
      addCommandForChangedParameterName json getParameterByName f ancestors parameter
          paramParent newParameterName field cmdGroup
        = some cmdGroup) ∧
    addCommandForChangedParameterName json documentParameters totalCell
        [contentBand, itemsTable] globalQty none "quantity" "content" []
      = some [] ∧
    addCommandForChangedParameterName json documentParameters totalLabel [] globalQty none
        "quantity" "content" []
      = some [.setValue
          { objId := totalLabel.id, field := "content",
            value := .str "Total: $\x7bquantity\x7d", type := .text }] := by
  have hrefs := paramRefs_simple dataSources parameter paramParent newParameterName htype
    hparentArray hparentMap
  refine ⟨?_, ?_, rfl, rfl⟩
  · rintro ⟨hcontains, hfree⟩
    have hany : ¬ dataSources.any (fun dataSource =>
        dataSource.parameters.any fun dataSourceParam =>
          dataSourceParam.getName == parameter.getName) = true := by
      rw [any_name_iff]
      rintro ⟨ds, hds, p, hp, hname⟩
      exact hfree ds hds p hp hname
    rw [if_neg hany] at hrefs
    rw [addCommandForChangedParameterName_of_refs json getParameterByName f ancestors parameter
        paramParent newParameterName field cmdGroup dataSources _ _ hsources hrefs,
      addReplaceCommand_text json f field _ _ cmdGroup value hvalue,
      if_pos ((includes_iff _ _).mpr hcontains)]
  · intro hnot
    by_cases hany : dataSources.any (fun dataSource =>
        dataSource.parameters.any fun dataSourceParam =>
          dataSourceParam.getName == parameter.getName) = true
    · rw [if_pos hany] at hrefs
      exact addCommandForChangedParameterName_of_no_refs json getParameterByName f ancestors
        parameter paramParent newParameterName field cmdGroup dataSources hsources hrefs
    · rw [if_neg hany] at hrefs
      have hcontains : ¬ includes value (simpleRef parameter.getName) = true := by
        intro h
        apply hnot
        refine ⟨(includes_iff _ _).mp h, ?_⟩
        intro ds hds p hp hname
        exact hany ((any_name_iff _ _).mpr ⟨ds, hds, p, hp, hname⟩)
      rw [addCommandForChangedParameterName_of_refs json getParameterByName f ancestors
          parameter paramParent newParameterName field cmdGroup dataSources _ _ hsources hrefs,
        addReplaceCommand_text json f field _ _ cmdGroup value hvalue, if_neg hcontains]

/-- C21 at a concrete element: the text element outside the table, with no data source
in scope. -/
theorem rename_simple_unless_shadowed_witness :
    globalQty.type ≠ .map ∧
    getAllDataSourceParameterNames totalLabel [] none [] = some [] ∧
    getValue totalLabel "content" = .str "Total: $\x7bqty\x7d" ∧
    addCommandForChangedParameterName plainJSON documentParameters totalLabel [] globalQty none
        "quantity" "content" []
      = some [.setValue
          { objId := 23, field := "content",
            value := .str "Total: $\x7bquantity\x7d", type := .text }] :=
  ⟨by decide, rfl, rfl,
    (rename_simple_unless_shadowed plainJSON documentParameters totalLabel [] globalQty none
      "quantity" "content" [] [] "Total: $\x7bqty\x7d" (by decide) (by decide) (by decide)
      rfl rfl).2.2.2⟩

/-- C29: for a renamed parameter whose parent is a list, the reference is rewritten only
in the scope of the list.  For a text field, a command that replaces
`'$\x7b' + old + '\x7d'` by `'$\x7b' + new + '\x7d'` is appended exactly when the
parameter object is one of the child parameters of a data source of
`getAllDataSources()` and the field contains `'$\x7b' + old + '\x7d'`; for an element
outside that scope no command is appended, whatever the field holds (here: whatever
its value is, a text or not). -/
theorem rename_list_field_in_scope (json : JSON)
    (getParameterByName : String → Option Parameter) (f : Fields) (ancestors : List Fields)
    (parameter : Parameter) (paramParent : Option Parameter) (newParameterName field : String)
    (cmdGroup : List Command) (dataSources : List DataSource)
    (hparentArray : paramParent.map Parameter.type = some .array)
    (hsources : getAllDataSources getParameterByName f ancestors = some dataSources) :
    (∀ value, getValue f field = .str value →
      ((∃ ds ∈ dataSources, ∃ p ∈ ds.parameters, p.id = parameter.id) ∧
          (∃ a b : String, value = a ++ simpleRef parameter.getName ++ b) →
        addCommandForChangedParameterName json getParameterByName f ancestors parameter
            paramParent newParameterName field cmdGroup
          = some (cmdGroup ++ [.setValue
              { objId := f.id, field := field,
                value := .str (replaceAll value (simpleRef parameter.getName)
                  (simpleRef newParameterName)),
                type := .text }])) ∧
      (¬ ((∃ ds ∈ dataSources, ∃ p ∈ ds.parameters, p.id = parameter.id) ∧
          (∃ a b : String, value = a ++ simpleRef parameter.getName ++ b)) →
        addCommandForChangedParameterName json getParameterByName f ancestors parameter
            paramParent newParameterName field cmdGroup
          = some cmdGroup)) ∧
    ((¬ ∃ ds ∈ dataSources, ∃ p ∈ ds.parameters, p.id = parameter.id) →
      addCommandForChangedParameterName json getParameterByName f ancestors parameter
          paramParent newParameterName field cmdGroup
        = some cmdGroup) := by
  have hrefs := paramRefs_array dataSources parameter paramParent newParameterName hparentArray
  have houtside : (¬ ∃ ds ∈ dataSources, ∃ p ∈ ds.parameters, p.id = parameter.id) →
      addCommandForChangedParameterName json getParameterByName f ancestors parameter
          paramParent newParameterName field cmdGroup
        = some cmdGroup := by
    intro hnot
    rw [if_neg (fun h => hnot ((any_id_iff _ _).mp h))] at hrefs
    exact addCommandForChangedParameterName_of_no_refs json getParameterByName f ancestors
      parameter paramParent newParameterName field cmdGroup dataSources hsources hrefs
  refine ⟨fun value hvalue => ⟨?_, ?_⟩, houtside⟩
  · rintro ⟨hscope, hcontains⟩
    rw [if_pos ((any_id_iff _ _).mpr hscope)] at hrefs
    rw [addCommandForChangedParameterName_of_refs json getParameterByName f ancestors parameter
        paramParent newParameterName field cmdGroup dataSources _ _ hsources hrefs,
      addReplaceCommand_text json f field _ _ cmdGroup value hvalue,
      if_pos ((includes_iff _ _).mpr hcontains)]
  · intro hnot
    by_cases hscope : ∃ ds ∈ dataSources, ∃ p ∈ ds.parameters, p.id = parameter.id
    · rw [if_pos ((any_id_iff _ _).mpr hscope)] at hrefs
      have hcontains : ¬ includes value (simpleRef parameter.getName) = true :=
        fun h => hnot ⟨hscope, (includes_iff _ _).mp h⟩
      rw [addCommandForChangedParameterName_of_refs json getParameterByName f ancestors
          parameter paramParent newParameterName field cmdGroup dataSources _ _ hsources hrefs,
        addReplaceCommand_text json f field _ _ cmdGroup value hvalue, if_neg hcontains]
    · exact houtside hscope

/-- C29 at concrete elements: renaming the field `qty` of the rows of `items` to
`quantity` rewrites the cell in the table over `items` and leaves the text element
outside the table, which holds the same text, without a command. -/
theorem rename_list_field_in_scope_witness :
    (some itemsParameter).map Parameter.type = some .array ∧
    addCommandForChangedParameterName plainJSON documentParameters totalCell
        [contentBand, itemsTable] rowQty (some itemsParameter) "quantity" "content" []
      = some [.setValue
          { objId := 22, field := "content",
            value := .str "Total: $\x7bquantity\x7d", type := .text }] ∧
    addCommandForChangedParameterName plainJSON documentParameters totalLabel [] rowQty
        (some itemsParameter) "quantity" "content" []
      = some [] :=
  ⟨rfl,
    ((rename_list_field_in_scope plainJSON documentParameters totalCell
      [contentBand, itemsTable] rowQty (some itemsParameter) "quantity" "content" []
      [{ name := "items", parameters := itemsParameter.getChildren }] rfl rfl).1
        "Total: $\x7bqty\x7d" rfl).1
      ⟨⟨_, List.mem_singleton.mpr rfl, rowQty, List.mem_cons_self _ _, rfl⟩, "Total: ", "", rfl⟩,
    (rename_list_field_in_scope plainJSON documentParameters totalLabel [] rowQty
      (some itemsParameter) "quantity" "content" [] [] rfl rfl).2
      (fun ⟨_, hds, _⟩ => absurd hds (List.not_mem_nil _))⟩

theorem replaceAllChars_of_not_contains (p n s : List Char)
    (h : containsChars p s = false) : replaceAllChars p n 0 s = s := by
  induction s with
  | nil => rfl
  | cons c cs ih =>
    simp only [containsChars, Bool.or_eq_false_iff] at h
    rw [replaceAllChars_zero_cons, if_neg (by simp [h.1]), ih h.2]

theorem replaceAllChars_keep (c : Char) (q n pre u post : List Char) (hq : c ∉ q)
    (hu : c ∉ u) (hnot : ¬ (c :: q) <+: (c :: u) ++ post) :
    replaceAllChars (c :: q) n 0 (pre ++ (c :: u) ++ post)
      = replaceAllChars (c :: q) n 0 pre ++ (c :: u) ++ replaceAllChars (c :: q) n 0 post := by
  have h := replaceAllChars_append_of_head c q n pre (u ++ post) hq 0 (Nat.zero_le _)
  have e : ¬ List.isPrefixOf (c :: q) (c :: (u ++ post)) = true := by
    rw [List.isPrefixOf_iff_prefix]
    simpa using hnot
  simp only [List.append_assoc, List.cons_append] at h ⊢
  rw [h, replaceAllChars_zero_cons, if_neg e, replaceAllChars_of_not_mem c q n u post hu]

theorem replaceAll_of_not_includes (value paramRef newParamRef : String)
    (h : includes value paramRef = false) : replaceAll value paramRef newParamRef = value :=
  String.ext (replaceAllChars_of_not_contains _ _ _ h)

theorem replaceAll_occurrence (pre rest paramRef newParamRef : String) (q : List Char)
    (href : paramRef.data = '$' :: q) (hq : '$' ∉ q) :
    replaceAll (pre ++ paramRef ++ rest) paramRef newParamRef
      = replaceAll pre paramRef newParamRef ++ newParamRef
        ++ replaceAll rest paramRef newParamRef := by
  apply String.ext
  simp only [replaceAll, String.data_append, href]
  exact replaceAllChars_occurrence '$' q newParamRef.data pre.data rest.data hq

theorem replaceAll_of_not_mem (s t paramRef newParamRef : String) (q : List Char)
    (href : paramRef.data = '$' :: q) (hs : '$' ∉ s.data) :
    replaceAll (s ++ t) paramRef newParamRef = s ++ replaceAll t paramRef newParamRef := by
  apply String.ext
  simp only [replaceAll, String.data_append, href]
  exact replaceAllChars_of_not_mem '$' q newParamRef.data s.data t.data hs

theorem replaceAll_keep (pre kept post paramRef newParamRef : String) (q u : List Char)
    (href : paramRef.data = '$' :: q) (hq : '$' ∉ q) (hkept : kept.data = '$' :: u)
    (hu : '$' ∉ u) (hnot : ¬ paramRef.data <+: kept.data ++ post.data) :
    replaceAll (pre ++ kept ++ post) paramRef newParamRef
      = replaceAll pre paramRef newParamRef ++ kept
        ++ replaceAll post paramRef newParamRef := by
  apply String.ext
  rw [href, hkept] at hnot
  simp only [replaceAll, String.data_append, href, hkept]
  exact replaceAllChars_keep '$' q newParamRef.data pre.data u post.data hq hu hnot

theorem containsChars_length (p s : List Char) (h : containsChars p s = true) :
    p.length ≤ s.length := by
  obtain ⟨a, b, rfl⟩ := (containsChars_iff p s).mp h
  simp
  omega

/-- The qualified reference does not start the text of the simple reference, for names
without a closing brace. -/
theorem qualifiedRef_not_leading (parent name post : String)
    (hparent : '\x7d' ∉ parent.data) (hname : '\x7d' ∉ name.data) :
    ¬ (qualifiedRef parent name).data <+: (simpleRef name).data ++ post.data := by
  rw [qualifiedRef_data, simpleRef_data]
  intro h
  simp only [List.cons_append, List.prefix_cons_inj, List.append_assoc] at h
  have h1 : (parent.data ++ '.' :: name.data) <+: name.data ++ ('\x7d' :: post.data) := by
    refine List.IsPrefix.trans ⟨['\x7d'], ?_⟩ h
    simp
  have h2 : (name.data ++ ['\x7d']) <+: name.data ++ ('\x7d' :: post.data) :=
    ⟨post.data, by simp⟩
  have h3 : (name.data ++ ['\x7d']) <+: (parent.data ++ '.' :: name.data) :=
    List.prefix_of_prefix_length_le h2 h1 (by simp)
  have hmem : '\x7d' ∈ parent.data ++ '.' :: name.data :=
    h3.subset (by simp)
  rcases List.mem_append.mp hmem with hm | hm
  · exact hparent hm
  · rcases List.mem_cons.mp hm with hm | hm
    · exact absurd hm (by decide)
    · exact hname hm

/-- C22: for a renamed parameter whose parent `p` is a map, the qualified reference
`'$\x7b' + p + '.' + old + '\x7d'` is what is rewritten.  For a text field, a command is
appended exactly when the field contains the qualified reference, and it carries the
text with the qualified references replaced; a field that does not contain it, such as
one that holds the unqualified reference `'$\x7b' + old + '\x7d'`, gets no command.  For
names without `'$'`, every qualified reference is replaced in its place and the text
without `'$'` around it is kept; for names that also have no `'\x7d'`, every unqualified
reference is kept in its place. -/
theorem rename_qualified (json : JSON)
    (getParameterByName : String → Option Parameter) (f : Fields) (ancestors : List Fields)
    (parameter parent : Parameter) (newParameterName field : String)
    (cmdGroup : List Command) (dataSources : List DataSource) (value : String)
    (hparent : parent.type = .map)
    (hsources : getAllDataSources getParameterByName f ancestors = some dataSources)
    (hvalue : getValue f field = .str value) :
    ((∃ a b : String, value = a ++ qualifiedRef parent.getName parameter.getName ++ b) →
      addCommandForChangedParameterName json getParameterByName f ancestors parameter
          (some parent) newParameterName field cmdGroup
        = some (cmdGroup ++ [.setValue
            { objId := f.id, field := field,
              value := .str (replaceAll value (qualifiedRef parent.getName parameter.getName)
                (qualifiedRef parent.getName newParameterName)),
              type := .text }])) ∧
    ((¬ ∃ a b : String, value = a ++ qualifiedRef parent.getName parameter.getName ++ b) →
      addCommandForChangedParameterName json getParameterByName f ancestors parameter
          (some parent) newParameterName field cmdGroup
        = some cmdGroup) ∧
    (value = simpleRef parameter.getName →
      addCommandForChangedParameterName json getParameterByName f ancestors parameter
          (some parent) newParameterName field cmdGroup
        = some cmdGroup) ∧
    ('$' ∉ parent.getName.data → '$' ∉ parameter.getName.data →
      (∀ pre rest : String,
        replaceAll (pre ++ qualifiedRef parent.getName parameter.getName ++ rest)
            (qualifiedRef parent.getName parameter.getName)
            (qualifiedRef parent.getName newParameterName)
          = replaceAll pre (qualifiedRef parent.getName parameter.getName)
              (qualifiedRef parent.getName newParameterName)
            ++ qualifiedRef parent.getName newParameterName
            ++ replaceAll rest (qualifiedRef parent.getName parameter.getName)
              (qualifiedRef parent.getName newParameterName)) ∧
      (∀ s t : String, '$' ∉ s.data →
        replaceAll (s ++ t) (qualifiedRef parent.getName parameter.getName)
            (qualifiedRef parent.getName newParameterName)
          = s ++ replaceAll t (qualifiedRef parent.getName parameter.getName)
              (qualifiedRef parent.getName newParameterName)) ∧
      ('\x7d' ∉ parent.getName.data → '\x7d' ∉ parameter.getName.data →
        ∀ pre post : String,
          replaceAll (pre ++ simpleRef parameter.getName ++ post)
              (qualifiedRef parent.getName parameter.getName)
              (qualifiedRef parent.getName newParameterName)
            = replaceAll pre (qualifiedRef parent.getName parameter.getName)
                (qualifiedRef parent.getName newParameterName)
              ++ simpleRef parameter.getName
              ++ replaceAll post (qualifiedRef parent.getName parameter.getName)
                (qualifiedRef parent.getName newParameterName))) := by
  have hrefs := paramRefs_qualified dataSources parameter parent newParameterName hparent
  have hresult := addCommandForChangedParameterName_of_refs json getParameterByName f ancestors
    parameter (some parent) newParameterName field cmdGroup dataSources _ _ hsources hrefs
  rw [addReplaceCommand_text json f field _ _ cmdGroup value hvalue] at hresult
  have hnone : (¬ ∃ a b : String,
        value = a ++ qualifiedRef parent.getName parameter.getName ++ b) →
      addCommandForChangedParameterName json getParameterByName f ancestors parameter
          (some parent) newParameterName field cmdGroup
        = some cmdGroup := by
    intro hnot
    rw [hresult, if_neg (fun h => hnot ((includes_iff _ _).mp h))]
  refine ⟨?_, hnone, ?_, ?_⟩
  · intro hcontains
    rw [hresult, if_pos ((includes_iff _ _).mpr hcontains)]
  · intro hsimple
    apply hnone
    intro hcontains
    have hlen := containsChars_length _ _ ((includes_iff _ _).mpr hcontains)
    rw [hsimple, qualifiedRef_data, simpleRef_data] at hlen
    simp at hlen
    omega
  · intro hp hn
    have hq : '$' ∉ ('\x7b' :: parent.getName.data ++ '.' :: parameter.getName.data ++ ['\x7d']) := by
      simp [hp, hn]
    refine ⟨?_, ?_, ?_⟩
    · intro pre rest
      exact replaceAll_occurrence pre rest _ _ _ (qualifiedRef_data _ _) hq
    · intro s t hs
      exact replaceAll_of_not_mem s t _ _ _ (qualifiedRef_data _ _) hs
    · intro hp' hn' pre post
      have hu : '$' ∉ ('\x7b' :: parameter.getName.data ++ ['\x7d']) := by
        simp [hn]
      exact replaceAll_keep pre _ post _ _ _ _ (qualifiedRef_data _ _) hq (simpleRef_data _) hu
        (qualifiedRef_not_leading _ _ post hp' hn')

/-- C22 at a concrete element: renaming the field `name` of the map `customer` to
`fullName` rewrites the qualified reference of the greeting and keeps the reference to a
parameter `name`. -/
theorem rename_qualified_witness :
    customerParameter.type = .map ∧
    getValue greeting "content"
      = .str "Dear $\x7bcustomer.name\x7d, $\x7bname\x7d" ∧
    addCommandForChangedParameterName plainJSON documentParameters greeting [] customerName
        (some customerParameter) "fullName" "content" []
      = some [.setValue
          { objId := 24, field := "content",
            value := .str "Dear $\x7bcustomer.fullName\x7d, $\x7bname\x7d", type := .text }] :=
  ⟨rfl, rfl,
    (rename_qualified plainJSON documentParameters greeting [] customerName customerParameter
      "fullName" "content" [] [] "Dear $\x7bcustomer.name\x7d, $\x7bname\x7d" rfl rfl rfl).1
      ⟨"Dear ", ", $\x7bname\x7d", rfl⟩⟩

/-- C23 as stated fails for a map whose parent is a list: the map `address` of the rows
of `items` is of type map and its parent is not a map, the cell in the table over
`items` holds a reference to its child `city`, and renaming `address` gives no command,
for the cell in the scope of the list and for an element outside it. -/
theorem rename_map_of_list_keeps_child_reference :
    rowAddress.type = .map ∧
    (some itemsParameter).map Parameter.type ≠ some .map ∧
    getValue cityCell "content" = .str (qualifiedRef "address" "city") ∧
    addCommandForChangedParameterName plainJSON documentParameters cityCell
        [contentBand, itemsTable] rowAddress (some itemsParameter) "location" "content" []
      = some [] ∧
    addCommandForChangedParameterName plainJSON documentParameters cityCell [] rowAddress
        (some itemsParameter) "location" "content" []
      = some [] := by
  refine ⟨rfl, by decide, rfl, rfl, rfl⟩

/-- C23, amended: for a renamed parameter that is a map and whose parent is neither a
map nor a list, the references to its children survive the rename.  For a text field, a
command is appended exactly when the field contains `'$\x7b' + old + '.'`, and it
carries the text with every such prefix replaced by `'$\x7b' + new + '.'`; for names
without `'$'`, a field `pre + '$\x7b' + old + '.' + child + '\x7d' + post` gets the command
whose value has `'$\x7b' + new + '.' + child + '\x7d'` in its place, between the rewritten
`pre` and the rewritten `post`. -/
theorem rename_map_children (json : JSON)
    (getParameterByName : String → Option Parameter) (f : Fields) (ancestors : List Fields)
    (parameter : Parameter) (paramParent : Option Parameter) (newParameterName field : String)
    (cmdGroup : List Command) (dataSources : List DataSource) (value : String)
    (htype : parameter.type = .map)
    (hparentArray : paramParent.map Parameter.type ≠ some .array)
    (hparentMap : paramParent.map Parameter.type ≠ some .map)
    (hsources : getAllDataSources getParameterByName f ancestors = some dataSources)
    (hvalue : getValue f field = .str value) :
    ((∃ a b : String, value = a ++ prefixRef parameter.getName ++ b) →
      addCommandForChangedParameterName json getParameterByName f ancestors parameter
          paramParent newParameterName field cmdGroup
        = some (cmdGroup ++ [.setValue
            { objId := f.id, field := field,
              value := .str (replaceAll value (prefixRef parameter.getName)
                (prefixRef newParameterName)),
              type := .text }])) ∧
    ((¬ ∃ a b : String, value = a ++ prefixRef parameter.getName ++ b) →
      addCommandForChangedParameterName json getParameterByName f ancestors parameter
          paramParent newParameterName field cmdGroup
        = some cmdGroup) ∧
    ('$' ∉ parameter.getName.data →
      ∀ pre child post : String, '$' ∉ child.data →
        value = pre ++ qualifiedRef parameter.getName child ++ post →
        addCommandForChangedParameterName json getParameterByName f ancestors parameter
            paramParent newParameterName field cmdGroup
          = some (cmdGroup ++ [.setValue
              { objId := f.id, field := field,
                value := .str
                  (replaceAll pre (prefixRef parameter.getName) (prefixRef newParameterName)
                    ++ qualifiedRef newParameterName child
                    ++ replaceAll post (prefixRef parameter.getName)
                      (prefixRef newParameterName)),
                type := .text }])) := by
  have hrefs := paramRefs_of_map dataSources parameter paramParent newParameterName htype
    hparentArray hparentMap
  have hresult := addCommandForChangedParameterName_of_refs json getParameterByName f ancestors
    parameter paramParent newParameterName field cmdGroup dataSources _ _ hsources hrefs
  rw [addReplaceCommand_text json f field _ _ cmdGroup value hvalue] at hresult
  refine ⟨?_, ?_, ?_⟩
  · intro hcontains
    rw [hresult, if_pos ((includes_iff _ _).mpr hcontains)]
  · intro hnot
    rw [hresult, if_neg (fun h => hnot ((includes_iff _ _).mp h))]
  · intro hn pre child post hchild hv
    have hsplit : value = pre ++ prefixRef parameter.getName ++ (child ++ "\x7d" ++ post) := by
      rw [hv]
      apply String.ext
      simp [qualifiedRef, prefixRef]
    have hq : '$' ∉ ('\x7b' :: parameter.getName.data ++ ['.']) := by
      simp [hn]
    have hrest : '$' ∉ (child ++ "\x7d").data := by
      simp [hchild]
    have hreplaced : replaceAll value (prefixRef parameter.getName) (prefixRef newParameterName)
        = replaceAll pre (prefixRef parameter.getName) (prefixRef newParameterName)
          ++ qualifiedRef newParameterName child
          ++ replaceAll post (prefixRef parameter.getName) (prefixRef newParameterName) := by
      rw [hsplit, replaceAll_occurrence pre _ _ _ _ (prefixRef_data _) hq,
        replaceAll_of_not_mem (child ++ "\x7d") post _ _ _ (prefixRef_data _) hrest]
      apply String.ext
      simp [qualifiedRef, prefixRef]
    rw [hresult, if_pos ((includes_iff _ _).mpr ⟨pre, _, hsplit⟩), hreplaced]

/-- C23, amended, at a concrete element: renaming the map `customer` to `client` rewrites
the reference to its field `name` and keeps the reference to a parameter `name`. -/
theorem rename_map_children_witness :
    customerParameter.type = .map ∧
    getValue greeting "content"
      = .str ("Dear " ++ qualifiedRef "customer" "name" ++ ", $\x7bname\x7d") ∧
    addCommandForChangedParameterName plainJSON documentParameters greeting [] customerParameter
        none "client" "content" []
      = some [.setValue
          { objId := 24, field := "content",
            value := .str "Dear $\x7bclient.name\x7d, $\x7bname\x7d", type := .text }] :=
  ⟨rfl, rfl,
    (rename_map_children plainJSON documentParameters greeting [] customerParameter none "client"
      "content" [] [] "Dear $\x7bcustomer.name\x7d, $\x7bname\x7d" rfl (by decide) (by decide)
      rfl rfl).2.2 (by decide) "Dear " "name" ", $\x7bname\x7d" (by decide) rfl⟩

/-- C28 fails on the code: in commit mode, for an element whose container lookup gives
`null`, with a drag container that is `null` or has the id of `containerId`,
`updateDrag` reads `container.getContentSize()` at line 645 and ends with a
`TypeError`, for every gesture, deltas and group. -/
theorem updateDrag_null_container_fails (e : DocElement) (diffX diffY : Int)
    (dragType : DragType) (cmdGroup : List Command) :
    updateDrag e none diffX diffY dragType none (some cmdGroup) = none ∧
    (∀ dragContainer : Container, some dragContainer.id = getContainerId e.fields →
      updateDrag e none diffX diffY dragType (some dragContainer) (some cmdGroup) = none) ∧
    updateDrag (.mk textElement .null .nil) none 0 0 .element none (some []) = none := by
  refine ⟨rfl, ?_, rfl⟩
  intro dragContainer hsame
  simp [updateDrag, hsame]

theorem addReplaceCommand_object (json : JSON) (f : Fields)
    (field paramRef newParamRef : String) (cmdGroup : List Command)
    (hobject : (getValue f field).isObject = true) :
    addReplaceCommand json f field paramRef newParamRef cmdGroup
      = if includes (json.stringify (getValue f field)) paramRef = true then
          match json.parse (replaceAll (json.stringify (getValue f field)) paramRef
              newParamRef) with
          | some updatedValue =>
            some (cmdGroup ++ [.setValue
              { objId := f.id, field := field, value := updatedValue, type := .richText }])
          | none => none
        else some cmdGroup := by
  unfold addReplaceCommand
  cases hv : getValue f field with
  | str s => rw [hv] at hobject; exact absurd hobject Bool.false_ne_true
  | num n => rw [hv] at hobject; exact absurd hobject Bool.false_ne_true
  | bool b => rw [hv] at hobject; exact absurd hobject Bool.false_ne_true
  | undefined => rw [hv] at hobject; exact absurd hobject Bool.false_ne_true
  | null => rfl
  | ref n => rfl

theorem addReplaceCommand_cases (json : JSON) (f : Fields)
    (field paramRef newParamRef : String) (cmdGroup group : List Command)
    (h : addReplaceCommand json f field paramRef newParamRef cmdGroup = some group) :
    group = cmdGroup ∨
    ∃ updatedValue, group = cmdGroup ++ [.setValue
      { objId := f.id, field := field, value := updatedValue,
        type := if (getValue f field).isObject = true then .richText else .text }] := by
  by_cases hobject : (getValue f field).isObject = true
  · rw [addReplaceCommand_object json f field paramRef newParamRef cmdGroup hobject] at h
    rw [if_pos hobject]
    split_ifs at h with hcontains
    · cases hparse : json.parse (replaceAll (json.stringify (getValue f field)) paramRef
          newParamRef) with
      | none => rw [hparse] at h; exact Option.noConfusion h
      | some updatedValue =>
        rw [hparse] at h
        exact Or.inr ⟨updatedValue, (Option.some.inj h).symm⟩
    · exact Or.inl (Option.some.inj h).symm
  · rw [if_neg hobject]
    cases hv : getValue f field with
    | str s =>
      rw [addReplaceCommand_text json f field paramRef newParamRef cmdGroup s hv] at h
      split_ifs at h
      · exact Or.inr ⟨_, (Option.some.inj h).symm⟩
      · exact Or.inl (Option.some.inj h).symm
    | num n => unfold addReplaceCommand at h; rw [hv] at h; exact Option.noConfusion h
    | bool b => unfold addReplaceCommand at h; rw [hv] at h; exact Option.noConfusion h
    | undefined => unfold addReplaceCommand at h; rw [hv] at h; exact Option.noConfusion h
    | null => rw [hv] at hobject; exact absurd rfl hobject
    | ref n => rw [hv] at hobject; exact absurd rfl hobject

/-- C24: one call of `addCommandForChangedParameterName` appends at most one command: a
call that ends without error leaves the group as it is or appends one `SetValueCmd` on
the field of the element, of kind rich text when the field value is an object and text
otherwise.  When the references are determined: for a text value exactly one command
is appended when the value contains the old reference, with the full value in which
`utils.replaceAll` has replaced the old reference by the new one, and none when it does
not contain it; for an object the same holds of its `JSON.stringify` text, the command
carrying what `JSON.parse` reads from the replaced text.  When no reference is
determined no command is appended.  `replaceAll` leaves a text without the old reference
as it is, and replaces an occurrence of a reference whose only `'$'` is its first
character in its place. -/
theorem rename_at_most_one_command (json : JSON)
    (getParameterByName : String → Option Parameter) (f : Fields) (ancestors : List Fields)
    (parameter : Parameter) (paramParent : Option Parameter) (newParameterName field : String)
    (cmdGroup : List Command) :
    (∀ group,
      addCommandForChangedParameterName json getParameterByName f ancestors parameter
          paramParent newParameterName field cmdGroup = some group →
      group = cmdGroup ∨
      ∃ updatedValue, group = cmdGroup ++ [.setValue
        { objId := f.id, field := field, value := updatedValue,
          type := if (getValue f field).isObject = true then .richText else .text }]) ∧
    (∀ dataSources paramRef newParamRef,
      getAllDataSources getParameterByName f ancestors = some dataSources →
      paramRefs dataSources parameter paramParent newParameterName
        = some (paramRef, newParamRef) →
      (∀ value, getValue f field = .str value →
        (includes value paramRef = true →
          addCommandForChangedParameterName json getParameterByName f ancestors parameter
              paramParent newParameterName field cmdGroup
            = some (cmdGroup ++ [.setValue
                { objId := f.id, field := field,
                  value := .str (replaceAll value paramRef newParamRef), type := .text }])) ∧
        (includes value paramRef = false →
          addCommandForChangedParameterName json getParameterByName f ancestors parameter
              paramParent newParameterName field cmdGroup
            = some cmdGroup)) ∧
      ((getValue f field).isObject = true →
        (includes (json.stringify (getValue f field)) paramRef = true →
          ∀ updatedValue,
            json.parse (replaceAll (json.stringify (getValue f field)) paramRef newParamRef)
              = some updatedValue →
            addCommandForChangedParameterName json getParameterByName f ancestors parameter
                paramParent newParameterName field cmdGroup
              = some (cmdGroup ++ [.setValue
                  { objId := f.id, field := field, value := updatedValue,
                    type := .richText }])) ∧
        (includes (json.stringify (getValue f field)) paramRef = false →
          addCommandForChangedParameterName json getParameterByName f ancestors parameter
              paramParent newParameterName field cmdGroup
            = some cmdGroup))) ∧
    (∀ dataSources,
      getAllDataSources getParameterByName f ancestors = some dataSources →
      paramRefs dataSources parameter paramParent newParameterName = none →
      addCommandForChangedParameterName json getParameterByName f ancestors parameter
          paramParent newParameterName field cmdGroup
        = some cmdGroup) ∧
    (∀ value paramRef newParamRef : String, includes value paramRef = false →
      replaceAll value paramRef newParamRef = value) ∧
    (∀ (pre rest paramRef newParamRef : String) (q : List Char),
      paramRef.data = '$' :: q → '$' ∉ q →
      replaceAll (pre ++ paramRef ++ rest) paramRef newParamRef
        = replaceAll pre paramRef newParamRef ++ newParamRef
          ++ replaceAll rest paramRef newParamRef) := by
  refine ⟨?_, ?_, ?_, replaceAll_of_not_includes, replaceAll_occurrence⟩
  · intro group hgroup
    cases hsources : getAllDataSources getParameterByName f ancestors with
    | none =>
      unfold addCommandForChangedParameterName at hgroup
      rw [hsources] at hgroup
      exact Option.noConfusion hgroup
    | some dataSources =>
      cases hrefs : paramRefs dataSources parameter paramParent newParameterName with
      | none =>
        rw [addCommandForChangedParameterName_of_no_refs json getParameterByName f ancestors
          parameter paramParent newParameterName field cmdGroup dataSources hsources hrefs]
          at hgroup
        exact Or.inl (Option.some.inj hgroup).symm
      | some refs =>
        rw [addCommandForChangedParameterName_of_refs json getParameterByName f ancestors
          parameter paramParent newParameterName field cmdGroup dataSources refs.1 refs.2
          hsources hrefs] at hgroup
        exact addReplaceCommand_cases json f field _ _ cmdGroup group hgroup
  · intro dataSources paramRef newParamRef hsources hrefs
    have hresult := addCommandForChangedParameterName_of_refs json getParameterByName f
      ancestors parameter paramParent newParameterName field cmdGroup dataSources _ _
      hsources hrefs
    refine ⟨fun value hvalue => ⟨?_, ?_⟩, fun hobject => ⟨?_, ?_⟩⟩
    · intro hcontains
      rw [hresult, addReplaceCommand_text json f field _ _ cmdGroup value hvalue,
        if_pos hcontains]
    · intro hcontains
      rw [hresult, addReplaceCommand_text json f field _ _ cmdGroup value hvalue,
        if_neg (by simp [hcontains])]
    · intro hcontains updatedValue hparse
      rw [hresult, addReplaceCommand_object json f field _ _ cmdGroup hobject,
        if_pos hcontains, hparse]
    · intro hcontains
      rw [hresult, addReplaceCommand_object json f field _ _ cmdGroup hobject,
        if_neg (by simp [hcontains])]
  · intro dataSources hsources hrefs
    exact addCommandForChangedParameterName_of_no_refs json getParameterByName f ancestors
      parameter paramParent newParameterName field cmdGroup dataSources hsources hrefs

/-- C24 at a concrete element: renaming `qty` to `quantity` gives the text element whose
rich text is the list object 7 one rich text command with the object 8, read from the
replaced text. -/
theorem rename_at_most_one_command_witness :
    getValue richLabel "richTextContent" = .ref 7 ∧
    listJSON.stringify (.ref 7) = "[\"Total: $\x7bqty\x7d\"]" ∧
    addCommandForChangedParameterName listJSON documentParameters richLabel [] globalQty none
        "quantity" "richTextContent" []
      = some [.setValue
          { objId := 26, field := "richTextContent", value := .ref 8, type := .richText }] :=
  ⟨rfl, rfl,
    (((rename_at_most_one_command listJSON documentParameters richLabel [] globalQty none
      "quantity" "richTextContent" []).2.1 [] (simpleRef "qty") (simpleRef "quantity") rfl
        rfl).2 rfl).1 (by decide) (.ref 8) (by decide)⟩

end ReportBro
